import Mathlib

/-!
# Quantization preparation for LSTM ops

A shallow embedding of `tensorflow/compiler/mlir/lite/transforms/prepare_quantize_lstm.h`
(the rewrite pattern `ConvertLstmStatsToQDQs`).

Conventions of the embedding:

* In the embedding of the pattern, `double` and `float` values are exact rationals (`ℚ`):
  rounding, infinities and NaN are not part of it, and a numeric statement about it is a
  statement of exact arithmetic.  Where the value of a product, of a logarithm or of a
  quotient of doubles decides (the derived scale and the power-of-two branch), the functions
  are embedded a second time in double-precision arithmetic (`Double`, namespace `Fp`), with
  rounding to the nearest double after every operation, infinities and NaN.
* The matched op has `n` operand slots, addressed by `Fin n`, and five intermediate
  attributes (the vector `intermediate_attributes` of the pattern), addressed by `Fin 5`.
* A `Value` is identified with the single result of its defining op; ops that exist before
  the rewrite carry an `id`, so that structural equality of values is identity of ops.
* Diagnostics (`emitError`) are not modelled; only the returned `LogicalResult` and the
  effect on the IR are.

Two smaller embeddings follow the pattern, each with its conventions at its head: the map of
device ids of `tensorflow/core/common_runtime/device/device_id_manager.cc`, and the lowering of
strided slices in `tensorflow/compiler/tf2xla/kernels/strided_slice_op.cc`.
-/

namespace TFL

/-! ## Types and attributes of the IR -/

/-- The class `quant::UniformQuantizedType`: signedness flag, width of the integer storage
type, width of the floating-point expressed type, scale, zero point and storage range. -/
structure UniformQuantizedType where
  isSigned : Bool
  storageWidth : Nat
  expressedWidth : Nat
  scale : ℚ
  zeroPoint : Int
  storageTypeMin : Int
  storageTypeMax : Int
  deriving DecidableEq

/-- The class hierarchy under `quant::QuantizedType`, as far as the pattern tells its members
apart: uniform types, calibrated types (an expressed float type with a `min`/`max` range), and
every other quantized type (any-quantized, per-axis), of which only the storage width is read. -/
inductive QuantizedType where
  | uniform (u : UniformQuantizedType)
  | calibrated (expressedWidth : Nat) (min max : ℚ)
  | otherQuantized (storageWidth : Nat)
  deriving DecidableEq

/-- Element types: floats, integers, quantized types and `NoneType`. -/
inductive ElementType where
  | float (width : Nat)
  | integer (width : Nat)
  | quantized (q : QuantizedType)
  | noneType
  deriving DecidableEq

/-- An MLIR type: a bare element type, or a shaped type (ranked when `shape` is `some`,
unranked tensor otherwise) over an element type. -/
inductive MlirType where
  | scalar (e : ElementType)
  | shaped (shape : Option (List Nat)) (e : ElementType)
  deriving DecidableEq

/-- Attributes read by the pattern: `DenseFPElementsAttr` with its values, or anything else. -/
inductive Attribute where
  | denseFPElements (values : List ℚ)
  | otherAttribute
  deriving DecidableEq

/-- A value together with its defining op.  `blockArgument` has no defining op; `constant`
stands for `ConstantOp`/`TFL::ConstOp`, `statistics` for `quant::StatisticsOp` (with the number
of uses of its result by ops other than the matched LSTM op), `quantizeCast` and
`dequantizeCast` for `quant::QuantizeCastOp` (`Q`) and `quant::DequantizeCastOp` (`DQ`), and
`otherOp` for any other producer. -/
inductive Value where
  | blockArgument (n : Nat) (type : MlirType)
  | constant (id : Nat) (type : MlirType) (value : Attribute)
  | statistics (id : Nat) (arg : Value) (layerStats : Attribute) (type : MlirType)
      (otherUses : Nat)
  | quantizeCast (arg : Value) (type : MlirType)
  | dequantizeCast (arg : Value) (type : MlirType)
  | otherOp (id : Nat) (type : MlirType)
  deriving DecidableEq

/-- The method `Value::getType`. -/
def Value.getType : Value → MlirType
  | .blockArgument _ t => t
  | .constant _ t _ => t
  | .statistics _ _ _ t _ => t
  | .quantizeCast _ t => t
  | .dequantizeCast _ t => t
  | .otherOp _ t => t

/-- The helper `getElementTypeOrSelf`. -/
def getElementTypeOrSelf : MlirType → ElementType
  | .scalar e => e
  | .shaped _ e => e

/-- The static method `QuantizedType::getQuantizedElementType`: the element type when it is a
quantized type, null (`none`) otherwise. -/
def QuantizedType.getQuantizedElementType (t : MlirType) : Option QuantizedType :=
  match getElementTypeOrSelf t with
  | .quantized q => some q
  | _ => none

/-! ## The property table (`operator_property.h`) -/

/-- The struct `operator_property::DerivedScale`. -/
structure DerivedScale (n : Nat) where
  input_tensors : List (Fin n) := []
  intermediate_tensors : List (Fin 5) := []
  factors : List ℚ := []

/-- The struct `operator_property::TensorProperty`, with the fields the pattern reads and the
defaults of the declaration. -/
structure TensorProperty (n : Nat) where
  use_derived_scale : Bool := false
  derived_scale : DerivedScale n := {}
  number_of_bits : Nat := 8
  extend_to_power_of_two : Bool := false
  state_tensor : Bool := false

/-- The struct `operator_property::OperatorProperty`: the `inputs` and `intermediates`
tables, in table order. -/
structure OperatorProperty (n : Nat) where
  inputs : List (Fin n × TensorProperty n) := []
  intermediates : List (Fin 5 × TensorProperty n) := []

/-- The enum `tflite::BuiltinOperator`, as far as the pattern names its values (`ADD` is the
zero value a fresh `OpVariant` holds). -/
inductive BuiltinOperator where
  | ADD
  | LSTM
  | UNIDIRECTIONAL_SEQUENCE_LSTM
  deriving DecidableEq

/-- The struct `operator_property::OpVariant`, with the feature flags of the LSTM. -/
structure OpVariant where
  op_code : BuiltinOperator := .ADD
  use_projection : Bool := false
  use_peephole : Bool := false
  use_layer_norm : Bool := false

/-! ## The matched op and the rewriter -/

/-- The matched LSTM op as the pattern sees and changes it: its operands, its five
intermediate `TypeAttr` attributes (`none` when the attribute is absent), and the log of the
rewriter (ops created and ops erased so far, latest first). -/
structure LstmOp (n : Nat) where
  operands : Fin n → Value
  intermediates : Fin 5 → Option MlirType
  created : List Value := []
  erased : List Value := []

/-- The result of a step of the pattern: `success` or `failure` (a `LogicalResult`) with the
IR as the step leaves it, or `undefined` when the step dereferences a null type. -/
inductive Outcome (σ : Type) where
  | success (s : σ)
  | failure (s : σ)
  | undefined

/-- Whether an outcome is `success`. -/
def Outcome.succeeded {σ : Type} : Outcome σ → Bool
  | .success _ => true
  | _ => false

/-- Whether an outcome is `failure`. -/
def Outcome.failed {σ : Type} : Outcome σ → Bool
  | .failure _ => true
  | _ => false

/-! ## Scale derivation -/

/-- The method `getIntermediateType`: null when the attribute is absent, otherwise the
quantized element type of the attribute's type (null when that is not quantized). -/
def getIntermediateType {n : Nat} (op : LstmOp n) (intermediate_index : Fin 5) :
    Option QuantizedType :=
  match op.intermediates intermediate_index with
  | none => none
  | some t => QuantizedType.getQuantizedElementType t

/-- First loop of `getDerivedScale` (over `derived_scale.input_tensors`), from the running
product `scale`; `none` is the early `return failure()`. -/
def getDerivedScale.inputLoop {n : Nat} (op : LstmOp n) : List (Fin n) → ℚ → Option ℚ
  | [], scale => some scale
  | tensor_index :: rest, scale =>
    match op.operands tensor_index with
    | .dequantizeCast arg _ =>
      match QuantizedType.getQuantizedElementType arg.getType with
      | some (.uniform u) => getDerivedScale.inputLoop op rest (scale * u.scale)
      | _ => none
    | _ => none

/-- Second loop of `getDerivedScale` (over `derived_scale.intermediate_tensors`). -/
def getDerivedScale.intermediateLoop {n : Nat} (op : LstmOp n) : List (Fin 5) → ℚ → Option ℚ
  | [], scale => some scale
  | tensor_index :: rest, scale =>
    match getIntermediateType op tensor_index with
    | some (.uniform u) => getDerivedScale.intermediateLoop op rest (scale * u.scale)
    | _ => none

/-- The method `getDerivedScale`: `some scale` on `success()` with the value written to the
out-parameter, `none` on `failure()`.  The index `_input_index` only feeds the diagnostic.
The products are exact here; `Fp.getDerivedScale` is the method with the products of
doubles. -/
def getDerivedScale {n : Nat} (op : LstmOp n) (_input_index : Fin n)
    (tensor_property : TensorProperty n) : Option ℚ :=
  match getDerivedScale.inputLoop op tensor_property.derived_scale.input_tensors 1 with
  | none => none
  | some s1 =>
    match getDerivedScale.intermediateLoop op
        tensor_property.derived_scale.intermediate_tensors s1 with
    | none => none
    | some s2 =>
      some (tensor_property.derived_scale.factors.foldl (fun scale factor => scale * factor) s2)

/-! ## Numeric helpers and type construction -/

/-- The function `llvm::minIntN`: the least `N`-bit signed integer (for `1 ≤ N ≤ 64`, the
range its assertion allows). -/
def minIntN (N : Nat) : Int := -(2 ^ (N - 1))

/-- The function `llvm::maxIntN`: the greatest `N`-bit signed integer. -/
def maxIntN (N : Nat) : Int := 2 ^ (N - 1) - 1

/-- The function `llvm::maxUIntN`: the greatest `N`-bit unsigned integer. -/
def maxUIntN (N : Nat) : Int := 2 ^ N - 1

/-- Modelled from the spec: `UniformQuantizedType::getChecked` is the checked constructor of
the MLIR quant dialect, called by the header and not part of it.  It returns null (`none`)
unless the invariants of the data model hold (spec §3, QuantizedType: `scale > 0`, a storage
range consistent with bit width and signedness, a floating-point expressed type): the storage
width is between 1 and 32, the storage range is non-empty and inside the default range of the
storage type, the expressed type is a float type and the scale is positive.  The zero point is
stored as given. -/
def UniformQuantizedType.getChecked (isSigned : Bool) (storageWidth : Nat)
    (expressedType : ElementType) (scale : ℚ) (zeroPoint storageTypeMin storageTypeMax : Int) :
    Option UniformQuantizedType :=
  let defaultIntegerMin : Int := if isSigned then minIntN storageWidth else 0
  let defaultIntegerMax : Int := if isSigned then maxIntN storageWidth else maxUIntN storageWidth
  if storageWidth = 0 ∨ 32 < storageWidth then none
  else if storageTypeMax - storageTypeMin ≤ 0 ∨ storageTypeMin < defaultIntegerMin ∨
      defaultIntegerMax < storageTypeMax then none
  else
    match expressedType with
    | .float w =>
      if scale ≤ 0 then none
      else some
        { isSigned := isSigned, storageWidth := storageWidth, expressedWidth := w,
          scale := scale, zeroPoint := zeroPoint, storageTypeMin := storageTypeMin,
          storageTypeMax := storageTypeMax }
    | _ => none

/-- The method `QuantizedType::castFromExpressedType`: the candidate type with its expressed
element type replaced by the quantized type; null when the candidate's element type is not
the expressed type. -/
def UniformQuantizedType.castFromExpressedType (q : UniformQuantizedType) :
    MlirType → Option MlirType
  | .scalar e =>
    if e = .float q.expressedWidth then some (.scalar (.quantized (.uniform q))) else none
  | .shaped shape e =>
    if e = .float q.expressedWidth then some (.shaped shape (.quantized (.uniform q))) else none

/-- The method `QuantizedType::getExpressedType`, where the embedding records it. -/
def QuantizedType.getExpressedType : QuantizedType → Option ElementType
  | .uniform u => some (.float u.expressedWidth)
  | .calibrated w _ _ => some (.float w)
  | .otherQuantized _ => none

/-- The static method `QuantizedType::castToExpressedType`: the type with its quantized
element type replaced by the expressed type; null when the element type is not quantized. -/
def QuantizedType.castToExpressedType : MlirType → Option MlirType
  | .scalar (.quantized q) => q.getExpressedType.map MlirType.scalar
  | .shaped shape (.quantized q) => q.getExpressedType.map (MlirType.shaped shape)
  | _ => none

/-- The method `QuantizedType::getStorageTypeIntegralWidth` (a calibrated type has no storage
type; the pattern never asks for its width). -/
def QuantizedType.getStorageTypeIntegralWidth : QuantizedType → Nat
  | .uniform u => u.storageWidth
  | .calibrated _ _ _ => 0
  | .otherQuantized w => w

/-- The function `power_of_two_bound`, `std::pow(2, std::ceil(std::log2(value)))`, in exact
arithmetic: for a positive value `Int.clog 2 value` is `⌈log₂ value⌉`
(see `power_of_two_bound_eq_rpow`); for `0`, `log2` is `-∞` and `pow(2, -∞)` is `0`.  The
function is only called on a maximum of absolute values; a negative argument (NaN in the
source) is mapped to `0`, which like NaN is not a legal scale.  `Fp.power_of_two_bound` is the
function on doubles, where `std::log2` rounds. -/
def power_of_two_bound (value : ℚ) : ℚ :=
  if value ≤ 0 then 0 else (2 : ℚ) ^ Int.clog 2 value

/-- The constant `power_of_two_scale`. -/
def power_of_two_scale : ℚ := 32768

/-- The constant `std::numeric_limits<double>::epsilon()`. -/
def doubleEpsilon : ℚ := 1 / 2 ^ 52

/-- The C function `round` followed by the conversion to `int64_t`: nearest integer, halfway
cases away from zero. -/
def roundHalfAway (x : ℚ) : Int :=
  if 0 ≤ x then ⌊x + 1 / 2⌋ else ⌈x - 1 / 2⌉

/-- Modelled from the spec: `getDefaultStorageParams` is a helper of the MLIR function
`fakeQuantAttrsToType`, which the header calls and which is not part of it.  Spec §4.3: the
range is mapped "to the full `bits`-bit signed/unsigned range as configured", with narrow range
"storage values exclude the most-negative code", and "any other bits value" than 8 and 16
fails as unsupported.  Returns the storage width and the storage range at 8 and at 16 bits, and
null at every other width. -/
def getDefaultStorageParams (numBits : Nat) (narrowRange isSigned : Bool) :
    Option (Nat × Int × Int) :=
  let narrow (qmin : Int) : Int := if narrowRange then qmin + 1 else qmin
  if numBits = 8 then
    some (8, narrow (if isSigned then -128 else 0), if isSigned then 127 else 255)
  else if numBits = 16 then
    some (16, narrow (if isSigned then -32768 else 0), if isSigned then 32767 else 65535)
  else none

/-- Modelled from the spec: `getNudgedScaleAndZeroPoint` is a helper of the MLIR function
`fakeQuantAttrsToType`, not part of the header.  Spec §8: the scale is the width of the range
over the number of steps of the storage range (`(max-min)/255` at 8 bits) and the zero point is
"computed to map 0.0 exactly to an integer code": it is solved from whichever end of the range
has the smaller error term, clamped to the storage range and rounded. -/
def getNudgedScaleAndZeroPoint (qmin qmax : Int) (rmin rmax : ℚ) : ℚ × Int :=
  let qminDouble : ℚ := qmin
  let qmaxDouble : ℚ := qmax
  let scale : ℚ := (rmax - rmin) / (qmaxDouble - qminDouble)
  let zeroPointFromMin : ℚ := qminDouble - rmin / scale
  let zeroPointFromMinError : ℚ := |qminDouble| + |rmin / scale|
  let zeroPointFromMax : ℚ := qmaxDouble - rmax / scale
  let zeroPointFromMaxError : ℚ := |qmaxDouble| + |rmax / scale|
  let zeroPointDouble : ℚ :=
    if zeroPointFromMinError < zeroPointFromMaxError then zeroPointFromMin else zeroPointFromMax
  let nudgedZeroPoint : Int :=
    if zeroPointDouble < qminDouble then qmin
    else if qmaxDouble < zeroPointDouble then qmax
    else roundHalfAway zeroPointDouble
  (scale, nudgedZeroPoint)

/-- Modelled from the spec: `quant::fakeQuantAttrsToType` is the MLIR library function the
header calls for range quantization; it is not part of the header.  Spec §4.3 calls it the
"standard fake-quantization mapping of `[min,max]` to the full `bits`-bit signed/unsigned range
as configured".  As in the library, a range narrower than the machine epsilon gets scale `1`
and the least storage value as zero point; otherwise scale and zero point are the nudged ones.
The result is null (`none`) when the bit width is unsupported or the checked constructor
rejects the parameters (a range given in the wrong order has a negative scale). -/
def fakeQuantAttrsToType (numBits : Nat) (rmin rmax : ℚ) (narrowRange : Bool)
    (expressedType : ElementType) (isSigned : Bool) : Option UniformQuantizedType :=
  match getDefaultStorageParams numBits narrowRange isSigned with
  | none => none
  | some (storageWidth, qmin, qmax) =>
    if |rmax - rmin| < doubleEpsilon then
      UniformQuantizedType.getChecked isSigned storageWidth expressedType 1 qmin qmin qmax
    else
      UniformQuantizedType.getChecked isSigned storageWidth expressedType
        (getNudgedScaleAndZeroPoint qmin qmax rmin rmax).1
        (getNudgedScaleAndZeroPoint qmin qmax rmin rmax).2 qmin qmax

/-- What the pattern takes from outside the header: the answer of
`quant_specs.IsSignedInferenceType()`, and the function
`quant::GetUniformQuantizedTypeForWeight` at the arguments the pattern fixes
(`symmetric`, `is_signed` and `narrow_range` all true), from the values of the constant and
the bit width to a uniform type or null. -/
structure Context where
  isSignedInferenceType : Bool
  getUniformQuantizedTypeForWeight : List ℚ → Nat → Option UniformQuantizedType

/-! ## The rewriting steps -/

/-- The body of a `for` loop either goes on to the next entry with the IR as it is now
(`next`, also for `continue`) or leaves the function with an outcome (`done`). -/
inductive Step (σ : Type) where
  | next (s : σ)
  | done (r : Outcome σ)

/-- The test `matchPattern(const_op->getResult(0), m_Constant(&attr))` with a
`DenseFPElementsAttr attr`: the values of a constant op whose value is dense floating-point
elements, null otherwise. -/
def matchConstantFP : Value → Option (List ℚ)
  | .constant _ _ (.denseFPElements values) => some values
  | _ => none

/-- The last four statements of `processConstantOp`: `q = create<Q>(cast_type, const_op)`,
`dq = create<DQ>(cast_type, q)` and `op.setOperand(input_index, dq)`.  The constant op stays;
the other operands are untouched. -/
def processConstantOp.rewrite {n : Nat} (op : LstmOp n) (const_op : Value) (input_index : Fin n)
    (cast_type : MlirType) : LstmOp n :=
  let q := Value.quantizeCast const_op cast_type
  let dq := Value.dequantizeCast q cast_type
  { op with
    operands := Function.update op.operands input_index dq
    created := dq :: q :: op.created }

/-- The end of `processConstantOp` (from `if (!quant_type)` on): failure on a null type,
otherwise a `Q` op on the constant and a `DQ` op on the `Q`, both of the cast type, are created
and operand `input_index` of the op is set to the `DQ`. -/
def processConstantOp.finish {n : Nat} (op : LstmOp n) (const_op : Value) (input_index : Fin n) :
    Option UniformQuantizedType → Outcome (LstmOp n)
  | none => .failure op
  | some quant_type =>
    match quant_type.castFromExpressedType const_op.getType with
    | none => .undefined
    | some cast_type => .success (processConstantOp.rewrite op const_op input_index cast_type)

/-- The method `processConstantOp`. -/
def processConstantOp {n : Nat} (ctx : Context) (op : LstmOp n) (const_op : Value)
    (input_index : Fin n) (tensor_property : TensorProperty n) : Outcome (LstmOp n) :=
  match const_op.getType with
  | .shaped _ (.float w) =>
    match matchConstantFP const_op with
    | none => .failure op
    | some attr =>
      let storage_min := minIntN tensor_property.number_of_bits
      let storage_max := maxIntN tensor_property.number_of_bits
      let storage_type := tensor_property.number_of_bits
      let expressed_type := ElementType.float w
      if tensor_property.use_derived_scale then
        if tensor_property.number_of_bits ≠ 32 then .failure op
        else
          match getDerivedScale op input_index tensor_property with
          | none => .failure op
          | some scale =>
            processConstantOp.finish op const_op input_index
              (UniformQuantizedType.getChecked true storage_type expressed_type scale 0
                storage_min storage_max)
      else
        processConstantOp.finish op const_op input_index
          (ctx.getUniformQuantizedTypeForWeight attr tensor_property.number_of_bits)
  | _ => .success op

/-- The number of uses of a value: the operand slots of the matched op that hold it, plus, for
the result of a statistics op, its uses by other ops. -/
def numUses {n : Nat} (op : LstmOp n) (v : Value) : Nat :=
  ((List.finRange n).filter (fun i => decide (op.operands i = v))).length +
    match v with
    | .statistics _ _ _ _ otherUses => otherUses
    | _ => 0

/-- The method `Value::hasOneUse`. -/
def hasOneUse {n : Nat} (op : LstmOp n) (v : Value) : Bool :=
  decide (numUses op v = 1)

/-- The last two statements of `replaceStatsOp`: `q = create<Q>(result_type, stats_op.arg())`
and `replaceOpWithNewOp<DQ>(stats_op, stats_op.getType(), q)`, which creates the `DQ`, makes
every use of the statistics op's result a use of the `DQ`, and erases the statistics op. -/
def replaceStatsOp.rewrite {n : Nat} (op : LstmOp n) (stats_op arg : Value) (type : MlirType)
    (result_type : MlirType) : LstmOp n :=
  let q := Value.quantizeCast arg result_type
  let dq := Value.dequantizeCast q type
  { op with
    operands := fun i => if op.operands i = stats_op then dq else op.operands i
    created := dq :: q :: op.created
    erased := stats_op :: op.erased }

/-- The end of `replaceStatsOp` (from `rewriter.setInsertionPointAfter(stats_op)` on).  The
type is dereferenced without a null check; a `Q` op of the cast type is created on the argument
of the statistics op, and the statistics op is replaced by a `DQ` op of its own type: every
use of its result becomes the `DQ`, and the statistics op is erased. -/
def replaceStatsOp.finish {n : Nat} (op : LstmOp n) (stats_op arg : Value) (type : MlirType) :
    Option UniformQuantizedType → Outcome (LstmOp n)
  | none => .undefined
  | some quant_type =>
    match quant_type.castFromExpressedType type with
    | none => .undefined
    | some result_type => .success (replaceStatsOp.rewrite op stats_op arg type result_type)

/-- The method `replaceStatsOp`.  The parameter is typed `quant::StatisticsOp`; on any other
value the embedding has nothing to follow (`undefined`).  The bound and the scale of the
power-of-two branch are exact here; `Fp.replaceStatsOp` is the method with the logarithm, the
power and the quotient of doubles. -/
def replaceStatsOp {n : Nat} (op : LstmOp n) (stats_op : Value) (_input_index : Fin n)
    (tensor_property : TensorProperty n) : Outcome (LstmOp n) :=
  match stats_op with
  | .statistics _ arg layerStats type _ =>
    if tensor_property.state_tensor && !hasOneUse op stats_op then .failure op
    else
      match layerStats with
      | .denseFPElements [min, max] =>
        let expressed := getElementTypeOrSelf type
        if tensor_property.extend_to_power_of_two then
          if tensor_property.number_of_bits ≠ 16 then .failure op
          else
            let bound := power_of_two_bound (Max.max |min| |max|)
            replaceStatsOp.finish op stats_op arg type
              (UniformQuantizedType.getChecked true tensor_property.number_of_bits expressed
                (bound / ((-minIntN tensor_property.number_of_bits : Int) : ℚ)) 0
                (minIntN tensor_property.number_of_bits)
                (maxIntN tensor_property.number_of_bits))
        else
          replaceStatsOp.finish op stats_op arg type
            (fakeQuantAttrsToType tensor_property.number_of_bits min max false expressed true)
      | _ => .failure op
  | _ => .undefined

/-- The end of the loop body of `processIntermediates` (the `op.setAttr` call): the type is
dereferenced without a null check, and the attribute becomes the old attribute type, cast to
the expressed type and from there to the new quantized type. -/
def processIntermediates.install {n : Nat} (op : LstmOp n) (index : Fin 5) (attr : MlirType) :
    Option UniformQuantizedType → Step (LstmOp n)
  | none => .done .undefined
  | some qtype =>
    match (QuantizedType.castToExpressedType attr).bind qtype.castFromExpressedType with
    | none => .done .undefined
    | some t => .next { op with intermediates := Function.update op.intermediates index (some t) }

/-- The loop body of `processIntermediates` for one entry of `lstm_property.intermediates`. -/
def processIntermediates.body {n : Nat} (ctx : Context) (lstm_variant : OpVariant)
    (op : LstmOp n) (index : Fin 5) (tensor_property : TensorProperty n) : Step (LstmOp n) :=
  if !lstm_variant.use_layer_norm && index ≠ 4 then .next op
  else
    match op.intermediates index, getIntermediateType op index with
    | some attr, some (.calibrated w min max) =>
      if tensor_property.number_of_bits = 8 then
        processIntermediates.install op index attr
          (fakeQuantAttrsToType tensor_property.number_of_bits min max false (.float w)
            ctx.isSignedInferenceType)
      else if tensor_property.number_of_bits = 16 then
        let max' := Max.max |min| |max|
        processIntermediates.install op index attr
          (fakeQuantAttrsToType tensor_property.number_of_bits (-max') max' true (.float w) true)
      else .done (.failure op)
    | some _, some quant_type =>
      let num_storage_bits := quant_type.getStorageTypeIntegralWidth
      if tensor_property.number_of_bits ≠ num_storage_bits then .done (.failure op)
      else .next op
    | _, _ =>
      if index = 4 && !lstm_variant.use_projection then .done (.success op)
      else .done (.failure op)

/-- The `for` loop of `processIntermediates` over the remaining entries of the table. -/
def processIntermediates.loop {n : Nat} (ctx : Context) (lstm_variant : OpVariant) :
    LstmOp n → List (Fin 5 × TensorProperty n) → Outcome (LstmOp n)
  | op, [] => .success op
  | op, (index, tensor_property) :: rest =>
    match processIntermediates.body ctx lstm_variant op index tensor_property with
    | .next op' => processIntermediates.loop ctx lstm_variant op' rest
    | .done r => r

/-- The method `processIntermediates`. -/
def processIntermediates {n : Nat} (ctx : Context) (op : LstmOp n) (lstm_variant : OpVariant)
    (lstm_property : OperatorProperty n) : Outcome (LstmOp n) :=
  processIntermediates.loop ctx lstm_variant op lstm_property.intermediates

/-- The loop body of `processInputs` for one entry of `lstm_property.inputs`. -/
def processInputs.body {n : Nat} (ctx : Context) (op : LstmOp n) (index : Fin n)
    (tensor_property : TensorProperty n) : Step (LstmOp n) :=
  match op.operands index with
  | .blockArgument _ _ => .next op
  | .constant id type value =>
    match processConstantOp ctx op (.constant id type value) index tensor_property with
    | .success op' => .next op'
    | r => .done r
  | .statistics id arg layerStats type otherUses =>
    match replaceStatsOp op (.statistics id arg layerStats type otherUses) index
        tensor_property with
    | .success op' => .next op'
    | r => .done r
  | .dequantizeCast _ _ => .next op
  | _ => .done (.failure op)

/-- The `for` loop of `processInputs` over the remaining entries of the table. -/
def processInputs.loop {n : Nat} (ctx : Context) :
    LstmOp n → List (Fin n × TensorProperty n) → Outcome (LstmOp n)
  | op, [] => .success op
  | op, (index, tensor_property) :: rest =>
    match processInputs.body ctx op index tensor_property with
    | .next op' => processInputs.loop ctx op' rest
    | .done r => r

/-- The method `processInputs`. -/
def processInputs {n : Nat} (ctx : Context) (op : LstmOp n) (_lstm_variant : OpVariant)
    (lstm_property : OperatorProperty n) : Outcome (LstmOp n) :=
  processInputs.loop ctx op lstm_property.inputs

/-- What `matchAndRewrite` reads of the template parameter `SourceOp`: which builtin operator
the op is (`none` when it is neither `TFL::LSTMOp` nor `TFL::UnidirectionalSequenceLSTMOp`) and
the operand slots behind the accessors `projection_weights`, `cell_to_output_weights` and
`forget_layer_norm_coefficients`. -/
structure SourceOp (n : Nat) where
  op_code : Option BuiltinOperator
  projection_weights : Fin n
  cell_to_output_weights : Fin n
  forget_layer_norm_coefficients : Fin n

/-- The test `getType().isa<NoneType>()` on a value. -/
def Value.isNoneType (v : Value) : Bool :=
  decide (v.getType = .scalar .noneType)

/-- The method `matchAndRewrite`, with the table lookup
`operator_property::GetOperatorProperty` as a parameter. -/
def matchAndRewrite {n : Nat} (ctx : Context)
    (GetOperatorProperty : OpVariant → OperatorProperty n) (source : SourceOp n)
    (op : LstmOp n) : Outcome (LstmOp n) :=
  match source.op_code with
  | none => .failure op
  | some op_code =>
    let lstm_variant : OpVariant :=
      { op_code := op_code
        use_projection := !(op.operands source.projection_weights).isNoneType
        use_peephole := !(op.operands source.cell_to_output_weights).isNoneType
        use_layer_norm := !(op.operands source.forget_layer_norm_coefficients).isNoneType }
    let lstm_property := GetOperatorProperty lstm_variant
    match processIntermediates ctx op lstm_variant lstm_property with
    | .success op' => processInputs ctx op' lstm_variant lstm_property
    | r => r

/-! ## Specification-side predicates -/

/-- A dependency input tensor is already quantized: operand `i` is produced by a dequantize op
whose source element type is a uniform quantized type. -/
def InputDependencyQuantized {n : Nat} (op : LstmOp n) (i : Fin n) : Prop :=
  ∃ arg type u, op.operands i = .dequantizeCast arg type ∧
    QuantizedType.getQuantizedElementType arg.getType = some (.uniform u)

/-- A dependency intermediate tensor is already quantized: attribute `j` is present and its
element type is a uniform quantized type. -/
def IntermediateDependencyQuantized {n : Nat} (op : LstmOp n) (j : Fin 5) : Prop :=
  ∃ t u, op.intermediates j = some t ∧
    QuantizedType.getQuantizedElementType t = some (.uniform u)

/-! ## A concrete op for evaluation -/

namespace Example

/-- An 8-bit signed narrow-range weight type of scale `1/2`. -/
def weightType : UniformQuantizedType :=
  { isSigned := true, storageWidth := 8, expressedWidth := 32, scale := 1 / 2, zeroPoint := 0,
    storageTypeMin := -127, storageTypeMax := 127 }

/-- An 8-bit signed activation type of scale `1/4`. -/
def inputType : UniformQuantizedType :=
  { isSigned := true, storageWidth := 8, expressedWidth := 32, scale := 1 / 4, zeroPoint := 3,
    storageTypeMin := -128, storageTypeMax := 127 }

/-- A 16-bit signed intermediate type of scale `1/8`. -/
def hiddenType : UniformQuantizedType :=
  { isSigned := true, storageWidth := 16, expressedWidth := 32, scale := 1 / 8, zeroPoint := 0,
    storageTypeMin := -32767, storageTypeMax := 32767 }

/-- The type `tensor<4xf32>`. -/
def f32Tensor : MlirType := .shaped (some [4]) (.float 32)

/-- A float weight constant. -/
def weightConst : Value := .constant 1 f32Tensor (.denseFPElements [1, -2, 3, 1 / 2])

/-- A float bias constant. -/
def biasConst : Value := .constant 2 f32Tensor (.denseFPElements [1, 1, 1, 1])

/-- A quantize/dequantize pair of the given type on a value. -/
def qdq (v : Value) (u : UniformQuantizedType) : Value :=
  .dequantizeCast (.quantizeCast v (.shaped (some [4]) (.quantized (.uniform u))))
    (.shaped (some [4]) (.quantized (.uniform u)))

/-- An op with four operands: a quantized activation, a quantized weight, a float bias
constant and a calibrated state; intermediate 4 is quantized, the others are absent. -/
def op : LstmOp 4 :=
  { operands := fun i =>
      if i = 0 then qdq (.blockArgument 0 f32Tensor) inputType
      else if i = 1 then qdq weightConst weightType
      else if i = 2 then biasConst
      else .statistics 3 (.blockArgument 1 f32Tensor) (.denseFPElements [-1, 3]) f32Tensor 0
    intermediates := fun j =>
      if j = 4 then some (.shaped (some [4]) (.quantized (.uniform hiddenType))) else none }

/-- A bias property: 32 bits, scale derived from inputs 0 and 1, intermediate 4 and the
factor `2`. -/
def biasProperty : TensorProperty 4 :=
  { use_derived_scale := true
    derived_scale := { input_tensors := [0, 1], intermediate_tensors := [4], factors := [2] }
    number_of_bits := 32 }

/-- A context with signed inference type and no weight quantization. -/
def ctx : Context :=
  { isSignedInferenceType := true, getUniformQuantizedTypeForWeight := fun _ _ => none }

/-- A cell-state property: 16 bits, power-of-two scale, state tensor. -/
def stateProperty : TensorProperty 4 :=
  { number_of_bits := 16, extend_to_power_of_two := true, state_tensor := true }

/-- The statistics op feeding operand 3 of the example op, with range `[-1, 3]`. -/
def stats : Value :=
  .statistics 3 (.blockArgument 1 f32Tensor) (.denseFPElements [-1, 3]) f32Tensor 0

/-- A statistics op whose range is `[0, 0]` (an all-zero state). -/
def zeroStats : Value :=
  .statistics 3 (.blockArgument 1 f32Tensor) (.denseFPElements [0, 0]) f32Tensor 0

/-- The example op with the all-zero statistics op on operand 3. -/
def zeroStatsOp : LstmOp 4 :=
  { op with operands := Function.update op.operands 3 zeroStats }

/-- The statistics op of the example with one more use outside the LSTM op. -/
def sharedStats : Value :=
  .statistics 3 (.blockArgument 1 f32Tensor) (.denseFPElements [-1, 3]) f32Tensor 1

/-- The example op with the shared statistics op on operand 3. -/
def sharedStatsOp : LstmOp 4 :=
  { op with operands := Function.update op.operands 3 sharedStats }

/-- The default input property: 8 bits, no flags. -/
def inputProperty : TensorProperty 4 := {}

/-- A 16-bit input property without the power-of-two flag. -/
def wideProperty : TensorProperty 4 := { number_of_bits := 16 }

/-- A state property with the power-of-two flag at 8 bits. -/
def narrowStateProperty : TensorProperty 4 :=
  { number_of_bits := 8, extend_to_power_of_two := true, state_tensor := true }

/-- The example op with intermediate 4 calibrated to `[-3.5, 7.0]`. -/
def calibratedOp : LstmOp 4 :=
  { op with
    intermediates := fun j =>
      if j = 4 then some (.shaped (some [4]) (.quantized (.calibrated 32 (-7 / 2) 7)))
      else none }

end Example

/-! ## Reaching an entry of a table -/

/-- The IR with which the loop of `processIntermediates` arrives behind the given entries, when
none of them leaves the function (`none` when one does). -/
def processIntermediates.through {n : Nat} (ctx : Context) (lstm_variant : OpVariant) :
    LstmOp n → List (Fin 5 × TensorProperty n) → Option (LstmOp n)
  | op, [] => some op
  | op, (index, tensor_property) :: rest =>
    match processIntermediates.body ctx lstm_variant op index tensor_property with
    | .next op' => processIntermediates.through ctx lstm_variant op' rest
    | .done _ => none

/-- The IR with which the loop of `processInputs` arrives behind the given entries, when none
of them leaves the function (`none` when one does). -/
def processInputs.through {n : Nat} (ctx : Context) :
    LstmOp n → List (Fin n × TensorProperty n) → Option (LstmOp n)
  | op, [] => some op
  | op, (index, tensor_property) :: rest =>
    match processInputs.body ctx op index tensor_property with
    | .next op' => processInputs.through ctx op' rest
    | .done _ => none

namespace Example

/-- A statistics op whose payload holds three values. -/
def badStats : Value :=
  .statistics 3 (.blockArgument 1 f32Tensor) (.denseFPElements [-1, 0, 3]) f32Tensor 0

/-- The example op with the three-value statistics op on operand 3. -/
def badStatsOp : LstmOp 4 :=
  { op with operands := Function.update op.operands 3 badStats }

end Example

namespace Example

/-- The example op without any intermediate attribute. -/
def bareOp : LstmOp 4 :=
  { op with intermediates := fun _ => none }

/-- The example op with intermediate 0 calibrated to `[-3.5, 7.0]` and the others absent. -/
def slotZeroOp : LstmOp 4 :=
  { op with
    intermediates := fun j =>
      if j = 0 then some (.shaped (some [4]) (.quantized (.calibrated 32 (-7 / 2) 7)))
      else none }

/-- A table of the five intermediate slots, in order, with 16 bits for slot 4. -/
def intermediateTable : List (Fin 5 × TensorProperty 4) :=
  [(0, {}), (1, {}), (2, {}), (3, {}), (4, wideProperty)]

/-- An operator property with the table of intermediates and no inputs. -/
def intermediatesOnly : OperatorProperty 4 :=
  { intermediates := intermediateTable }

/-- An LSTM without projection, peephole and layer normalization. -/
def plainVariant : OpVariant := { op_code := .LSTM }

/-- An LSTM with projection only. -/
def projectionVariant : OpVariant := { op_code := .LSTM, use_projection := true }

end Example

namespace Example

/-- An integer constant. -/
def intConst : Value := .constant 9 (.shaped (some [4]) (.integer 32)) .otherAttribute

/-- A derived-scale property with 16 bits. -/
def narrowBiasProperty : TensorProperty 4 :=
  { biasProperty with number_of_bits := 16 }

/-- The type of the example bias: 32 bits, signed, scale `1/32`. -/
def biasType : UniformQuantizedType :=
  { isSigned := true, storageWidth := 32, expressedWidth := 32, scale := 1 / 32,
    zeroPoint := 0, storageTypeMin := -2 ^ 31, storageTypeMax := 2 ^ 31 - 1 }

end Example

/-! ## Kinds of producers, as `processInputs` tells them apart -/

/-- The producers that `processInputs` rewrites: constant ops and statistics ops. -/
def Value.isConstantOrStatistics : Value → Bool
  | .constant _ _ _ => true
  | .statistics _ _ _ _ _ => true
  | _ => false

/-- The producers that `processInputs` rejects: an op that is neither a constant, a statistics
op nor a dequantize op. -/
def Value.isUnexpectedProducer : Value → Bool
  | .quantizeCast _ _ => true
  | .otherOp _ _ => true
  | _ => false

/-- The operands that `processInputs` passes over: no producer, or a dequantize op. -/
def Value.isArgumentOrDequantize : Value → Bool
  | .blockArgument _ _ => true
  | .dequantizeCast _ _ => true
  | _ => false

namespace Example

/-- The example op with operand 1 produced by some other op. -/
def unexpectedOp : LstmOp 4 :=
  { op with operands := Function.update op.operands 1 (.otherOp 7 f32Tensor) }

/-- An operator property that lists inputs 0 and 1. -/
def twoInputs : OperatorProperty 4 :=
  { inputs := [(0, {}), (1, {})] }

end Example

/-- The variant that `matchAndRewrite` builds for an op of builtin operator `op_code`: a
feature is in use when the operand behind its accessor is not of `NoneType`. -/
def matchAndRewrite.variant {n : Nat} (source : SourceOp n) (op : LstmOp n)
    (op_code : BuiltinOperator) : OpVariant :=
  { op_code := op_code
    use_projection := !(op.operands source.projection_weights).isNoneType
    use_peephole := !(op.operands source.cell_to_output_weights).isNoneType
    use_layer_norm := !(op.operands source.forget_layer_norm_coefficients).isNoneType }

namespace Example

/-- The accessors of the example op: an LSTM whose projection weights, peephole weights and
layer-norm coefficients are operands 1, 2 and 3. -/
def source : SourceOp 4 :=
  { op_code := some .LSTM, projection_weights := 1, cell_to_output_weights := 2,
    forget_layer_norm_coefficients := 3 }

end Example

namespace Example

/-- A derived-scale property whose only dependency is input 0, the activation, which is
quantized with zero point 3. -/
def activationScaled : TensorProperty 4 :=
  { use_derived_scale := true
    derived_scale := { input_tensors := [0] }
    number_of_bits := 32 }

end Example

namespace Example

/-- An LSTM with layer normalization only. -/
def layerNormVariant : OpVariant := { op_code := .LSTM, use_layer_norm := true }

/-- The example op with the 16-bit type on intermediate 0 and the other intermediates
absent. -/
def wideSlotZeroOp : LstmOp 4 :=
  { op with
    intermediates := fun j =>
      if j = 0 then some (.shaped (some [4]) (.quantized (.uniform hiddenType))) else none }

/-- A table that lists slot 4 (16 bits) before slot 0 (8 bits). -/
def hiddenFirst : OperatorProperty 4 :=
  { intermediates := [(4, wideProperty), (0, {})] }

/-- The table `hiddenFirst` without its entry for slot 4. -/
def slotZeroOnly : OperatorProperty 4 :=
  { intermediates := [(0, {})] }

end Example

/-! ## The map of device ids (`tensorflow/core/common_runtime/device/device_id_manager.cc`)

The process-wide map behind `TfToPlatformDeviceIdMap::singleton()` is passed explicitly: every
function takes the map as it is and returns it as it leaves it.  The mutex is not modelled (the
calls are taken one after the other), nor are the texts of the error messages.  Values of type
`int32` are integers. -/

/-- The class `DeviceType`, of which the map reads the type string. -/
structure DeviceType where
  type_string : String
  deriving DecidableEq

/-- The type `TfDeviceId`, an `int32` in a wrapper. -/
structure TfDeviceId where
  value : Int
  deriving DecidableEq

/-- The type `PlatformDeviceId`, an `int32` in a wrapper. -/
structure PlatformDeviceId where
  value : Int
  deriving DecidableEq

/-- The codes of `Status` that the manager returns. -/
inductive Status where
  | OK
  | AlreadyExists
  | NotFound
  deriving DecidableEq

/-- The container `std::unordered_map<Key, T>`: at most one value per key. -/
abbrev unordered_map (Key T : Type) : Type := Key → Option T

/-- The empty container, as the default constructor and `clear()` leave it. -/
def unordered_map.empty {Key T : Type} : unordered_map Key T := fun _ => none

/-- The method `std::unordered_map::insert`: when the key is present the container is left as
it is; the result is the container, the value that the returned iterator points at, and whether
the insertion took place. -/
def unordered_map.insert {Key T : Type} [DecidableEq Key] (m : unordered_map Key T) (key : Key)
    (value : T) : unordered_map Key T × T × Bool :=
  match m key with
  | some stored => (m, stored, false)
  | none => (Function.update m key (some value), value, true)

/-- The type `IdMapType`. -/
abbrev IdMapType : Type := unordered_map Int Int

/-- The type `TypeIdMapType`. -/
abbrev TypeIdMapType : Type := unordered_map String IdMapType

/-- The class `TfToPlatformDeviceIdMap`, with its one data member. -/
structure TfToPlatformDeviceIdMap where
  id_map_ : TypeIdMapType

/-- The map that `singleton()` creates on its first call: empty. -/
def TfToPlatformDeviceIdMap.singleton : TfToPlatformDeviceIdMap :=
  { id_map_ := unordered_map.empty }

/-- The method `TfToPlatformDeviceIdMap::Insert`: the status returned and the map afterwards.
The inner `insert` acts on the map that the iterator of the outer `insert` points at. -/
def TfToPlatformDeviceIdMap.Insert (self : TfToPlatformDeviceIdMap) (type : DeviceType)
    (tf_device_id : TfDeviceId) (platform_device_id : PlatformDeviceId) :
    Status × TfToPlatformDeviceIdMap :=
  let device_id_map_iter :=
    unordered_map.insert self.id_map_ type.type_string unordered_map.empty
  let result :=
    unordered_map.insert device_id_map_iter.2.1 tf_device_id.value platform_device_id.value
  let self' : TfToPlatformDeviceIdMap :=
    { id_map_ := Function.update device_id_map_iter.1 type.type_string (some result.1) }
  if !result.2.2 && platform_device_id.value ≠ result.2.1 then (.AlreadyExists, self')
  else (.OK, self')

/-- The method `TfToPlatformDeviceIdMap::Find`: the returned flag and the content of the
out-parameter `platform_device_id` afterwards. -/
def TfToPlatformDeviceIdMap.Find (self : TfToPlatformDeviceIdMap) (type : DeviceType)
    (tf_device_id : TfDeviceId) (platform_device_id : PlatformDeviceId) :
    Bool × PlatformDeviceId :=
  match self.id_map_ type.type_string with
  | none => (false, platform_device_id)
  | some ids =>
    match ids tf_device_id.value with
    | none => (false, platform_device_id)
    | some id => (true, { value := id })

/-- The method `TfToPlatformDeviceIdMap::TestOnlyReset`. -/
def TfToPlatformDeviceIdMap.TestOnlyReset (_self : TfToPlatformDeviceIdMap) :
    TfToPlatformDeviceIdMap :=
  { id_map_ := unordered_map.empty }

/-- The function `DeviceIdManager::InsertTfPlatformDeviceIdPair`, on the map of the
singleton. -/
def DeviceIdManager.InsertTfPlatformDeviceIdPair (id_map : TfToPlatformDeviceIdMap)
    (type : DeviceType) (tf_device_id : TfDeviceId) (platform_device_id : PlatformDeviceId) :
    Status × TfToPlatformDeviceIdMap :=
  id_map.Insert type tf_device_id platform_device_id

/-- The function `DeviceIdManager::TfToPlatformDeviceId`: the status and the content of the
out-parameter afterwards. -/
def DeviceIdManager.TfToPlatformDeviceId (id_map : TfToPlatformDeviceIdMap)
    (type : DeviceType) (tf_device_id : TfDeviceId) (platform_device_id : PlatformDeviceId) :
    Status × PlatformDeviceId :=
  match id_map.Find type tf_device_id platform_device_id with
  | (true, found) => (.OK, found)
  | (false, kept) => (.NotFound, kept)

/-- The function `DeviceIdManager::TestOnlyReset`. -/
def DeviceIdManager.TestOnlyReset (id_map : TfToPlatformDeviceIdMap) :
    TfToPlatformDeviceIdMap :=
  id_map.TestOnlyReset

/-- A sequence of calls of `InsertTfPlatformDeviceIdPair`, whatever each of them returns: the
map afterwards. -/
def DeviceIdManager.inserts :
    TfToPlatformDeviceIdMap → List (DeviceType × TfDeviceId × PlatformDeviceId) →
      TfToPlatformDeviceIdMap
  | id_map, [] => id_map
  | id_map, (type, tf_device_id, platform_device_id) :: calls =>
    DeviceIdManager.inserts
      (DeviceIdManager.InsertTfPlatformDeviceIdPair id_map type tf_device_id
        platform_device_id).2 calls

/-- The platform device id that the map holds for a device type and a TF device id, if any. -/
def TfToPlatformDeviceIdMap.stored (self : TfToPlatformDeviceIdMap) (type : DeviceType)
    (tf_device_id : TfDeviceId) : Option Int :=
  match self.id_map_ type.type_string with
  | none => none
  | some ids => ids tf_device_id.value

namespace Example

/-- The device type `GPU`. -/
def gpu : DeviceType := { type_string := "GPU" }

/-- The device type `TPU`. -/
def tpu : DeviceType := { type_string := "TPU" }

/-- The map after the GPU with TF device id 0 has been registered as platform device 2. -/
def registered : TfToPlatformDeviceIdMap :=
  (DeviceIdManager.InsertTfPlatformDeviceIdPair TfToPlatformDeviceIdMap.singleton gpu
    { value := 0 } { value := 2 }).2

end Example

/-! ## Lowering of strided slices (`tensorflow/compiler/tf2xla/kernels/strided_slice_op.cc`)

The part of `StridedSliceOp::Compile` that turns the canonical `begin`, `end` and `strides` of
`ValidateStridedSliceOp` into the arguments of `xla::Rev` and `xla::Slice`.  The arithmetic is
that of `int64`: a result outside the range wraps around (signed overflow is undefined in C++;
the wrap-around is what the negation and the subtraction of the hardware leave).  The operand
is followed along one dimension, as the list of its elements in index order; both XLA ops act
on each dimension on its own. -/

/-- The `int64` that a computation with the exact result `x` leaves: `x` itself when it is in
the range from `-2^63` to `2^63 - 1`, and `x` wrapped around into the range otherwise. -/
def int64 (x : Int) : Int :=
  (x + 2 ^ 63) % 2 ^ 64 - 2 ^ 63

/-- The element of a dimension at an index, when the index is inside the dimension. -/
def elementAt {α : Type} (x : List α) (index : Int) : Option α :=
  if 0 ≤ index then x[index.toNat]? else none

/-- The two functions of the XLA client library that the lowering calls, `xla::Rev` and
`xla::Slice`.  The library is not among the sources: the functions are taken as they are
given, on an operand of rank 1 (`Slice` returns `none` when it reports an error). -/
structure XlaOps (α : Type) where
  Rev : List α → List Int → List α
  Slice : List α → List Int → List Int → List Int → Option (List α)

/-- The reversed dimension, in the words of the claim on the lowering: the elements in the
opposite order when dimension 0 is among the dimensions to reverse. -/
def reversedDimension {α : Type} (operand : List α) (dimensions : List Int) : List α :=
  if (0 : Int) ∈ dimensions then operand.reverse else operand

/-- Slicing a dimension from a start index (inclusive) to a limit index (exclusive) with a
step, in the words of the claim on the lowering: the elements at `start`, `start + step`, … below
`limit`.  A slice is only there for `0 ≤ start ≤ limit ≤ size` and a positive step. -/
def slicedDimension {α : Type} (operand : List α)
    (start_indices limit_indices strides : List Int) : Option (List α) :=
  match start_indices, limit_indices, strides with
  | [start], [limit], [stride] =>
    if 0 ≤ start ∧ start ≤ limit ∧ limit ≤ operand.length ∧ 0 < stride then
      some ((List.range ((limit - start + stride - 1) / stride).toNat).filterMap
        (fun k : Nat => elementAt operand (start + k * stride)))
    else none
  | _, _, _ => none

/-- The two XLA ops as the claim on the lowering reads them. -/
def XlaOps.onDimension {α : Type} : XlaOps α :=
  { Rev := reversedDimension, Slice := slicedDimension }

/-- The vectors that the loop of `StridedSliceOp::Compile` fills. -/
structure SliceVectors where
  dimensions_to_reverse : List Int := []
  slice_begin : List Int := []
  slice_end : List Int := []
  slice_strides : List Int := []
  deriving DecidableEq

/-- The body of the loop of `StridedSliceOp::Compile` over the dimensions, for dimension `i`
of size `dim_size` with the canonical `begin[i]`, `end[i]` and `strides[i]`. -/
def StridedSliceOp.Compile.body (v : SliceVectors) (i : Int)
    (dim_size begin_i end_i strides_i : Int) : SliceVectors :=
  if strides_i > 0 then
    { v with
      slice_begin := v.slice_begin ++ [begin_i]
      slice_end := v.slice_end ++ [Max.max end_i begin_i]
      slice_strides := v.slice_strides ++ [strides_i] }
  else
    { slice_begin := v.slice_begin ++ [int64 (int64 (dim_size - begin_i) - 1)]
      slice_end := v.slice_end ++
        [Max.max (int64 (int64 (dim_size - end_i) - 1)) (int64 (int64 (dim_size - begin_i) - 1))]
      slice_strides := v.slice_strides ++ [int64 (-strides_i)]
      dimensions_to_reverse := v.dimensions_to_reverse ++ [i] }

/-- The loop of `StridedSliceOp::Compile` over the dimensions `i = 0, …, begin.size() - 1`. -/
def StridedSliceOp.Compile.loop (input_shape begin end_ strides : List Int) : SliceVectors :=
  (List.range begin.length).foldl
    (fun v (i : Nat) => StridedSliceOp.Compile.body v i (input_shape.getD i 0) (begin.getD i 0)
      (end_.getD i 0) (strides.getD i 0)) {}

/-- The slice that `StridedSliceOp::Compile` builds for constant `begin` and `end` (the loop,
the `xla::Rev` when a dimension is to be reversed, and the `xla::Slice`), on an input of
rank 1. -/
def StridedSliceOp.Compile.slice {α : Type} (xla : XlaOps α) (input : List α)
    (begin end_ strides : List Int) : Option (List α) :=
  let v := StridedSliceOp.Compile.loop [(input.length : Int)] begin end_ strides
  let slice := if v.dimensions_to_reverse ≠ [] then xla.Rev input v.dimensions_to_reverse
    else input
  xla.Slice slice v.slice_begin v.slice_end v.slice_strides

/-- The indices `begin, begin + stride, begin + 2 * stride, …` of a dimension of size
`dim_size` that are greater than `end`, in that order, for a negative stride (the terms from
the term number `dim_size` on are negative). -/
def negativeStrideIndices (dim_size : Nat) (begin_i end_i strides_i : Int) : List Int :=
  ((List.range dim_size).map (fun k : Nat => begin_i + k * strides_i)).filter
    (fun index => end_i < index)

/-- The elements of a dimension that a slice with negative stride denotes: those at the
indices `begin, begin + stride, …` greater than `end`, in that order. -/
def negativeStrideSlice {α : Type} (x : List α) (begin_i end_i strides_i : Int) : List α :=
  (negativeStrideIndices x.length begin_i end_i strides_i).filterMap (elementAt x)

namespace Example

/-- A dimension of size 6 with the elements 10, …, 15. -/
def dimension : List Nat := [10, 11, 12, 13, 14, 15]

end Example

/-! ## Double-precision arithmetic

The definitions above compute with the exact values.  The source computes with IEEE 754
doubles: `getDerivedScale` multiplies doubles, and `replaceStatsOp` takes a logarithm, a power
and a quotient of doubles.  This section has the doubles, and the next one has these two
functions on them.  A double is a rational (a finite value), an infinity or NaN; the sign of
zero is not kept.  Results are rounded to the nearest double, ties to even. -/

/-- A value of type `double`. -/
inductive Double where
  | finite (value : ℚ)
  | infinity (negative : Bool)
  | nan
  deriving DecidableEq

/-- The nearest integer, a tie going to the even one. -/
def roundHalfEven (x : ℚ) : Int :=
  if x - ⌊x⌋ < 1 / 2 then ⌊x⌋
  else if 1 / 2 < x - ⌊x⌋ then ⌊x⌋ + 1
  else if ⌊x⌋ % 2 = 0 then ⌊x⌋ else ⌊x⌋ + 1

/-- The double that an exact result is rounded to: the nearest multiple of `2 ^ (e - 52)`,
where `2 ^ e` is the power of two at or below the magnitude and `e` is at least `-1022`
(gradual underflow); a result of magnitude `2 ^ 1024` or more is an infinity. -/
def Double.round (x : ℚ) : Double :=
  if x = 0 then .finite 0
  else
    let exponent : Int := Max.max (Int.log 2 |x|) (-1022) - 52
    let rounded : ℚ := roundHalfEven (x / 2 ^ exponent) * 2 ^ exponent
    if (2 : ℚ) ^ (1024 : Int) ≤ |rounded| then .infinity (decide (x < 0)) else .finite rounded

/-- The product of two doubles (the operator `*`). -/
def Double.mul : Double → Double → Double
  | .finite a, .finite b => Double.round (a * b)
  | .finite a, .infinity s => if a = 0 then .nan else .infinity (xor (decide (a < 0)) s)
  | .infinity s, .finite b => if b = 0 then .nan else .infinity (xor s (decide (b < 0)))
  | .infinity s, .infinity t => .infinity (xor s t)
  | _, _ => .nan

/-- The quotient of two doubles (the operator `/`). -/
def Double.div : Double → Double → Double
  | .finite a, .finite b =>
    if b = 0 then (if a = 0 then .nan else .infinity (decide (a < 0)))
    else Double.round (a / b)
  | .finite _, .infinity _ => .finite 0
  | .infinity s, .finite b => .infinity (xor s (decide (b < 0)))
  | _, _ => .nan

/-- The function `std::abs` on doubles. -/
def Double.abs : Double → Double
  | .finite a => .finite |a|
  | .infinity _ => .infinity false
  | .nan => .nan

/-- The operator `<` on doubles. -/
def Double.lt : Double → Double → Bool
  | .finite a, .finite b => decide (a < b)
  | .finite _, .infinity t => !t
  | .infinity s, .finite _ => s
  | .infinity s, .infinity t => s && !t
  | _, _ => false

/-- The function `std::max` on doubles: `(a < b) ? b : a`. -/
def Double.max (a b : Double) : Double :=
  if Double.lt a b then b else a

/-- The function `std::ceil` on doubles. -/
def Double.ceil : Double → Double
  | .finite a => .finite ⌈a⌉
  | .infinity s => .infinity s
  | .nan => .nan

/-- The function `std::pow` at base `2` and an exponent that is an integer, an infinity or NaN,
as `std::ceil` returns it: `2 ^ y` as a double, which is exact from `2 ^ (-1074)` to
`2 ^ 1023`, an infinity above and `0` below. -/
def Double.pow_two : Double → Double
  | .finite y =>
    if 1024 < y then .infinity false
    else if y < -1075 then .finite 0
    else Double.round ((2 : ℚ) ^ ⌈y⌉)
  | .infinity negative => if negative then .finite 0 else .infinity false
  | .nan => .nan

/-- What the pattern takes from the C math library and IEEE 754 does not fix: the function
`std::log2` on doubles. -/
structure LibM where
  log2 : Double → Double

/-- The running products of a list of values from a scale are all doubles already: no
multiplication of the loop rounds. -/
def Double.productsExact : ℚ → List ℚ → Prop
  | _, [] => True
  | scale, value :: rest =>
    Double.round (scale * value) = .finite (scale * value) ∧
      Double.productsExact (scale * value) rest

/-! ## The pattern in double-precision arithmetic -/

namespace Fp

/-- First loop of `getDerivedScale` in doubles: `scale *= ….getScale()`. -/
def getDerivedScale.inputLoop {n : Nat} (op : LstmOp n) : List (Fin n) → Double → Option Double
  | [], scale => some scale
  | tensor_index :: rest, scale =>
    match op.operands tensor_index with
    | .dequantizeCast arg _ =>
      match QuantizedType.getQuantizedElementType arg.getType with
      | some (.uniform u) =>
        getDerivedScale.inputLoop op rest (Double.mul scale (.finite u.scale))
      | _ => none
    | _ => none

/-- Second loop of `getDerivedScale` in doubles. -/
def getDerivedScale.intermediateLoop {n : Nat} (op : LstmOp n) :
    List (Fin 5) → Double → Option Double
  | [], scale => some scale
  | tensor_index :: rest, scale =>
    match getIntermediateType op tensor_index with
    | some (.uniform u) =>
      getDerivedScale.intermediateLoop op rest (Double.mul scale (.finite u.scale))
    | _ => none

/-- The method `getDerivedScale` in doubles: `scale` starts at `1.0` and is multiplied, one
value after the other, by the scales of the dependency inputs, by the scales of the dependency
intermediates and by the factors (each `float` factor is converted to `double`, which is
exact); every product is rounded. -/
def getDerivedScale {n : Nat} (op : LstmOp n) (_input_index : Fin n)
    (tensor_property : TensorProperty n) : Option Double :=
  match getDerivedScale.inputLoop op tensor_property.derived_scale.input_tensors (.finite 1) with
  | none => none
  | some s1 =>
    match getDerivedScale.intermediateLoop op
        tensor_property.derived_scale.intermediate_tensors s1 with
    | none => none
    | some s2 =>
      some (tensor_property.derived_scale.factors.foldl
        (fun scale factor => Double.mul scale (.finite factor)) s2)

/-- The function `power_of_two_bound` in doubles:
`std::pow(2, std::ceil(std::log2(value)))`. -/
def power_of_two_bound (libm : LibM) (value : Double) : Double :=
  Double.pow_two (Double.ceil (libm.log2 value))

/-- Modelled from the spec: the checked constructor `UniformQuantizedType::getChecked` at a
scale that was computed in doubles.  Spec §3 asks for `scale > 0`; an infinity or NaN is no
legal scale either. -/
def getChecked (isSigned : Bool) (storageWidth : Nat) (expressedType : ElementType)
    (scale : Double) (zeroPoint storageTypeMin storageTypeMax : Int) :
    Option UniformQuantizedType :=
  match scale with
  | .finite s =>
    UniformQuantizedType.getChecked isSigned storageWidth expressedType s zeroPoint
      storageTypeMin storageTypeMax
  | _ => none

/-- Modelled from the spec: `quant::fakeQuantAttrsToType` on a range of doubles.  The width of
the range, `rmax - rmin`, is a difference of doubles: when it overflows, the scale is an
infinity, which is no legal scale (spec §3 asks for `scale > 0`), and the result is null.  A
range of finite width is quantized as in the exact embedding. -/
def fakeQuantAttrsToType (numBits : Nat) (rmin rmax : ℚ) (narrowRange : Bool)
    (expressedType : ElementType) (isSigned : Bool) : Option UniformQuantizedType :=
  match Double.round (rmax - rmin) with
  | .finite _ => TFL.fakeQuantAttrsToType numBits rmin rmax narrowRange expressedType isSigned
  | _ => none

/-- The method `replaceStatsOp` with the arithmetic of its power-of-two branch in doubles:
`bound = power_of_two_bound(std::max(std::abs(min), std::abs(max)))` and the scale
`bound / -llvm::minIntN(number_of_bits)`. -/
def replaceStatsOp {n : Nat} (libm : LibM) (op : LstmOp n) (stats_op : Value)
    (_input_index : Fin n) (tensor_property : TensorProperty n) : Outcome (LstmOp n) :=
  match stats_op with
  | .statistics _ arg layerStats type _ =>
    if tensor_property.state_tensor && !hasOneUse op stats_op then .failure op
    else
      match layerStats with
      | .denseFPElements [min, max] =>
        let expressed := getElementTypeOrSelf type
        if tensor_property.extend_to_power_of_two then
          if tensor_property.number_of_bits ≠ 16 then .failure op
          else
            let bound := power_of_two_bound libm
              (Double.max (Double.abs (.finite min)) (Double.abs (.finite max)))
            TFL.replaceStatsOp.finish op stats_op arg type
              (getChecked true tensor_property.number_of_bits expressed
                (Double.div bound
                  (.finite ((-minIntN tensor_property.number_of_bits : Int) : ℚ))) 0
                (minIntN tensor_property.number_of_bits)
                (maxIntN tensor_property.number_of_bits))
        else
          TFL.replaceStatsOp.finish op stats_op arg type
            (fakeQuantAttrsToType tensor_property.number_of_bits min max false expressed true)
      | _ => .failure op
  | _ => .undefined

end Fp

namespace Example

/-- The double nearest to `0.1`. -/
def oneTenth : ℚ := 3602879701896397 / 36028797018963968

/-- The double nearest to `0.2`. -/
def oneFifth : ℚ := 3602879701896397 / 18014398509481984

/-- The `float` nearest to `0.3`. -/
def threeTenths : ℚ := 5033165 / 16777216

/-- The double nearest to `1/3`. -/
def oneThird : ℚ := 6004799503160661 / 18014398509481984

/-- The double nearest to `0.9`. -/
def nineTenths : ℚ := 8106479329266893 / 9007199254740992

/-- An 8-bit signed type of the given scale. -/
def scaledType (scale : ℚ) : UniformQuantizedType :=
  { isSigned := true, storageWidth := 8, expressedWidth := 32, scale := scale, zeroPoint := 0,
    storageTypeMin := -128, storageTypeMax := 127 }

/-- An op whose inputs 0, 1 and 2 are quantized with the scales `0.1`, `0.2` and `0.9`, and
input 3 with the scale `1/3`. -/
def decimalOp : LstmOp 4 :=
  { operands := fun i =>
      if i = 0 then qdq (.blockArgument 0 f32Tensor) (scaledType oneTenth)
      else if i = 1 then qdq (.blockArgument 1 f32Tensor) (scaledType oneFifth)
      else if i = 2 then qdq (.blockArgument 2 f32Tensor) (scaledType nineTenths)
      else qdq (.blockArgument 3 f32Tensor) (scaledType oneThird)
    intermediates := fun _ => none }

/-- A derived-scale property: inputs 0 and 1 and the factor `0.3f`. -/
def decimalProperty : TensorProperty 4 :=
  { use_derived_scale := true
    derived_scale := { input_tensors := [0, 1], factors := [threeTenths] }
    number_of_bits := 32 }

/-- The first double above 16. -/
def aboveSixteen : ℚ := 16 + 1 / 2 ^ 48

/-- A C math library as far as the examples need one.  Its `log2` is exact at the powers of
two, it returns `4` at the first double above 16 (the logarithm, `4 + 3.2e-16`, is nearer to
`4` than to the next double, `4 + 8.9e-16`), and at every other positive value it returns a
value strictly between the two neighbouring integers. -/
def libm : LibM :=
  { log2 := fun value =>
      match value with
      | .finite v =>
        if v < 0 then .nan
        else if v = 0 then .infinity true
        else if v = aboveSixteen then .finite 4
        else if v = (2 : ℚ) ^ Int.log 2 v then .finite (Int.log 2 v)
        else .finite (Int.log 2 v + 1 / 2)
      | .infinity negative => if negative then .nan else .infinity false
      | .nan => .nan }

/-- A statistics op with range `[0, 16 + 2^-48]`. -/
def aboveSixteenStats : Value :=
  .statistics 3 (.blockArgument 1 f32Tensor) (.denseFPElements [0, aboveSixteen]) f32Tensor 0

/-- The example op with the statistics op of range `[0, 16 + 2^-48]` on operand 3. -/
def aboveSixteenOp : LstmOp 4 :=
  { op with operands := Function.update op.operands 3 aboveSixteenStats }

end Example

namespace Example

end Example

namespace Example

/-- A 16-bit property with the power-of-two flag that is not a state tensor. -/
def powerOfTwoProperty : TensorProperty 4 :=
  { number_of_bits := 16, extend_to_power_of_two := true }

end Example

/-! ## Lemmas on scale derivation -/

theorem inputLoop_eq_some {n : Nat} (op : LstmOp n) (su : Fin n → UniformQuantizedType) :
    ∀ (l : List (Fin n)) (scale : ℚ),
      (∀ i ∈ l, ∃ arg type, op.operands i = .dequantizeCast arg type ∧
        QuantizedType.getQuantizedElementType arg.getType = some (.uniform (su i))) →
      getDerivedScale.inputLoop op l scale
        = some (scale * (l.map (fun i => (su i).scale)).prod) := by
  intro l
  induction l with
  | nil => intro scale _; simp [getDerivedScale.inputLoop]
  | cons i rest ih =>
    intro scale h
    obtain ⟨arg, type, h1, h2⟩ := h i (List.mem_cons_self _ _)
    have hrest := ih (scale * (su i).scale) (fun k hk => h k (List.mem_cons_of_mem _ hk))
    simp only [getDerivedScale.inputLoop, h1, h2, hrest, List.map_cons, List.prod_cons, mul_assoc]

theorem intermediateLoop_eq_some {n : Nat} (op : LstmOp n) (sm : Fin 5 → UniformQuantizedType) :
    ∀ (l : List (Fin 5)) (scale : ℚ),
      (∀ j ∈ l, ∃ t, op.intermediates j = some t ∧
        QuantizedType.getQuantizedElementType t = some (.uniform (sm j))) →
      getDerivedScale.intermediateLoop op l scale
        = some (scale * (l.map (fun j => (sm j).scale)).prod) := by
  intro l
  induction l with
  | nil => intro scale _; simp [getDerivedScale.intermediateLoop]
  | cons j rest ih =>
    intro scale h
    obtain ⟨t, h1, h2⟩ := h j (List.mem_cons_self _ _)
    have hrest := ih (scale * (sm j).scale) (fun k hk => h k (List.mem_cons_of_mem _ hk))
    simp only [getDerivedScale.intermediateLoop, getIntermediateType, h1, h2, hrest,
      List.map_cons, List.prod_cons, mul_assoc]

theorem foldl_mul_eq_prod (l : List ℚ) (scale : ℚ) :
    l.foldl (fun scale factor => scale * factor) scale = scale * l.prod := by
  induction l generalizing scale with
  | nil => simp
  | cons f rest ih => simp [List.foldl_cons, ih, mul_assoc]

theorem inputLoop_eq_none_iff {n : Nat} (op : LstmOp n) :
    ∀ (l : List (Fin n)) (scale : ℚ),
      getDerivedScale.inputLoop op l scale = none ↔ ∃ i ∈ l, ¬ InputDependencyQuantized op i := by
  intro l
  induction l with
  | nil => intro scale; simp [getDerivedScale.inputLoop]
  | cons i rest ih =>
    intro scale
    by_cases hq : InputDependencyQuantized op i
    · obtain ⟨arg, type, u, h1, h2⟩ := hq
      have hq' : InputDependencyQuantized op i := ⟨arg, type, u, h1, h2⟩
      simp only [getDerivedScale.inputLoop, h1, h2, ih, List.mem_cons, exists_eq_or_imp,
        hq', not_true_eq_false, false_or]
    · have hnone : getDerivedScale.inputLoop op (i :: rest) scale = none := by
        unfold getDerivedScale.inputLoop
        split
        · rename_i arg type h1
          split
          · rename_i u h2
            exact absurd ⟨arg, type, u, h1, h2⟩ hq
          · rfl
        · rfl
      simp only [hnone, List.mem_cons, exists_eq_or_imp, true_iff]
      exact Or.inl hq

theorem intermediateLoop_eq_none_iff {n : Nat} (op : LstmOp n) :
    ∀ (l : List (Fin 5)) (scale : ℚ),
      getDerivedScale.intermediateLoop op l scale = none ↔
        ∃ j ∈ l, ¬ IntermediateDependencyQuantized op j := by
  intro l
  induction l with
  | nil => intro scale; simp [getDerivedScale.intermediateLoop]
  | cons j rest ih =>
    intro scale
    by_cases hq : IntermediateDependencyQuantized op j
    · obtain ⟨t, u, h1, h2⟩ := hq
      have hq' : IntermediateDependencyQuantized op j := ⟨t, u, h1, h2⟩
      simp only [getDerivedScale.intermediateLoop, getIntermediateType, h1, h2, ih,
        List.mem_cons, exists_eq_or_imp, hq', not_true_eq_false, false_or]
    · have hnone : getDerivedScale.intermediateLoop op (j :: rest) scale = none := by
        unfold getDerivedScale.intermediateLoop
        split
        · rename_i u h2
          exfalso
          apply hq
          unfold getIntermediateType at h2
          split at h2
          · exact absurd h2 (by simp)
          · rename_i t h1
            exact ⟨t, u, h1, h2⟩
        · rfl
      simp only [hnone, List.mem_cons, exists_eq_or_imp, true_iff]
      exact Or.inl hq

/-- The derived scale of the example bias, by evaluation. -/
theorem Example.derivedScale_eq :
    getDerivedScale Example.op 2 Example.biasProperty = some (1 / 32) := by
  simp [getDerivedScale, getDerivedScale.inputLoop, getDerivedScale.intermediateLoop,
    getIntermediateType, QuantizedType.getQuantizedElementType, getElementTypeOrSelf,
    Value.getType, Example.op, Example.biasProperty, Example.qdq, Example.inputType,
    Example.weightType, Example.hiddenType]
  norm_num

/-! ## Claims on scale derivation -/

/-- C2: `getDerivedScale` fails exactly when some dependency input operand is not produced by
a dequantize op with a uniform quantized source type, or some dependency intermediate attribute
is absent or not of a uniform quantized type; the factors play no part. -/
theorem getDerivedScale_fails_iff {n : Nat} (op : LstmOp n) (input_index : Fin n)
    (tensor_property : TensorProperty n) :
    getDerivedScale op input_index tensor_property = none ↔
      (∃ i ∈ tensor_property.derived_scale.input_tensors, ¬ InputDependencyQuantized op i) ∨
      (∃ j ∈ tensor_property.derived_scale.intermediate_tensors,
        ¬ IntermediateDependencyQuantized op j) := by
  unfold getDerivedScale
  cases h1 : getDerivedScale.inputLoop op tensor_property.derived_scale.input_tensors 1 with
  | none =>
    have := (inputLoop_eq_none_iff op _ 1).mp h1
    simp only [true_iff]
    exact Or.inl this
  | some s1 =>
    have hno : ¬ ∃ i ∈ tensor_property.derived_scale.input_tensors,
        ¬ InputDependencyQuantized op i := by
      intro hex
      have := (inputLoop_eq_none_iff op _ 1).mpr hex
      rw [h1] at this
      exact absurd this (by simp)
    dsimp only
    cases h2 : getDerivedScale.intermediateLoop op
        tensor_property.derived_scale.intermediate_tensors s1 with
    | none =>
      have := (intermediateLoop_eq_none_iff op _ s1).mp h2
      simp only [true_iff]
      exact Or.inr this
    | some s2 =>
      have hno2 : ¬ ∃ j ∈ tensor_property.derived_scale.intermediate_tensors,
          ¬ IntermediateDependencyQuantized op j := by
        intro hex
        have := (intermediateLoop_eq_none_iff op _ s1).mpr hex
        rw [h2] at this
        exact absurd this (by simp)
      simp only [reduceCtorEq, false_iff, not_or]
      exact ⟨hno, hno2⟩

/-! ## Claims on constant inputs -/

/-- C3: for a constant of floating-point element type, a property with the derived-scale flag
and a bit width other than 32 makes `processConstantOp` fail, whatever the dependencies are,
and the op and the rewriter log are left as they were. -/
theorem processConstantOp_derived_bits_ne_32 {n : Nat} (ctx : Context) (op : LstmOp n)
    (const_op : Value) (input_index : Fin n) (tensor_property : TensorProperty n)
    (shape : Option (List Nat)) (w : Nat)
    (hfloat : const_op.getType = .shaped shape (.float w))
    (hderived : tensor_property.use_derived_scale = true)
    (hbits : tensor_property.number_of_bits ≠ 32) :
    processConstantOp ctx op const_op input_index tensor_property = .failure op := by
  unfold processConstantOp
  rw [hfloat]
  cases hmatch : matchConstantFP const_op with
  | none => rfl
  | some attr => simp [hderived, hbits]

/-- Witness of C3: the example bias with 16 bits instead of 32. -/
theorem processConstantOp_derived_bits_ne_32_witness :
    processConstantOp Example.ctx Example.op Example.biasConst 2
      { Example.biasProperty with number_of_bits := 16 } = .failure Example.op :=
  processConstantOp_derived_bits_ne_32 Example.ctx Example.op Example.biasConst 2
    { Example.biasProperty with number_of_bits := 16 } (some [4]) 32 rfl rfl (by decide)

/-- C4: for a constant of floating-point element type under a 32-bit derived-scale property,
`processConstantOp` fails when `getDerivedScale` fails; and when the constant holds dense
floating-point values and `getDerivedScale` gives a positive scale `s`, it succeeds with the
operand set to a dequantize of a quantize of the constant, whose type `T` is signed with scale
`s`, zero point `0` and storage range `[-2^31, 2^31 - 1]`. -/
theorem processConstantOp_derived_32 {n : Nat} (ctx : Context) (op : LstmOp n)
    (const_op : Value) (input_index : Fin n) (tensor_property : TensorProperty n)
    (shape : Option (List Nat)) (w : Nat)
    (hfloat : const_op.getType = .shaped shape (.float w))
    (hderived : tensor_property.use_derived_scale = true)
    (hbits : tensor_property.number_of_bits = 32) :
    (getDerivedScale op input_index tensor_property = none →
      processConstantOp ctx op const_op input_index tensor_property = .failure op) ∧
    (∀ (attr : List ℚ) (s : ℚ), matchConstantFP const_op = some attr →
      getDerivedScale op input_index tensor_property = some s → 0 < s →
      ∃ T : UniformQuantizedType,
        T.isSigned = true ∧ T.scale = s ∧ T.zeroPoint = 0 ∧
        T.storageTypeMin = -2 ^ 31 ∧ T.storageTypeMax = 2 ^ 31 - 1 ∧
        processConstantOp ctx op const_op input_index tensor_property
          = .success (processConstantOp.rewrite op const_op input_index
              (.shaped shape (.quantized (.uniform T))))) := by
  constructor
  · intro hnone
    unfold processConstantOp
    rw [hfloat]
    cases hconst : matchConstantFP const_op with
    | none => rfl
    | some attr => simp [hderived, hbits, hnone]
  · intro attr s hconst hs hpos
    refine ⟨{ isSigned := true, storageWidth := 32, expressedWidth := w, scale := s,
              zeroPoint := 0, storageTypeMin := -2 ^ 31, storageTypeMax := 2 ^ 31 - 1 },
            rfl, rfl, rfl, rfl, rfl, ?_⟩
    unfold processConstantOp
    rw [hfloat]
    have hs' : ¬ s ≤ 0 := not_le.mpr hpos
    simp [hconst, hderived, hbits, hs, UniformQuantizedType.getChecked, minIntN, maxIntN,
      hs', processConstantOp.finish, UniformQuantizedType.castFromExpressedType, hfloat]

/-- Witness of C4: the example bias gets a 32-bit signed type of scale `1/32`. -/
theorem processConstantOp_derived_32_witness :
    ∃ T : UniformQuantizedType,
      T.isSigned = true ∧ T.scale = 1 / 32 ∧ T.zeroPoint = 0 ∧
      T.storageTypeMin = -2 ^ 31 ∧ T.storageTypeMax = 2 ^ 31 - 1 ∧
      processConstantOp Example.ctx Example.op Example.biasConst 2 Example.biasProperty
        = .success (processConstantOp.rewrite Example.op Example.biasConst 2
            (.shaped (some [4]) (.quantized (.uniform T)))) :=
  (processConstantOp_derived_32 Example.ctx Example.op Example.biasConst 2 Example.biasProperty
    (some [4]) 32 rfl rfl rfl).2 [1, 1, 1, 1] (1 / 32) rfl Example.derivedScale_eq
    (by norm_num)

/-! ## Lemmas on the power-of-two bound -/

theorem power_of_two_bound_of_pos {v : ℚ} (hv : 0 < v) :
    power_of_two_bound v = (2 : ℚ) ^ Int.clog 2 v := by
  unfold power_of_two_bound
  rw [if_neg (not_le.mpr hv)]

theorem power_of_two_bound_pos {v : ℚ} (hv : 0 < v) : 0 < power_of_two_bound v := by
  rw [power_of_two_bound_of_pos hv]
  positivity

theorem le_power_of_two_bound {v : ℚ} (hv : 0 < v) : v ≤ power_of_two_bound v := by
  rw [power_of_two_bound_of_pos hv]
  have h := Int.self_le_zpow_clog (R := ℚ) (b := 2) (by norm_num) v
  simpa using h

theorem power_of_two_bound_lt_two_mul {v : ℚ} (hv : 0 < v) :
    power_of_two_bound v < 2 * v := by
  rw [power_of_two_bound_of_pos hv]
  have h := Int.zpow_pred_clog_lt_self (R := ℚ) (b := 2) (by norm_num) hv
  have h2 : (2 : ℚ) ^ Int.clog 2 v = 2 * (2 : ℚ) ^ (Int.clog 2 v - 1) := by
    rw [zpow_sub_one₀ (by norm_num : (2 : ℚ) ≠ 0)]
    field_simp
  rw [h2]
  have h' : (2 : ℚ) ^ (Int.clog 2 v - 1) < v := by simpa using h
  linarith

theorem clog_two_cast_real (v : ℚ) (hv : 0 < v) : Int.clog 2 (v : ℝ) = Int.clog 2 v := by
  apply eq_of_forall_ge_iff
  intro c
  have hvR : (0 : ℝ) < (v : ℝ) := by exact_mod_cast hv
  rw [← Int.le_zpow_iff_clog_le (by norm_num) hvR, ← Int.le_zpow_iff_clog_le (by norm_num) hv]
  constructor
  · intro h
    have : ((v : ℚ) : ℝ) ≤ (((2 : ℚ) ^ c : ℚ) : ℝ) := by
      push_cast
      simpa using h
    simpa using (Rat.cast_le (K := ℝ)).mp this
  · intro h
    have : ((v : ℚ) : ℝ) ≤ (((((2 : ℕ) : ℚ)) ^ c : ℚ) : ℝ) := (Rat.cast_le (K := ℝ)).mpr h
    simpa using this

/-- For a positive value the embedded `power_of_two_bound` is the source expression
`pow(2, ceil(log2(value)))` read over the reals. -/
theorem power_of_two_bound_eq_rpow (v : ℚ) (hv : 0 < v) :
    ((power_of_two_bound v : ℚ) : ℝ) = (2 : ℝ) ^ (⌈Real.logb 2 (v : ℝ)⌉ : ℤ) := by
  have hvR : (0 : ℝ) ≤ (v : ℝ) := by exact_mod_cast hv.le
  have h := Real.ceil_logb_natCast (b := 2) hvR
  rw [power_of_two_bound_of_pos hv]
  have h' : ⌈Real.logb 2 (v : ℝ)⌉ = Int.clog 2 v := by
    rw [← clog_two_cast_real v hv, ← h]
    simp
  rw [h']
  push_cast
  rfl

theorem max_abs_pos_iff (rmin rmax : ℚ) : 0 < max |rmin| |rmax| ↔ rmin ≠ 0 ∨ rmax ≠ 0 := by
  rw [lt_max_iff, abs_pos, abs_pos]

theorem power_of_two_bound_minimal {v : ℚ} (hv : 0 < v) (j : ℤ) (hj : v ≤ (2 : ℚ) ^ j) :
    power_of_two_bound v ≤ (2 : ℚ) ^ j := by
  rw [power_of_two_bound_of_pos hv]
  have hj' : v ≤ ((2 : ℕ) : ℚ) ^ j := by simpa using hj
  have h := (Int.le_zpow_iff_clog_le (R := ℚ) (b := 2) (by norm_num) hv).mp hj'
  exact zpow_le_zpow_right₀ (by norm_num) h

/-! ## Lemmas on the checked constructor and on `replaceStatsOp` -/

theorem getChecked_eq_some (isSigned : Bool) (sw w : Nat) (scale : ℚ) (zp smin smax : Int)
    (h1 : sw ≠ 0) (h2 : sw ≤ 32) (h3 : smin < smax)
    (h4 : (if isSigned then minIntN sw else 0) ≤ smin)
    (h5 : smax ≤ (if isSigned then maxIntN sw else maxUIntN sw)) (h6 : 0 < scale) :
    UniformQuantizedType.getChecked isSigned sw (.float w) scale zp smin smax
      = some { isSigned := isSigned, storageWidth := sw, expressedWidth := w, scale := scale,
               zeroPoint := zp, storageTypeMin := smin, storageTypeMax := smax } := by
  unfold UniformQuantizedType.getChecked
  have c1 : ¬ (sw = 0 ∨ 32 < sw) := by omega
  have c2 : ¬ (smax - smin ≤ 0 ∨ smin < (if isSigned then minIntN sw else 0) ∨
      (if isSigned then maxIntN sw else maxUIntN sw) < smax) := by
    intro h
    rcases h with h | h | h <;> omega
  have c3 : ¬ scale ≤ 0 := not_le.mpr h6
  simp only [c1, c2, c3, if_false]

theorem getChecked_scale_pos {isSigned : Bool} {sw : Nat} {e : ElementType} {scale : ℚ}
    {zp smin smax : Int} {T : UniformQuantizedType}
    (h : UniformQuantizedType.getChecked isSigned sw e scale zp smin smax = some T) :
    0 < scale ∧ T.scale = scale ∧ T.zeroPoint = zp ∧ T.storageTypeMin = smin ∧
      T.storageTypeMax = smax ∧ T.isSigned = isSigned ∧ e = .float T.expressedWidth := by
  cases e with
  | float w =>
    by_cases c3 : scale ≤ 0
    · simp [UniformQuantizedType.getChecked, c3] at h
    · simp only [UniformQuantizedType.getChecked, c3, if_false] at h
      split_ifs at h
      all_goals
        simp only [Option.some.injEq] at h
        subst h
        exact ⟨not_le.mp c3, rfl, rfl, rfl, rfl, rfl, rfl⟩
  | integer w => simp [UniformQuantizedType.getChecked] at h
  | quantized q => simp [UniformQuantizedType.getChecked] at h
  | noneType => simp [UniformQuantizedType.getChecked] at h

theorem castFromExpressedType_of_float (T : UniformQuantizedType) (type : MlirType)
    (h : getElementTypeOrSelf type = .float T.expressedWidth) :
    ∃ rt, T.castFromExpressedType type = some rt ∧
      QuantizedType.getQuantizedElementType rt = some (.uniform T) := by
  cases type with
  | scalar e =>
    simp only [getElementTypeOrSelf] at h
    exact ⟨.scalar (.quantized (.uniform T)),
      by simp [UniformQuantizedType.castFromExpressedType, h], rfl⟩
  | shaped shape e =>
    simp only [getElementTypeOrSelf] at h
    exact ⟨.shaped shape (.quantized (.uniform T)),
      by simp [UniformQuantizedType.castFromExpressedType, h], rfl⟩

theorem castFromExpressedType_elem {T : UniformQuantizedType} {type rt : MlirType}
    (h : T.castFromExpressedType type = some rt) :
    QuantizedType.getQuantizedElementType rt = some (.uniform T) := by
  cases type with
  | scalar e =>
    simp only [UniformQuantizedType.castFromExpressedType] at h
    split_ifs at h
    simp only [Option.some.injEq] at h
    subst h
    rfl
  | shaped shape e =>
    simp only [UniformQuantizedType.castFromExpressedType] at h
    split_ifs at h
    simp only [Option.some.injEq] at h
    subst h
    rfl

/-- In the 16-bit power-of-two branch, past the state-tensor check, `replaceStatsOp` is the
rewrite applied to the checked type of scale `bound / 32768`. -/
theorem replaceStatsOp_pow2_eq {n : Nat} (op : LstmOp n) (id : Nat) (arg : Value)
    (rmin rmax : ℚ) (type : MlirType) (otherUses : Nat) (input_index : Fin n)
    (tensor_property : TensorProperty n)
    (hbits : tensor_property.number_of_bits = 16)
    (hpow2 : tensor_property.extend_to_power_of_two = true)
    (hstate : tensor_property.state_tensor = true →
      hasOneUse op (.statistics id arg (.denseFPElements [rmin, rmax]) type otherUses) = true) :
    replaceStatsOp op (.statistics id arg (.denseFPElements [rmin, rmax]) type otherUses)
        input_index tensor_property
      = replaceStatsOp.finish op
          (.statistics id arg (.denseFPElements [rmin, rmax]) type otherUses) arg type
          (UniformQuantizedType.getChecked true 16 (getElementTypeOrSelf type)
            (power_of_two_bound (max |rmin| |rmax|) / 32768) 0 (-32768) 32767) := by
  have hguard : (tensor_property.state_tensor &&
      !hasOneUse op (.statistics id arg (.denseFPElements [rmin, rmax]) type otherUses))
      = false := by
    cases hs : tensor_property.state_tensor with
    | false => rfl
    | true => simp [hstate hs]
  unfold replaceStatsOp
  simp only [hguard, hbits, hpow2, minIntN, maxIntN]
  norm_num

theorem replaceStatsOp_rewrite_inj {n : Nat} {op : LstmOp n} {stats_op arg : Value}
    {type rt rt' : MlirType}
    (h : replaceStatsOp.rewrite op stats_op arg type rt
      = replaceStatsOp.rewrite op stats_op arg type rt') : rt = rt' := by
  have hc := congrArg LstmOp.created h
  simp only [replaceStatsOp.rewrite, List.cons.injEq, Value.dequantizeCast.injEq,
    Value.quantizeCast.injEq, true_and, and_true] at hc
  exact hc.1

/-- In the 16-bit power-of-two branch with a positive maximum, `replaceStatsOp` succeeds with
the signed type of scale `bound / 32768`. -/
theorem replaceStatsOp_pow2_success {n : Nat} (op : LstmOp n) (id : Nat) (arg : Value)
    (rmin rmax : ℚ) (type : MlirType) (otherUses : Nat) (input_index : Fin n)
    (tensor_property : TensorProperty n) (w : Nat)
    (hfloat : getElementTypeOrSelf type = .float w)
    (hbits : tensor_property.number_of_bits = 16)
    (hpow2 : tensor_property.extend_to_power_of_two = true)
    (hstate : tensor_property.state_tensor = true →
      hasOneUse op (.statistics id arg (.denseFPElements [rmin, rmax]) type otherUses) = true)
    (hm : 0 < max |rmin| |rmax|) :
    ∃ (T : UniformQuantizedType) (rt : MlirType),
      T.isSigned = true ∧
      T.scale = power_of_two_bound (max |rmin| |rmax|) / 32768 ∧
      T.zeroPoint = 0 ∧ T.storageTypeMin = -32768 ∧ T.storageTypeMax = 32767 ∧
      QuantizedType.getQuantizedElementType rt = some (.uniform T) ∧
      replaceStatsOp op (.statistics id arg (.denseFPElements [rmin, rmax]) type otherUses)
          input_index tensor_property
        = .success (replaceStatsOp.rewrite op
            (.statistics id arg (.denseFPElements [rmin, rmax]) type otherUses) arg type rt) := by
  have hscale : 0 < power_of_two_bound (max |rmin| |rmax|) / 32768 :=
    div_pos (power_of_two_bound_pos hm) (by norm_num)
  have hT := getChecked_eq_some true 16 w _ 0 (-32768) 32767 (by decide) (by decide)
    (by decide) (by decide) (by decide) hscale
  obtain ⟨rt, hrt, helem⟩ := castFromExpressedType_of_float
    { isSigned := true, storageWidth := 16, expressedWidth := w,
      scale := power_of_two_bound (max |rmin| |rmax|) / 32768, zeroPoint := 0,
      storageTypeMin := -32768, storageTypeMax := 32767 } type hfloat
  refine ⟨_, rt, rfl, rfl, rfl, rfl, rfl, helem, ?_⟩
  rw [replaceStatsOp_pow2_eq op id arg rmin rmax type otherUses input_index tensor_property
    hbits hpow2 hstate, hfloat, hT]
  simp only [replaceStatsOp.finish, hrt]

/-! ## Lemmas on range quantization -/

theorem power_of_two_bound_three : power_of_two_bound 3 = 4 := by
  rw [power_of_two_bound_of_pos (by norm_num)]
  have h : Int.clog 2 (3 : ℚ) = 2 := by
    apply le_antisymm
    · rw [← Int.le_zpow_iff_clog_le (by norm_num) (by norm_num)]
      norm_num
    · by_contra hlt
      have h1 : Int.clog 2 (3 : ℚ) ≤ 1 := by omega
      rw [← Int.le_zpow_iff_clog_le (by norm_num) (by norm_num)] at h1
      norm_num at h1
  rw [h]
  norm_num

theorem getDefaultStorageParams_spec {numBits : Nat} {narrowRange isSigned : Bool}
    {sw : Nat} {qmin qmax : Int}
    (h : getDefaultStorageParams numBits narrowRange isSigned = some (sw, qmin, qmax)) :
    sw ≠ 0 ∧ sw ≤ 32 ∧ qmin < qmax ∧ (if isSigned then minIntN sw else 0) ≤ qmin ∧
      qmax ≤ (if isSigned then maxIntN sw else maxUIntN sw) := by
  cases narrowRange <;> cases isSigned <;>
  · simp only [getDefaultStorageParams, Bool.false_eq_true, if_false, if_true] at h
    split_ifs at h
    all_goals
      simp only [Option.some.injEq, Prod.mk.injEq] at h
      obtain ⟨rfl, rfl, rfl⟩ := h
      decide

theorem getDefaultStorageParams_isSome {numBits : Nat} (narrowRange isSigned : Bool)
    (h : numBits = 8 ∨ numBits = 16) :
    ∃ sw qmin qmax, getDefaultStorageParams numBits narrowRange isSigned
      = some (sw, qmin, qmax) := by
  rcases h with h | h <;> subst h <;> cases narrowRange <;> cases isSigned <;>
    exact ⟨_, _, _, rfl⟩

theorem nudgedScale_eq (qmin qmax : Int) (rmin rmax : ℚ) :
    (getNudgedScaleAndZeroPoint qmin qmax rmin rmax).1
      = (rmax - rmin) / ((qmax : ℚ) - (qmin : ℚ)) := rfl

/-- The result of `fakeQuantAttrsToType` for a float expressed type and an ordered range. -/
theorem fakeQuantAttrsToType_eq_some (numBits : Nat) (rmin rmax : ℚ) (narrowRange : Bool)
    (w : Nat) (isSigned : Bool) (sw : Nat) (qmin qmax : Int)
    (hparams : getDefaultStorageParams numBits narrowRange isSigned = some (sw, qmin, qmax))
    (hle : rmin ≤ rmax) :
    fakeQuantAttrsToType numBits rmin rmax narrowRange (.float w) isSigned
      = some
          { isSigned := isSigned, storageWidth := sw, expressedWidth := w,
            scale := if |rmax - rmin| < doubleEpsilon then 1
              else (rmax - rmin) / ((qmax : ℚ) - (qmin : ℚ)),
            zeroPoint := if |rmax - rmin| < doubleEpsilon then qmin
              else (getNudgedScaleAndZeroPoint qmin qmax rmin rmax).2,
            storageTypeMin := qmin, storageTypeMax := qmax } := by
  obtain ⟨h1, h2, h3, h4, h5⟩ := getDefaultStorageParams_spec hparams
  unfold fakeQuantAttrsToType
  rw [hparams]
  dsimp only
  by_cases heps : |rmax - rmin| < doubleEpsilon
  · rw [if_pos heps, if_pos heps, if_pos heps]
    exact getChecked_eq_some isSigned sw w 1 qmin qmin qmax h1 h2 h3 h4 h5 one_pos
  · rw [if_neg heps, if_neg heps, if_neg heps, nudgedScale_eq]
    have hpos : 0 < rmax - rmin := by
      have habs : |rmax - rmin| = rmax - rmin := abs_of_nonneg (sub_nonneg.mpr hle)
      rw [habs] at heps
      have : (0 : ℚ) < doubleEpsilon := by unfold doubleEpsilon; norm_num
      linarith [not_lt.mp heps]
    have hq : (0 : ℚ) < (qmax : ℚ) - (qmin : ℚ) := by
      have : (qmin : ℚ) < (qmax : ℚ) := by exact_mod_cast h3
      linarith
    exact getChecked_eq_some isSigned sw w _ _ qmin qmax h1 h2 h3 h4 h5 (div_pos hpos hq)

/-- Without the power-of-two flag, past the state-tensor check, `replaceStatsOp` is the rewrite
applied to the result of `fakeQuantAttrsToType` (not narrow, signed). -/
theorem replaceStatsOp_range_eq {n : Nat} (op : LstmOp n) (id : Nat) (arg : Value)
    (rmin rmax : ℚ) (type : MlirType) (otherUses : Nat) (input_index : Fin n)
    (tensor_property : TensorProperty n)
    (hpow2 : tensor_property.extend_to_power_of_two = false)
    (hstate : tensor_property.state_tensor = true →
      hasOneUse op (.statistics id arg (.denseFPElements [rmin, rmax]) type otherUses) = true) :
    replaceStatsOp op (.statistics id arg (.denseFPElements [rmin, rmax]) type otherUses)
        input_index tensor_property
      = replaceStatsOp.finish op
          (.statistics id arg (.denseFPElements [rmin, rmax]) type otherUses) arg type
          (fakeQuantAttrsToType tensor_property.number_of_bits rmin rmax false
            (getElementTypeOrSelf type) true) := by
  have hguard : (tensor_property.state_tensor &&
      !hasOneUse op (.statistics id arg (.denseFPElements [rmin, rmax]) type otherUses))
      = false := by
    cases hs : tensor_property.state_tensor with
    | false => rfl
    | true => simp [hstate hs]
  unfold replaceStatsOp
  simp only [hguard, hpow2, Bool.false_eq_true, if_false]

/-- Without the power-of-two flag, for a supported bit width, an ordered range and a float
statistics op, `replaceStatsOp` succeeds with the type `fakeQuantAttrsToType` gives. -/
theorem replaceStatsOp_range_success {n : Nat} (op : LstmOp n) (id : Nat) (arg : Value)
    (rmin rmax : ℚ) (type : MlirType) (otherUses : Nat) (input_index : Fin n)
    (tensor_property : TensorProperty n) (w sw : Nat) (qmin qmax : Int)
    (hfloat : getElementTypeOrSelf type = .float w)
    (hpow2 : tensor_property.extend_to_power_of_two = false)
    (hstate : tensor_property.state_tensor = true →
      hasOneUse op (.statistics id arg (.denseFPElements [rmin, rmax]) type otherUses) = true)
    (hparams : getDefaultStorageParams tensor_property.number_of_bits false true
      = some (sw, qmin, qmax))
    (hle : rmin ≤ rmax) :
    ∃ rt : MlirType,
      QuantizedType.getQuantizedElementType rt = some (.uniform
        { isSigned := true, storageWidth := sw, expressedWidth := w,
          scale := if |rmax - rmin| < doubleEpsilon then 1
            else (rmax - rmin) / ((qmax : ℚ) - (qmin : ℚ)),
          zeroPoint := if |rmax - rmin| < doubleEpsilon then qmin
            else (getNudgedScaleAndZeroPoint qmin qmax rmin rmax).2,
          storageTypeMin := qmin, storageTypeMax := qmax }) ∧
      replaceStatsOp op (.statistics id arg (.denseFPElements [rmin, rmax]) type otherUses)
          input_index tensor_property
        = .success (replaceStatsOp.rewrite op
            (.statistics id arg (.denseFPElements [rmin, rmax]) type otherUses) arg type rt) := by
  obtain ⟨rt, hrt, helem⟩ := castFromExpressedType_of_float
    { isSigned := true, storageWidth := sw, expressedWidth := w,
      scale := if |rmax - rmin| < doubleEpsilon then 1
        else (rmax - rmin) / ((qmax : ℚ) - (qmin : ℚ)),
      zeroPoint := if |rmax - rmin| < doubleEpsilon then qmin
        else (getNudgedScaleAndZeroPoint qmin qmax rmin rmax).2,
      storageTypeMin := qmin, storageTypeMax := qmax } type hfloat
  refine ⟨rt, helem, ?_⟩
  rw [replaceStatsOp_range_eq op id arg rmin rmax type otherUses input_index tensor_property
    hpow2 hstate, hfloat,
    fakeQuantAttrsToType_eq_some _ rmin rmax false w true sw qmin qmax hparams hle]
  simp only [replaceStatsOp.finish, hrt]

theorem body_guard_false (lstm_variant : OpVariant) (index : Fin 5)
    (hactive : lstm_variant.use_layer_norm = true ∨ index = 4) :
    (!lstm_variant.use_layer_norm && decide (index ≠ 4)) = false := by
  rcases hactive with h | h
  · simp [h]
  · simp [h]

/-- The loop body of `processIntermediates` on a calibrated 8-bit slot. -/
theorem body_calibrated_8 {n : Nat} (ctx : Context) (lstm_variant : OpVariant) (op : LstmOp n)
    (index : Fin 5) (tensor_property : TensorProperty n) (attr : MlirType) (w : Nat)
    (rmin rmax : ℚ)
    (hattr : op.intermediates index = some attr)
    (helem : QuantizedType.getQuantizedElementType attr = some (.calibrated w rmin rmax))
    (hactive : lstm_variant.use_layer_norm = true ∨ index = 4)
    (hbits : tensor_property.number_of_bits = 8) :
    processIntermediates.body ctx lstm_variant op index tensor_property
      = processIntermediates.install op index attr
          (fakeQuantAttrsToType 8 rmin rmax false (.float w) ctx.isSignedInferenceType) := by
  unfold processIntermediates.body
  rw [body_guard_false lstm_variant index hactive]
  simp [hattr, getIntermediateType, helem, hbits]

/-- The loop body of `processIntermediates` on a calibrated 16-bit slot. -/
theorem body_calibrated_16 {n : Nat} (ctx : Context) (lstm_variant : OpVariant) (op : LstmOp n)
    (index : Fin 5) (tensor_property : TensorProperty n) (attr : MlirType) (w : Nat)
    (rmin rmax : ℚ)
    (hattr : op.intermediates index = some attr)
    (helem : QuantizedType.getQuantizedElementType attr = some (.calibrated w rmin rmax))
    (hactive : lstm_variant.use_layer_norm = true ∨ index = 4)
    (hbits : tensor_property.number_of_bits = 16) :
    processIntermediates.body ctx lstm_variant op index tensor_property
      = processIntermediates.install op index attr
          (fakeQuantAttrsToType 16 (-max |rmin| |rmax|) (max |rmin| |rmax|) true (.float w)
            true) := by
  unfold processIntermediates.body
  rw [body_guard_false lstm_variant index hactive]
  simp [hattr, getIntermediateType, helem, hbits]

/-! ## Claims on range quantization -/

/-- C9: for a state-tensor property, a statistics op whose result has more than one use makes
`replaceStatsOp` fail, whatever its payload, and the op and the rewriter log (ops created, ops
erased) are left as they were. -/
theorem replaceStatsOp_state_multiple_uses {n : Nat} (op : LstmOp n) (id : Nat) (arg : Value)
    (layerStats : Attribute) (type : MlirType) (otherUses : Nat) (input_index : Fin n)
    (tensor_property : TensorProperty n)
    (hstate : tensor_property.state_tensor = true)
    (huses : 1 < numUses op (.statistics id arg layerStats type otherUses)) :
    replaceStatsOp op (.statistics id arg layerStats type otherUses) input_index
      tensor_property = .failure op := by
  have hone : hasOneUse op (.statistics id arg layerStats type otherUses) = false := by
    unfold hasOneUse
    simp only [decide_eq_false_iff_not]
    omega
  unfold replaceStatsOp
  simp [hstate, hone]

/-- Witness of C9: the example state, with one more use of the statistics op elsewhere. -/
theorem replaceStatsOp_state_multiple_uses_witness :
    numUses Example.sharedStatsOp Example.sharedStats = 2 ∧
    replaceStatsOp Example.sharedStatsOp
        (.statistics 3 (.blockArgument 1 Example.f32Tensor) (.denseFPElements [-1, 3])
          Example.f32Tensor 1) 3 Example.stateProperty
      = .failure Example.sharedStatsOp :=
  ⟨by decide,
    replaceStatsOp_state_multiple_uses Example.sharedStatsOp 3
      (.blockArgument 1 Example.f32Tensor) (.denseFPElements [-1, 3]) Example.f32Tensor 1 3
      Example.stateProperty rfl (by decide)⟩

/-! ## Claims on the statistics payload -/

/-- C11: a statistics op whose payload is not a dense floating-point attribute of exactly two
values makes `replaceStatsOp` fail with the op and the rewriter log unchanged; and a payload
`[a, b]` is read as `min = a`, `max = b`: past the state-tensor check, `replaceStatsOp` is the
rewrite with the range quantization of `(a, b)` in this order, or, under the 16-bit
power-of-two flag, with the scale of the bound of `max(|a|, |b|)`. -/
theorem replaceStatsOp_payload {n : Nat} (op : LstmOp n) (id : Nat) (arg : Value)
    (type : MlirType) (otherUses : Nat) (input_index : Fin n)
    (tensor_property : TensorProperty n) :
    (∀ layerStats : Attribute, (∀ a b : ℚ, layerStats ≠ .denseFPElements [a, b]) →
      replaceStatsOp op (.statistics id arg layerStats type otherUses) input_index
        tensor_property = .failure op) ∧
    (∀ a b : ℚ,
      (tensor_property.state_tensor = true →
        hasOneUse op (.statistics id arg (.denseFPElements [a, b]) type otherUses) = true) →
      (tensor_property.extend_to_power_of_two = false →
        replaceStatsOp op (.statistics id arg (.denseFPElements [a, b]) type otherUses)
            input_index tensor_property
          = replaceStatsOp.finish op
              (.statistics id arg (.denseFPElements [a, b]) type otherUses) arg type
              (fakeQuantAttrsToType tensor_property.number_of_bits a b false
                (getElementTypeOrSelf type) true)) ∧
      (tensor_property.extend_to_power_of_two = true →
        tensor_property.number_of_bits = 16 →
        replaceStatsOp op (.statistics id arg (.denseFPElements [a, b]) type otherUses)
            input_index tensor_property
          = replaceStatsOp.finish op
              (.statistics id arg (.denseFPElements [a, b]) type otherUses) arg type
              (UniformQuantizedType.getChecked true 16 (getElementTypeOrSelf type)
                (power_of_two_bound (max |a| |b|) / 32768) 0 (-32768) 32767))) := by
  constructor
  · intro layerStats hbad
    simp only [replaceStatsOp]
    split_ifs <;> rfl
  · intro a b hstate
    exact ⟨fun hpow2 => replaceStatsOp_range_eq op id arg a b type otherUses input_index
        tensor_property hpow2 hstate,
      fun hpow2 hbits => replaceStatsOp_pow2_eq op id arg a b type otherUses input_index
        tensor_property hbits hpow2 hstate⟩

/-- Witness of C11: the three-value payload on the example op. -/
theorem replaceStatsOp_payload_witness :
    replaceStatsOp Example.badStatsOp
        (.statistics 3 (.blockArgument 1 Example.f32Tensor) (.denseFPElements [-1, 0, 3])
          Example.f32Tensor 0) 3 Example.stateProperty
      = .failure Example.badStatsOp :=
  (replaceStatsOp_payload Example.badStatsOp 3 (.blockArgument 1 Example.f32Tensor)
    Example.f32Tensor 0 3 Example.stateProperty).1 (.denseFPElements [-1, 0, 3])
    (fun a b h => by simp at h)

/-! ## Lemmas on the loop of `processIntermediates` -/

theorem install_next {n : Nat} {op op' : LstmOp n} {index : Fin 5} {attr : MlirType}
    {q : Option UniformQuantizedType}
    (h : processIntermediates.install op index attr q = .next op') :
    ∃ t, op' = { op with intermediates := Function.update op.intermediates index (some t) } := by
  cases q with
  | none => simp [processIntermediates.install] at h
  | some qtype =>
    simp only [processIntermediates.install] at h
    split at h
    · simp at h
    · rename_i t _
      simp only [Step.next.injEq] at h
      exact ⟨t, h.symm⟩

theorem install_done {n : Nat} {op : LstmOp n} {index : Fin 5} {attr : MlirType}
    {q : Option UniformQuantizedType} {r : Outcome (LstmOp n)}
    (h : processIntermediates.install op index attr q = .done r) : r = .undefined := by
  cases q with
  | none =>
    simp only [processIntermediates.install, Step.done.injEq] at h
    exact h.symm
  | some qtype =>
    simp only [processIntermediates.install] at h
    split at h
    · simp only [Step.done.injEq] at h
      exact h.symm
    · simp at h

/-- The loop body on a skipped slot goes on with the IR unchanged. -/
theorem body_skipped {n : Nat} (ctx : Context) (lstm_variant : OpVariant) (op : LstmOp n)
    (index : Fin 5) (tensor_property : TensorProperty n)
    (hnorm : lstm_variant.use_layer_norm = false) (hindex : index ≠ 4) :
    processIntermediates.body ctx lstm_variant op index tensor_property = .next op := by
  unfold processIntermediates.body
  simp [hnorm, hindex]

/-- The loop body on a slot that is not skipped and has no quantized type (the attribute is
absent, or its type is not quantized). -/
theorem body_null_type {n : Nat} (ctx : Context) (lstm_variant : OpVariant) (op : LstmOp n)
    (index : Fin 5) (tensor_property : TensorProperty n)
    (hactive : lstm_variant.use_layer_norm = true ∨ index = 4)
    (hnull : getIntermediateType op index = none) :
    processIntermediates.body ctx lstm_variant op index tensor_property
      = if index = 4 ∧ lstm_variant.use_projection = false then .done (.success op)
        else .done (.failure op) := by
  unfold processIntermediates.body
  rw [body_guard_false lstm_variant index hactive]
  simp only [Bool.false_eq_true, if_false, hnull]
  cases hattr : op.intermediates index <;>
    cases hproj : lstm_variant.use_projection <;>
    by_cases h4 : index = 4 <;> simp [h4]

/-- The loop body on a slot that is not skipped and holds a concrete quantized type. -/
theorem body_concrete {n : Nat} (ctx : Context) (lstm_variant : OpVariant) (op : LstmOp n)
    (index : Fin 5) (tensor_property : TensorProperty n) (attr : MlirType) (q : QuantizedType)
    (hactive : lstm_variant.use_layer_norm = true ∨ index = 4)
    (hattr : op.intermediates index = some attr)
    (helem : QuantizedType.getQuantizedElementType attr = some q)
    (hconcrete : ∀ w a b, q ≠ .calibrated w a b) :
    processIntermediates.body ctx lstm_variant op index tensor_property
      = if tensor_property.number_of_bits ≠ q.getStorageTypeIntegralWidth
        then .done (.failure op) else .next op := by
  unfold processIntermediates.body
  rw [body_guard_false lstm_variant index hactive]
  have hty : getIntermediateType op index = some q := by
    simp [getIntermediateType, hattr, helem]
  simp only [Bool.false_eq_true, if_false, hattr, hty]

/-- The loop body of `processIntermediates` on a calibrated slot of unsupported bit width. -/
theorem body_calibrated_unsupported {n : Nat} (ctx : Context) (lstm_variant : OpVariant)
    (op : LstmOp n) (index : Fin 5) (tensor_property : TensorProperty n) (attr : MlirType)
    (w : Nat) (rmin rmax : ℚ)
    (hattr : op.intermediates index = some attr)
    (helem : QuantizedType.getQuantizedElementType attr = some (.calibrated w rmin rmax))
    (hactive : lstm_variant.use_layer_norm = true ∨ index = 4)
    (h8 : tensor_property.number_of_bits ≠ 8) (h16 : tensor_property.number_of_bits ≠ 16) :
    processIntermediates.body ctx lstm_variant op index tensor_property
      = .done (.failure op) := by
  unfold processIntermediates.body
  rw [body_guard_false lstm_variant index hactive]
  simp [hattr, getIntermediateType, helem, h8, h16]

theorem getIntermediateType_some {n : Nat} {op : LstmOp n} {index : Fin 5} {q : QuantizedType}
    (h : getIntermediateType op index = some q) :
    ∃ attr, op.intermediates index = some attr ∧
      QuantizedType.getQuantizedElementType attr = some q := by
  unfold getIntermediateType at h
  cases hattr : op.intermediates index with
  | none => simp [hattr] at h
  | some attr =>
    rw [hattr] at h
    exact ⟨attr, rfl, h⟩

/-- Every way the loop body of `processIntermediates` can end: it goes on with the IR
unchanged, or with one attribute that was present replaced; or it leaves the function on a null
type dereferenced, with failure, or, only at slot 4 without projection and without a quantized
type, with success; leaving the function never changes the IR. -/
theorem body_cases {n : Nat} (ctx : Context) (lstm_variant : OpVariant) (op : LstmOp n)
    (index : Fin 5) (tensor_property : TensorProperty n) :
    processIntermediates.body ctx lstm_variant op index tensor_property = .next op ∨
    (∃ attr t, op.intermediates index = some attr ∧
      processIntermediates.body ctx lstm_variant op index tensor_property
        = .next { op with intermediates := Function.update op.intermediates index (some t) }) ∨
    processIntermediates.body ctx lstm_variant op index tensor_property = .done .undefined ∨
    processIntermediates.body ctx lstm_variant op index tensor_property
      = .done (.failure op) ∨
    (processIntermediates.body ctx lstm_variant op index tensor_property
        = .done (.success op) ∧
      index = 4 ∧ lstm_variant.use_projection = false ∧
      getIntermediateType op index = none) := by
  by_cases hskip : lstm_variant.use_layer_norm = false ∧ index ≠ 4
  · exact Or.inl (body_skipped ctx lstm_variant op index tensor_property hskip.1 hskip.2)
  · have hactive : lstm_variant.use_layer_norm = true ∨ index = 4 := by
      by_cases h4 : index = 4
      · exact Or.inr h4
      · left
        cases hn : lstm_variant.use_layer_norm with
        | true => rfl
        | false => exact absurd ⟨hn, h4⟩ hskip
    cases hty : getIntermediateType op index with
    | none =>
      rw [body_null_type ctx lstm_variant op index tensor_property hactive hty]
      by_cases hc : index = 4 ∧ lstm_variant.use_projection = false
      · rw [if_pos hc]
        exact Or.inr (Or.inr (Or.inr (Or.inr ⟨rfl, hc.1, hc.2, rfl⟩)))
      · rw [if_neg hc]
        exact Or.inr (Or.inr (Or.inr (Or.inl rfl)))
    | some q =>
      obtain ⟨attr, hattr, helem⟩ := getIntermediateType_some hty
      by_cases hcal : ∃ w a b, q = .calibrated w a b
      · obtain ⟨w, a, b, rfl⟩ := hcal
        by_cases h8 : tensor_property.number_of_bits = 8
        · rw [body_calibrated_8 ctx lstm_variant op index tensor_property attr w a b hattr
            helem hactive h8]
          cases hinst : processIntermediates.install op index attr
              (fakeQuantAttrsToType 8 a b false (.float w) ctx.isSignedInferenceType) with
          | next op' =>
            obtain ⟨t, rfl⟩ := install_next hinst
            exact Or.inr (Or.inl ⟨attr, t, hattr, rfl⟩)
          | done r =>
            rw [install_done hinst]
            exact Or.inr (Or.inr (Or.inl rfl))
        · by_cases h16 : tensor_property.number_of_bits = 16
          · rw [body_calibrated_16 ctx lstm_variant op index tensor_property attr w a b hattr
              helem hactive h16]
            cases hinst : processIntermediates.install op index attr
                (fakeQuantAttrsToType 16 (-max |a| |b|) (max |a| |b|) true (.float w)
                  true) with
            | next op' =>
              obtain ⟨t, rfl⟩ := install_next hinst
              exact Or.inr (Or.inl ⟨attr, t, hattr, rfl⟩)
            | done r =>
              rw [install_done hinst]
              exact Or.inr (Or.inr (Or.inl rfl))
          · rw [body_calibrated_unsupported ctx lstm_variant op index tensor_property attr w a b
              hattr helem hactive h8 h16]
            exact Or.inr (Or.inr (Or.inr (Or.inl rfl)))
      · have hconcrete : ∀ w a b, q ≠ .calibrated w a b :=
          fun w a b h => hcal ⟨w, a, b, h⟩
        rw [body_concrete ctx lstm_variant op index tensor_property attr q hactive hattr helem
          hconcrete]
        split_ifs
        · exact Or.inr (Or.inr (Or.inr (Or.inl rfl)))
        · exact Or.inl rfl

/-- Going on to the next entry keeps operands and rewriter log, and keeps absent attributes
absent. -/
theorem body_next_inv {n : Nat} {ctx : Context} {lstm_variant : OpVariant} {op op' : LstmOp n}
    {index : Fin 5} {tensor_property : TensorProperty n}
    (h : processIntermediates.body ctx lstm_variant op index tensor_property = .next op') :
    op'.operands = op.operands ∧ op'.created = op.created ∧ op'.erased = op.erased ∧
      ∀ j, op.intermediates j = none → op'.intermediates j = none := by
  rcases body_cases ctx lstm_variant op index tensor_property with
    h1 | ⟨attr, t, hattr, h1⟩ | h1 | h1 | ⟨h1, -⟩
  · rw [h1] at h
    simp only [Step.next.injEq] at h
    subst h
    exact ⟨rfl, rfl, rfl, fun _ hj => hj⟩
  · rw [h1] at h
    simp only [Step.next.injEq] at h
    subst h
    refine ⟨rfl, rfl, rfl, fun j hj => ?_⟩
    have hne : j ≠ index := by
      intro hji
      rw [hji, hattr] at hj
      exact absurd hj (by simp)
    simp [Function.update_noteq hne, hj]
  · rw [h1] at h
    exact absurd h (by simp)
  · rw [h1] at h
    exact absurd h (by simp)
  · rw [h1] at h
    exact absurd h (by simp)

/-- Leaving the function with success or failure leaves the IR as the entry found it. -/
theorem body_done_inv {n : Nat} {ctx : Context} {lstm_variant : OpVariant} {op op' : LstmOp n}
    {index : Fin 5} {tensor_property : TensorProperty n} {r : Outcome (LstmOp n)}
    (h : processIntermediates.body ctx lstm_variant op index tensor_property = .done r)
    (hr : r = .success op' ∨ r = .failure op') : op' = op := by
  rcases body_cases ctx lstm_variant op index tensor_property with
    h1 | ⟨attr, t, hattr, h1⟩ | h1 | h1 | ⟨h1, -⟩
  · rw [h1] at h
    exact absurd h (by simp)
  · rw [h1] at h
    exact absurd h (by simp)
  · rw [h1] at h
    simp only [Step.done.injEq] at h
    subst h
    rcases hr with hr | hr <;> exact absurd hr (by simp)
  · rw [h1] at h
    simp only [Step.done.injEq] at h
    subst h
    rcases hr with hr | hr
    · exact absurd hr (by simp)
    · simp only [Outcome.failure.injEq] at hr
      exact hr.symm
  · rw [h1] at h
    simp only [Step.done.injEq] at h
    subst h
    rcases hr with hr | hr
    · simp only [Outcome.success.injEq] at hr
      exact hr.symm
    · exact absurd hr (by simp)

theorem through_inv {n : Nat} (ctx : Context) (lstm_variant : OpVariant) :
    ∀ (pre : List (Fin 5 × TensorProperty n)) (op op' : LstmOp n),
      processIntermediates.through ctx lstm_variant op pre = some op' →
      op'.operands = op.operands ∧ op'.created = op.created ∧ op'.erased = op.erased ∧
        ∀ j, op.intermediates j = none → op'.intermediates j = none := by
  intro pre
  induction pre with
  | nil =>
    intro op op' h
    simp only [processIntermediates.through, Option.some.injEq] at h
    subst h
    exact ⟨rfl, rfl, rfl, fun _ hj => hj⟩
  | cons e rest ih =>
    intro op op' h
    obtain ⟨index, tp⟩ := e
    simp only [processIntermediates.through] at h
    cases hb : processIntermediates.body ctx lstm_variant op index tp with
    | next op1 =>
      rw [hb] at h
      obtain ⟨a1, a2, a3, a4⟩ := body_next_inv hb
      obtain ⟨b1, b2, b3, b4⟩ := ih op1 op' h
      exact ⟨b1.trans a1, b2.trans a2, b3.trans a3, fun j hj => b4 j (a4 j hj)⟩
    | done r =>
      rw [hb] at h
      exact absurd h (by simp)

/-- When the loop runs through the entries `pre`, it goes on with the entries behind them. -/
theorem loop_of_through {n : Nat} (ctx : Context) (lstm_variant : OpVariant) :
    ∀ (pre rest : List (Fin 5 × TensorProperty n)) (op op' : LstmOp n),
      processIntermediates.through ctx lstm_variant op pre = some op' →
      processIntermediates.loop ctx lstm_variant op (pre ++ rest)
        = processIntermediates.loop ctx lstm_variant op' rest := by
  intro pre
  induction pre with
  | nil =>
    intro rest op op' h
    simp only [processIntermediates.through, Option.some.injEq] at h
    subst h
    rfl
  | cons e pre ih =>
    intro rest op op' h
    obtain ⟨index, tp⟩ := e
    simp only [processIntermediates.through] at h
    cases hb : processIntermediates.body ctx lstm_variant op index tp with
    | next op1 =>
      rw [hb] at h
      simp only [List.cons_append, processIntermediates.loop, hb]
      exact ih rest op1 op' h
    | done r =>
      rw [hb] at h
      exact absurd h (by simp)

/-- Whatever `processIntermediates` returns, success or failure, the operands and the rewriter
log are those it was called with. -/
theorem loop_inv {n : Nat} (ctx : Context) (lstm_variant : OpVariant) :
    ∀ (table : List (Fin 5 × TensorProperty n)) (op op' : LstmOp n),
      (processIntermediates.loop ctx lstm_variant op table = .success op' ∨
        processIntermediates.loop ctx lstm_variant op table = .failure op') →
      op'.operands = op.operands ∧ op'.created = op.created ∧ op'.erased = op.erased := by
  intro table
  induction table with
  | nil =>
    intro op op' h
    simp only [processIntermediates.loop, Outcome.success.injEq, reduceCtorEq, or_false] at h
    subst h
    exact ⟨rfl, rfl, rfl⟩
  | cons e rest ih =>
    intro op op' h
    obtain ⟨index, tp⟩ := e
    simp only [processIntermediates.loop] at h
    cases hb : processIntermediates.body ctx lstm_variant op index tp with
    | next op1 =>
      rw [hb] at h
      obtain ⟨a1, a2, a3, -⟩ := body_next_inv hb
      obtain ⟨b1, b2, b3⟩ := ih op1 op' h
      exact ⟨b1.trans a1, b2.trans a2, b3.trans a3⟩
    | done r =>
      rw [hb] at h
      have := body_done_inv hb h
      subst this
      exact ⟨rfl, rfl, rfl⟩

/-- With projection, while attribute 4 is absent and slot 4 is still to come, the loop of
`processIntermediates` does not return success. -/
theorem loop_projection_absent {n : Nat} (ctx : Context) (lstm_variant : OpVariant)
    (hproj : lstm_variant.use_projection = true) :
    ∀ (table : List (Fin 5 × TensorProperty n)) (op : LstmOp n),
      op.intermediates 4 = none → (∃ tp, ((4 : Fin 5), tp) ∈ table) →
      (processIntermediates.loop ctx lstm_variant op table).succeeded = false := by
  intro table
  induction table with
  | nil =>
    intro op _ hmem
    obtain ⟨tp, h⟩ := hmem
    exact absurd h (List.not_mem_nil _)
  | cons e rest ih =>
    intro op habsent hmem
    obtain ⟨index, tp⟩ := e
    simp only [processIntermediates.loop]
    by_cases h4 : index = 4
    · subst h4
      have hnull : getIntermediateType op 4 = none := by simp [getIntermediateType, habsent]
      rw [body_null_type ctx lstm_variant op 4 tp (Or.inr rfl) hnull]
      simp [hproj, Outcome.succeeded]
    · have hmem' : ∃ tp', ((4 : Fin 5), tp') ∈ rest := by
        obtain ⟨tp', h⟩ := hmem
        rcases List.mem_cons.mp h with h | h
        · simp only [Prod.mk.injEq] at h
          exact absurd h.1.symm h4
        · exact ⟨tp', h⟩
      rcases body_cases ctx lstm_variant op index tp with
        h1 | ⟨attr, t, hattr, h1⟩ | h1 | h1 | ⟨h1, h4', -⟩
      · rw [h1]
        exact ih op habsent hmem'
      · rw [h1]
        apply ih _ _ hmem'
        have hne : (4 : Fin 5) ≠ index := fun h => h4 h.symm
        simp [Function.update_noteq hne, habsent]
      · rw [h1]
        rfl
      · rw [h1]
        rfl
      · exact absurd h4' h4

/-! ## Claims on `processIntermediates` -/

/-- C12: when the loop of `processIntermediates` reaches an entry whose slot is not skipped and
whose attribute is absent, `processIntermediates` returns failure, except at slot 4 without
projection, where it returns success; and with projection, an absent attribute 4 whose slot is
listed in the table keeps `processIntermediates` from succeeding, whatever the other entries
are. -/
theorem processIntermediates_absent_slot {n : Nat} (ctx : Context) (lstm_variant : OpVariant)
    (op : LstmOp n) (lstm_property : OperatorProperty n) :
    (∀ (pre rest : List (Fin 5 × TensorProperty n)) (index : Fin 5)
        (tensor_property : TensorProperty n) (op' : LstmOp n),
      lstm_property.intermediates = pre ++ (index, tensor_property) :: rest →
      processIntermediates.through ctx lstm_variant op pre = some op' →
      (lstm_variant.use_layer_norm = true ∨ index = 4) →
      op.intermediates index = none →
      processIntermediates ctx op lstm_variant lstm_property
        = if index = 4 ∧ lstm_variant.use_projection = false then .success op'
          else .failure op') ∧
    (lstm_variant.use_projection = true → op.intermediates 4 = none →
      (∃ tensor_property, ((4 : Fin 5), tensor_property) ∈ lstm_property.intermediates) →
      (processIntermediates ctx op lstm_variant lstm_property).succeeded = false) := by
  constructor
  · intro pre rest index tensor_property op' htable hreach hactive habsent
    have habsent' : op'.intermediates index = none :=
      (through_inv ctx lstm_variant pre op op' hreach).2.2.2 index habsent
    have hnull : getIntermediateType op' index = none := by
      simp [getIntermediateType, habsent']
    unfold processIntermediates
    rw [htable, loop_of_through ctx lstm_variant pre _ op op' hreach]
    simp only [processIntermediates.loop]
    rw [body_null_type ctx lstm_variant op' index tensor_property hactive hnull]
    split_ifs <;> rfl
  · intro hproj habsent hmem
    exact loop_projection_absent ctx lstm_variant hproj _ op habsent hmem

/-- Witness of C12: the example op without intermediates under projection: slots 0 to 3 are
skipped and the absent slot 4 makes `processIntermediates` fail. -/
theorem processIntermediates_absent_slot_witness :
    processIntermediates Example.ctx Example.bareOp Example.projectionVariant
      Example.intermediatesOnly = .failure Example.bareOp := by
  have h := (processIntermediates_absent_slot Example.ctx Example.projectionVariant
    Example.bareOp Example.intermediatesOnly).1 [(0, {}), (1, {}), (2, {}), (3, {})] [] 4
    Example.wideProperty Example.bareOp rfl rfl (Or.inr rfl) rfl
  rw [h]
  simp [Example.projectionVariant]

/-- C13: without layer normalization and without projection, when attribute 4 is absent,
`processIntermediates` succeeds and leaves the op as it was, whatever the table is and whatever
the attributes of slots 0 to 3 hold. -/
theorem processIntermediates_optional_hidden {n : Nat} (ctx : Context)
    (lstm_variant : OpVariant) (op : LstmOp n) (lstm_property : OperatorProperty n)
    (hnorm : lstm_variant.use_layer_norm = false)
    (hproj : lstm_variant.use_projection = false)
    (habsent : op.intermediates 4 = none) :
    processIntermediates ctx op lstm_variant lstm_property = .success op := by
  unfold processIntermediates
  generalize lstm_property.intermediates = table
  induction table with
  | nil => rfl
  | cons e rest ih =>
    obtain ⟨index, tp⟩ := e
    simp only [processIntermediates.loop]
    by_cases h4 : index = 4
    · subst h4
      have hnull : getIntermediateType op 4 = none := by simp [getIntermediateType, habsent]
      rw [body_null_type ctx lstm_variant op 4 tp (Or.inr rfl) hnull]
      simp [hproj]
    · rw [body_skipped ctx lstm_variant op index tp hnorm h4]
      exact ih

/-- Witness of C13: the example op with a calibrated slot 0 and no attribute 4. -/
theorem processIntermediates_optional_hidden_witness :
    processIntermediates Example.ctx Example.slotZeroOp Example.plainVariant
      Example.intermediatesOnly = .success Example.slotZeroOp :=
  processIntermediates_optional_hidden Example.ctx Example.plainVariant Example.slotZeroOp
    Example.intermediatesOnly rfl rfl rfl

theorem through_append {n : Nat} (ctx : Context) (lstm_variant : OpVariant) :
    ∀ (pre rest : List (Fin 5 × TensorProperty n)) (op op' : LstmOp n),
      processIntermediates.through ctx lstm_variant op pre = some op' →
      processIntermediates.through ctx lstm_variant op (pre ++ rest)
        = processIntermediates.through ctx lstm_variant op' rest := by
  intro pre
  induction pre with
  | nil =>
    intro rest op op' h
    simp only [processIntermediates.through, Option.some.injEq] at h
    subst h
    rfl
  | cons e pre ih =>
    intro rest op op' h
    obtain ⟨index, tp⟩ := e
    simp only [processIntermediates.through] at h
    cases hb : processIntermediates.body ctx lstm_variant op index tp with
    | next op1 =>
      rw [hb] at h
      simp only [List.cons_append, processIntermediates.through, hb]
      exact ih rest op1 op' h
    | done r =>
      rw [hb] at h
      exact absurd h (by simp)

/-- When every entry of the table that is not skipped finds a concrete quantized type of the
configured width, the loop of `processIntermediates` succeeds with the IR unchanged. -/
theorem loop_all_concrete {n : Nat} (ctx : Context) (lstm_variant : OpVariant)
    (op : LstmOp n) :
    ∀ table : List (Fin 5 × TensorProperty n),
      (∀ e ∈ table, (lstm_variant.use_layer_norm = true ∨ e.1 = 4) →
        ∃ attr q, op.intermediates e.1 = some attr ∧
          QuantizedType.getQuantizedElementType attr = some q ∧
          (∀ w a b, q ≠ .calibrated w a b) ∧
          e.2.number_of_bits = q.getStorageTypeIntegralWidth) →
      processIntermediates.loop ctx lstm_variant op table = .success op := by
  intro table
  induction table with
  | nil => intro _; rfl
  | cons e rest ih =>
    intro h
    obtain ⟨index, tp⟩ := e
    have hrest := ih (fun e he => h e (List.mem_cons_of_mem _ he))
    simp only [processIntermediates.loop]
    by_cases hskip : lstm_variant.use_layer_norm = false ∧ index ≠ 4
    · rw [body_skipped ctx lstm_variant op index tp hskip.1 hskip.2]
      exact hrest
    · have hactive : lstm_variant.use_layer_norm = true ∨ index = 4 := by
        by_cases h4 : index = 4
        · exact Or.inr h4
        · left
          cases hn : lstm_variant.use_layer_norm with
          | true => rfl
          | false => exact absurd ⟨hn, h4⟩ hskip
      obtain ⟨attr, q, hattr, helem, hconcrete, hwidth⟩ :=
        h (index, tp) (List.mem_cons_self _ _) hactive
      have hwidth' : tp.number_of_bits = q.getStorageTypeIntegralWidth := hwidth
      rw [body_concrete ctx lstm_variant op index tp attr q hactive hattr helem hconcrete,
        if_neg (not_not.mpr hwidth')]
      exact hrest

/-- C14: on a slot that is not skipped and whose attribute holds a concrete (not calibrated)
quantized type, the loop body of `processIntermediates` rejects the slot exactly when the
configured bit width differs from the storage width of the type, and otherwise goes on with
the IR unchanged; so, when the loop reaches the entry, `processIntermediates` fails on a
mismatch, and on a match goes on to the entries behind it with the attribute as it was. -/
theorem processIntermediates_concrete_slot {n : Nat} (ctx : Context)
    (lstm_variant : OpVariant) (op : LstmOp n) (index : Fin 5)
    (tensor_property : TensorProperty n) (attr : MlirType) (q : QuantizedType)
    (hactive : lstm_variant.use_layer_norm = true ∨ index = 4)
    (hattr : op.intermediates index = some attr)
    (helem : QuantizedType.getQuantizedElementType attr = some q)
    (hconcrete : ∀ w a b, q ≠ .calibrated w a b) :
    (processIntermediates.body ctx lstm_variant op index tensor_property
        = .done (.failure op) ↔
      tensor_property.number_of_bits ≠ q.getStorageTypeIntegralWidth) ∧
    (tensor_property.number_of_bits = q.getStorageTypeIntegralWidth →
      processIntermediates.body ctx lstm_variant op index tensor_property = .next op) ∧
    (∀ (lstm_property : OperatorProperty n) (pre rest : List (Fin 5 × TensorProperty n))
        (op0 : LstmOp n),
      lstm_property.intermediates = pre ++ (index, tensor_property) :: rest →
      processIntermediates.through ctx lstm_variant op0 pre = some op →
      (tensor_property.number_of_bits ≠ q.getStorageTypeIntegralWidth →
        processIntermediates ctx op0 lstm_variant lstm_property = .failure op) ∧
      (tensor_property.number_of_bits = q.getStorageTypeIntegralWidth →
        processIntermediates ctx op0 lstm_variant lstm_property
          = processIntermediates.loop ctx lstm_variant op rest ∧
        processIntermediates.through ctx lstm_variant op0 (pre ++ [(index, tensor_property)])
          = some op)) := by
  have hbody := body_concrete ctx lstm_variant op index tensor_property attr q hactive hattr
    helem hconcrete
  refine ⟨?_, ?_, ?_⟩
  · rw [hbody]
    constructor
    · intro h hEq
      rw [if_neg (not_not.mpr hEq)] at h
      exact absurd h (by simp)
    · intro h
      rw [if_pos h]
  · intro hEq
    rw [hbody, if_neg (not_not.mpr hEq)]
  · intro lstm_property pre rest op0 htable hreach
    constructor
    · intro hne
      unfold processIntermediates
      rw [htable, loop_of_through ctx lstm_variant pre _ op0 op hreach]
      simp only [processIntermediates.loop, hbody, if_pos hne]
    · intro hEq
      constructor
      · unfold processIntermediates
        rw [htable, loop_of_through ctx lstm_variant pre _ op0 op hreach]
        simp only [processIntermediates.loop, hbody, if_neg (not_not.mpr hEq)]
      · rw [through_append ctx lstm_variant pre _ op0 op hreach]
        simp only [processIntermediates.through, hbody, if_neg (not_not.mpr hEq)]

/-- Witness of C14: slot 4 of the example op holds a 16-bit type; an entry configured with 8
bits is rejected. -/
theorem processIntermediates_concrete_slot_witness :
    processIntermediates.body Example.ctx Example.plainVariant Example.op 4
      Example.inputProperty = .done (.failure Example.op) :=
  (processIntermediates_concrete_slot Example.ctx Example.plainVariant Example.op 4
    Example.inputProperty (.shaped (some [4]) (.quantized (.uniform Example.hiddenType)))
    (.uniform Example.hiddenType) (Or.inr rfl) rfl rfl
    (fun _ _ _ h => by simp at h)).1.mpr (by decide)

/-- C15: when every intermediate that is not skipped already holds a concrete quantized type
of the configured storage width, `processIntermediates` succeeds and returns the op as it was;
so a second run on the result of the first succeeds as well and returns the same op. -/
theorem processIntermediates_idempotent {n : Nat} (ctx : Context) (lstm_variant : OpVariant)
    (op : LstmOp n) (lstm_property : OperatorProperty n)
    (hquantized : ∀ e ∈ lstm_property.intermediates,
      (lstm_variant.use_layer_norm = true ∨ e.1 = 4) →
      ∃ attr q, op.intermediates e.1 = some attr ∧
        QuantizedType.getQuantizedElementType attr = some q ∧
        (∀ w a b, q ≠ .calibrated w a b) ∧
        e.2.number_of_bits = q.getStorageTypeIntegralWidth) :
    processIntermediates ctx op lstm_variant lstm_property = .success op ∧
    (match processIntermediates ctx op lstm_variant lstm_property with
      | .success op1 => processIntermediates ctx op1 lstm_variant lstm_property
      | r => r) = .success op := by
  have h : processIntermediates ctx op lstm_variant lstm_property = .success op :=
    loop_all_concrete ctx lstm_variant op _ hquantized
  refine ⟨h, ?_⟩
  rw [h]
  exact h

/-- Witness of C15: the example op, whose slot 4 holds a 16-bit type, under the table that
configures 16 bits for slot 4 (slots 0 to 3 are skipped). -/
theorem processIntermediates_idempotent_witness :
    processIntermediates Example.ctx Example.op Example.plainVariant
        Example.intermediatesOnly = .success Example.op ∧
    (match processIntermediates Example.ctx Example.op Example.plainVariant
        Example.intermediatesOnly with
      | .success op1 =>
        processIntermediates Example.ctx op1 Example.plainVariant Example.intermediatesOnly
      | r => r) = .success Example.op :=
  processIntermediates_idempotent Example.ctx Example.plainVariant Example.op
    Example.intermediatesOnly (by
      intro e he hactive
      simp only [Example.intermediatesOnly, Example.intermediateTable, List.mem_cons,
        List.mem_singleton, List.not_mem_nil, or_false] at he
      rcases he with rfl | rfl | rfl | rfl | rfl
      · rcases hactive with h | h
        · exact absurd h (by decide)
        · exact absurd h (by decide)
      · rcases hactive with h | h
        · exact absurd h (by decide)
        · exact absurd h (by decide)
      · rcases hactive with h | h
        · exact absurd h (by decide)
        · exact absurd h (by decide)
      · rcases hactive with h | h
        · exact absurd h (by decide)
        · exact absurd h (by decide)
      · exact ⟨.shaped (some [4]) (.quantized (.uniform Example.hiddenType)),
          .uniform Example.hiddenType, rfl, rfl, fun _ _ _ h => by simp at h, rfl⟩)

/-! ## Lemmas on `processConstantOp` -/

theorem processConstantOp_finish_success {n : Nat} {op op' : LstmOp n} {const_op : Value}
    {input_index : Fin n} {q : Option UniformQuantizedType}
    (h : processConstantOp.finish op const_op input_index q = .success op') :
    ∃ T cast_type, q = some T ∧
      T.castFromExpressedType const_op.getType = some cast_type ∧
      op' = processConstantOp.rewrite op const_op input_index cast_type := by
  cases q with
  | none => simp [processConstantOp.finish] at h
  | some T =>
    simp only [processConstantOp.finish] at h
    cases hc : T.castFromExpressedType const_op.getType with
    | none => simp [hc] at h
    | some cast_type =>
      rw [hc] at h
      simp only [Outcome.success.injEq] at h
      exact ⟨T, cast_type, rfl, hc, h.symm⟩

theorem processConstantOp_finish_failure {n : Nat} {op op' : LstmOp n} {const_op : Value}
    {input_index : Fin n} {q : Option UniformQuantizedType}
    (h : processConstantOp.finish op const_op input_index q = .failure op') : op' = op := by
  cases q with
  | none =>
    simp only [processConstantOp.finish, Outcome.failure.injEq] at h
    exact h.symm
  | some T =>
    simp only [processConstantOp.finish] at h
    split at h <;> simp at h

/-- On a constant of floating-point element type, `processConstantOp` is, for some type
`q` or null, the end of the function applied to it, or it is failure with the op unchanged. -/
theorem processConstantOp_float_cases {n : Nat} (ctx : Context) (op : LstmOp n)
    (const_op : Value) (input_index : Fin n) (tensor_property : TensorProperty n)
    (shape : Option (List Nat)) (w : Nat)
    (hfloat : const_op.getType = .shaped shape (.float w)) :
    processConstantOp ctx op const_op input_index tensor_property = .failure op ∨
    ∃ q, processConstantOp ctx op const_op input_index tensor_property
      = processConstantOp.finish op const_op input_index q := by
  unfold processConstantOp
  rw [hfloat]
  cases hm : matchConstantFP const_op with
  | none => exact Or.inl rfl
  | some attr =>
    dsimp only
    by_cases hd : tensor_property.use_derived_scale = true
    · rw [if_pos hd]
      by_cases hb : tensor_property.number_of_bits ≠ 32
      · rw [if_pos hb]
        exact Or.inl rfl
      · rw [if_neg hb]
        cases hs : getDerivedScale op input_index tensor_property with
        | none => exact Or.inl rfl
        | some s => exact Or.inr ⟨_, rfl⟩
    · rw [if_neg hd]
      exact Or.inr ⟨_, rfl⟩

theorem castFromExpressedType_shaped {T : UniformQuantizedType} {shape : Option (List Nat)}
    {w : Nat} {cast_type : MlirType}
    (h : T.castFromExpressedType (.shaped shape (.float w)) = some cast_type) :
    cast_type = .shaped shape (.quantized (.uniform T)) := by
  simp only [UniformQuantizedType.castFromExpressedType] at h
  split_ifs at h
  simp only [Option.some.injEq] at h
  exact h.symm

/-- The evaluation of `processConstantOp` on the example bias. -/
theorem Example.processBias_eq :
    processConstantOp Example.ctx Example.op Example.biasConst 2 Example.biasProperty
      = .success (processConstantOp.rewrite Example.op Example.biasConst 2
          (.shaped (some [4]) (.quantized (.uniform Example.biasType)))) := by
  have hf : Example.biasConst.getType = .shaped (some [4]) (.float 32) := rfl
  have hm : matchConstantFP Example.biasConst = some [1, 1, 1, 1] := rfl
  have hd : Example.biasProperty.use_derived_scale = true := rfl
  have hb : Example.biasProperty.number_of_bits = 32 := rfl
  have hc : UniformQuantizedType.getChecked true 32 (.float 32) (1 / 32) 0 (minIntN 32)
      (maxIntN 32) = some Example.biasType :=
    getChecked_eq_some true 32 32 (1 / 32) 0 (minIntN 32) (maxIntN 32) (by decide) (by decide)
      (by decide) (by decide) (by decide) (by norm_num)
  unfold processConstantOp
  rw [hf]
  simp only [hm, hd, hb, Example.derivedScale_eq, if_true, ne_eq, not_true_eq_false, if_false,
    hc, processConstantOp.finish, hf, UniformQuantizedType.castFromExpressedType,
    Example.biasType]

/-! ## Claims on `processConstantOp` -/

/-- C16: on a constant whose element type is not floating point `processConstantOp` returns
success with the op and the rewriter log unchanged, whatever the tensor property is. -/
theorem processConstantOp_not_float {n : Nat} (ctx : Context) (op : LstmOp n)
    (const_op : Value) (input_index : Fin n) (tensor_property : TensorProperty n)
    (hnotfloat : ∀ w, getElementTypeOrSelf const_op.getType ≠ .float w) :
    processConstantOp ctx op const_op input_index tensor_property = .success op := by
  unfold processConstantOp
  cases hty : const_op.getType with
  | scalar e => rfl
  | shaped shape e =>
    cases e with
    | float w =>
      rw [hty] at hnotfloat
      exact absurd rfl (hnotfloat w)
    | integer w => rfl
    | quantized q => rfl
    | noneType => rfl

/-- Witness of C16: an integer constant under a derived-scale property of 16 bits. -/
theorem processConstantOp_not_float_witness :
    processConstantOp Example.ctx Example.op Example.intConst 2 Example.narrowBiasProperty
      = .success Example.op :=
  processConstantOp_not_float Example.ctx Example.op Example.intConst 2
    Example.narrowBiasProperty (fun w h => by simp [Example.intConst, Value.getType,
      getElementTypeOrSelf] at h)

/-- C17: when `processConstantOp` succeeds on a constant of floating-point element type, there
is a quantized type `T` such that the operand at the index is a dequantize of a quantize of the
constant, both of the constant's shape over `T`; every other operand, the intermediate
attributes and the list of erased ops are unchanged (the constant is kept, as the operand of
the quantize op); and `getDerivedScale` on the new op multiplies by `T.scale` at a dependency
on this index. -/
theorem processConstantOp_rewires {n : Nat} (ctx : Context) (op op' : LstmOp n)
    (const_op : Value) (input_index : Fin n) (tensor_property : TensorProperty n)
    (shape : Option (List Nat)) (w : Nat)
    (hfloat : const_op.getType = .shaped shape (.float w))
    (hsucc : processConstantOp ctx op const_op input_index tensor_property = .success op') :
    ∃ T : UniformQuantizedType,
      op'.operands input_index
        = .dequantizeCast
            (.quantizeCast const_op (.shaped shape (.quantized (.uniform T))))
            (.shaped shape (.quantized (.uniform T))) ∧
      (∀ j, j ≠ input_index → op'.operands j = op.operands j) ∧
      op'.intermediates = op.intermediates ∧
      op'.erased = op.erased ∧
      op'.created
        = .dequantizeCast
            (.quantizeCast const_op (.shaped shape (.quantized (.uniform T))))
            (.shaped shape (.quantized (.uniform T)))
          :: .quantizeCast const_op (.shaped shape (.quantized (.uniform T)))
          :: op.created ∧
      (∀ (rest : List (Fin n)) (scale : ℚ),
        getDerivedScale.inputLoop op' (input_index :: rest) scale
          = getDerivedScale.inputLoop op' rest (scale * T.scale)) ∧
      (∀ (k : Fin n) (later : TensorProperty n),
        later.derived_scale.input_tensors = [input_index] →
        later.derived_scale.intermediate_tensors = [] →
        later.derived_scale.factors = [] →
        getDerivedScale op' k later = some (1 * T.scale)) := by
  rcases processConstantOp_float_cases ctx op const_op input_index tensor_property shape w
    hfloat with hfail | ⟨q, hq⟩
  · rw [hfail] at hsucc
    exact absurd hsucc (by simp)
  · rw [hq] at hsucc
    obtain ⟨T, cast_type, -, hcast, hop'⟩ := processConstantOp_finish_success hsucc
    rw [hfloat] at hcast
    have hct := castFromExpressedType_shaped hcast
    subst hct
    subst hop'
    have hoperand : (processConstantOp.rewrite op const_op input_index
        (.shaped shape (.quantized (.uniform T)))).operands input_index
        = .dequantizeCast
            (.quantizeCast const_op (.shaped shape (.quantized (.uniform T))))
            (.shaped shape (.quantized (.uniform T))) := by
      simp [processConstantOp.rewrite]
    have hloop : ∀ (rest : List (Fin n)) (scale : ℚ),
        getDerivedScale.inputLoop (processConstantOp.rewrite op const_op input_index
            (.shaped shape (.quantized (.uniform T)))) (input_index :: rest) scale
          = getDerivedScale.inputLoop (processConstantOp.rewrite op const_op input_index
            (.shaped shape (.quantized (.uniform T)))) rest (scale * T.scale) := by
      intro rest scale
      simp only [getDerivedScale.inputLoop, hoperand, Value.getType,
        QuantizedType.getQuantizedElementType, getElementTypeOrSelf]
    refine ⟨T, hoperand, ?_, rfl, rfl, rfl, hloop, ?_⟩
    · intro j hj
      simp [processConstantOp.rewrite, Function.update_noteq hj]
    · intro k later h1 h2 h3
      unfold getDerivedScale
      rw [h1, h2, h3, hloop]
      simp [getDerivedScale.inputLoop, getDerivedScale.intermediateLoop]

/-- Witness of C17: the example bias; afterwards a derived scale that depends on input 2
alone is the scale `1/32` of the bias type. -/
theorem processConstantOp_rewires_witness :
    ∃ T : UniformQuantizedType,
      (processConstantOp.rewrite Example.op Example.biasConst 2
          (.shaped (some [4]) (.quantized (.uniform Example.biasType)))).operands 2
        = .dequantizeCast
            (.quantizeCast Example.biasConst (.shaped (some [4]) (.quantized (.uniform T))))
            (.shaped (some [4]) (.quantized (.uniform T))) ∧
      T.scale = 1 / 32 := by
  obtain ⟨T, h1, -⟩ := processConstantOp_rewires Example.ctx Example.op _ Example.biasConst 2
    Example.biasProperty (some [4]) 32 rfl Example.processBias_eq
  refine ⟨T, h1, ?_⟩
  have h2 : (processConstantOp.rewrite Example.op Example.biasConst 2
      (.shaped (some [4]) (.quantized (.uniform Example.biasType)))).operands 2
      = .dequantizeCast
          (.quantizeCast Example.biasConst
            (.shaped (some [4]) (.quantized (.uniform Example.biasType))))
          (.shaped (some [4]) (.quantized (.uniform Example.biasType))) := by
    simp [processConstantOp.rewrite]
  rw [h2] at h1
  simp only [Value.dequantizeCast.injEq, Value.quantizeCast.injEq, MlirType.shaped.injEq,
    ElementType.quantized.injEq, QuantizedType.uniform.injEq, true_and, and_self] at h1
  rw [← h1]
  rfl

/-! ## Lemmas on `processInputs` -/

theorem processConstantOp_cases {n : Nat} (ctx : Context) (op : LstmOp n)
    (const_op : Value) (input_index : Fin n) (tensor_property : TensorProperty n) :
    processConstantOp ctx op const_op input_index tensor_property = .success op ∨
    processConstantOp ctx op const_op input_index tensor_property = .failure op ∨
    ∃ q, processConstantOp ctx op const_op input_index tensor_property
      = processConstantOp.finish op const_op input_index q := by
  cases hty : const_op.getType with
  | scalar e =>
    left
    unfold processConstantOp
    rw [hty]
  | shaped shape e =>
    cases e with
    | float w =>
      right
      exact processConstantOp_float_cases ctx op const_op input_index tensor_property shape w hty
    | integer w =>
      left
      unfold processConstantOp
      rw [hty]
    | quantized q =>
      left
      unfold processConstantOp
      rw [hty]
    | noneType =>
      left
      unfold processConstantOp
      rw [hty]

/-- A successful `processConstantOp` leaves the op as it was or sets the one operand. -/
theorem processConstantOp_success {n : Nat} {ctx : Context} {op op' : LstmOp n}
    {const_op : Value} {input_index : Fin n} {tensor_property : TensorProperty n}
    (h : processConstantOp ctx op const_op input_index tensor_property = .success op') :
    op' = op ∨ ∃ cast_type,
      op' = processConstantOp.rewrite op const_op input_index cast_type := by
  rcases processConstantOp_cases ctx op const_op input_index tensor_property with
    h1 | h1 | ⟨q, h1⟩
  · rw [h1] at h
    simp only [Outcome.success.injEq] at h
    exact Or.inl h.symm
  · rw [h1] at h
    exact absurd h (by simp)
  · rw [h1] at h
    obtain ⟨T, cast_type, -, -, hop'⟩ := processConstantOp_finish_success h
    exact Or.inr ⟨cast_type, hop'⟩

/-- A failed `processConstantOp` leaves the op as it was. -/
theorem processConstantOp_failure {n : Nat} {ctx : Context} {op op' : LstmOp n}
    {const_op : Value} {input_index : Fin n} {tensor_property : TensorProperty n}
    (h : processConstantOp ctx op const_op input_index tensor_property = .failure op') :
    op' = op := by
  rcases processConstantOp_cases ctx op const_op input_index tensor_property with
    h1 | h1 | ⟨q, h1⟩
  · rw [h1] at h
    exact absurd h (by simp)
  · rw [h1] at h
    simp only [Outcome.failure.injEq] at h
    exact h.symm
  · rw [h1] at h
    exact processConstantOp_finish_failure h

theorem replaceStatsOp_cases {n : Nat} (op : LstmOp n) (id : Nat) (arg : Value)
    (layerStats : Attribute) (type : MlirType) (otherUses : Nat) (input_index : Fin n)
    (tensor_property : TensorProperty n) :
    replaceStatsOp op (.statistics id arg layerStats type otherUses) input_index
      tensor_property = .failure op ∨
    ∃ q, replaceStatsOp op (.statistics id arg layerStats type otherUses) input_index
        tensor_property
      = replaceStatsOp.finish op (.statistics id arg layerStats type otherUses) arg type q := by
  by_cases hbad : ∀ a b : ℚ, layerStats ≠ .denseFPElements [a, b]
  · left
    simp only [replaceStatsOp]
    split_ifs <;> rfl
  · push_neg at hbad
    obtain ⟨a, b, rfl⟩ := hbad
    simp only [replaceStatsOp]
    split_ifs
    · exact Or.inl rfl
    · exact Or.inl rfl
    · exact Or.inr ⟨_, rfl⟩
    · exact Or.inr ⟨_, rfl⟩

theorem replaceStatsOp_finish_success {n : Nat} {op op' : LstmOp n} {stats_op arg : Value}
    {type : MlirType} {q : Option UniformQuantizedType}
    (h : replaceStatsOp.finish op stats_op arg type q = .success op') :
    ∃ rt, op' = replaceStatsOp.rewrite op stats_op arg type rt := by
  cases q with
  | none => simp [replaceStatsOp.finish] at h
  | some T =>
    simp only [replaceStatsOp.finish] at h
    cases hc : T.castFromExpressedType type with
    | none => simp [hc] at h
    | some rt =>
      rw [hc] at h
      simp only [Outcome.success.injEq] at h
      exact ⟨rt, h.symm⟩

theorem replaceStatsOp_finish_failure {n : Nat} {op op' : LstmOp n} {stats_op arg : Value}
    {type : MlirType} {q : Option UniformQuantizedType}
    (h : replaceStatsOp.finish op stats_op arg type q = .failure op') : False := by
  cases q with
  | none => simp [replaceStatsOp.finish] at h
  | some T =>
    simp only [replaceStatsOp.finish] at h
    split at h <;> simp at h

/-- Going on to the next entry of `processInputs` changes no operand other than those produced
by a constant or a statistics op, and no intermediate attribute. -/
theorem inputs_body_next_inv {n : Nat} {ctx : Context} {op op' : LstmOp n} {index : Fin n}
    {tensor_property : TensorProperty n}
    (h : processInputs.body ctx op index tensor_property = .next op') :
    (∀ j, (op.operands j).isConstantOrStatistics = false → op'.operands j = op.operands j) ∧
      op'.intermediates = op.intermediates := by
  unfold processInputs.body at h
  cases hv : op.operands index with
  | blockArgument k t =>
    rw [hv] at h
    simp only [Step.next.injEq] at h
    subst h
    exact ⟨fun _ _ => rfl, rfl⟩
  | dequantizeCast a t =>
    rw [hv] at h
    simp only [Step.next.injEq] at h
    subst h
    exact ⟨fun _ _ => rfl, rfl⟩
  | quantizeCast a t =>
    rw [hv] at h
    exact absurd h (by simp)
  | otherOp k t =>
    rw [hv] at h
    exact absurd h (by simp)
  | constant k t a =>
    rw [hv] at h
    dsimp only at h
    cases hp : processConstantOp ctx op (.constant k t a) index tensor_property with
    | success op1 =>
      rw [hp] at h
      simp only [Step.next.injEq] at h
      subst h
      rcases processConstantOp_success hp with rfl | ⟨ct, rfl⟩
      · exact ⟨fun _ _ => rfl, rfl⟩
      · refine ⟨fun j hj => ?_, rfl⟩
        have hne : j ≠ index := by
          intro hji
          rw [hji, hv] at hj
          exact absurd hj (by simp [Value.isConstantOrStatistics])
        simp [processConstantOp.rewrite, Function.update_noteq hne]
    | failure op1 =>
      rw [hp] at h
      exact absurd h (by simp)
    | undefined =>
      rw [hp] at h
      exact absurd h (by simp)
  | statistics k a ls t u =>
    rw [hv] at h
    dsimp only at h
    cases hp : replaceStatsOp op (.statistics k a ls t u) index tensor_property with
    | success op1 =>
      rw [hp] at h
      simp only [Step.next.injEq] at h
      subst h
      rcases replaceStatsOp_cases op k a ls t u index tensor_property with h1 | ⟨q, h1⟩
      · rw [h1] at hp
        exact absurd hp (by simp)
      · rw [h1] at hp
        obtain ⟨rt, rfl⟩ := replaceStatsOp_finish_success hp
        refine ⟨fun j hj => ?_, rfl⟩
        have hne : op.operands j ≠ .statistics k a ls t u := by
          intro hje
          rw [hje] at hj
          exact absurd hj (by simp [Value.isConstantOrStatistics])
        simp [replaceStatsOp.rewrite, hne]
    | failure op1 =>
      rw [hp] at h
      exact absurd h (by simp)
    | undefined =>
      rw [hp] at h
      exact absurd h (by simp)

/-- Leaving `processInputs` from the loop body is never a success, and a failure leaves the op
as the entry found it. -/
theorem inputs_body_done {n : Nat} {ctx : Context} {op : LstmOp n} {index : Fin n}
    {tensor_property : TensorProperty n} {r : Outcome (LstmOp n)}
    (h : processInputs.body ctx op index tensor_property = .done r) :
    r.succeeded = false ∧ ∀ op', r = .failure op' → op' = op := by
  unfold processInputs.body at h
  cases hv : op.operands index with
  | blockArgument k t =>
    rw [hv] at h
    exact absurd h (by simp)
  | dequantizeCast a t =>
    rw [hv] at h
    exact absurd h (by simp)
  | quantizeCast a t =>
    rw [hv] at h
    simp only [Step.done.injEq] at h
    subst h
    exact ⟨rfl, fun op' h' => by simp only [Outcome.failure.injEq] at h'; exact h'.symm⟩
  | otherOp k t =>
    rw [hv] at h
    simp only [Step.done.injEq] at h
    subst h
    exact ⟨rfl, fun op' h' => by simp only [Outcome.failure.injEq] at h'; exact h'.symm⟩
  | constant k t a =>
    rw [hv] at h
    dsimp only at h
    cases hp : processConstantOp ctx op (.constant k t a) index tensor_property with
    | success op1 =>
      rw [hp] at h
      exact absurd h (by simp)
    | failure op1 =>
      rw [hp] at h
      simp only [Step.done.injEq] at h
      subst h
      have := processConstantOp_failure hp
      subst this
      exact ⟨rfl, fun op' h' => by simp only [Outcome.failure.injEq] at h'; exact h'.symm⟩
    | undefined =>
      rw [hp] at h
      simp only [Step.done.injEq] at h
      subst h
      exact ⟨rfl, fun op' h' => absurd h' (by simp)⟩
  | statistics k a ls t u =>
    rw [hv] at h
    dsimp only at h
    cases hp : replaceStatsOp op (.statistics k a ls t u) index tensor_property with
    | success op1 =>
      rw [hp] at h
      exact absurd h (by simp)
    | failure op1 =>
      rw [hp] at h
      simp only [Step.done.injEq] at h
      subst h
      rcases replaceStatsOp_cases op k a ls t u index tensor_property with h1 | ⟨q, h1⟩
      · rw [h1] at hp
        simp only [Outcome.failure.injEq] at hp
        subst hp
        exact ⟨rfl, fun op' h' => by simp only [Outcome.failure.injEq] at h'; exact h'.symm⟩
      · rw [h1] at hp
        exact absurd hp (fun hp' => replaceStatsOp_finish_failure hp')
    | undefined =>
      rw [hp] at h
      simp only [Step.done.injEq] at h
      subst h
      exact ⟨rfl, fun op' h' => absurd h' (by simp)⟩

theorem inputs_body_unexpected {n : Nat} (ctx : Context) (op : LstmOp n) (index : Fin n)
    (tensor_property : TensorProperty n)
    (h : (op.operands index).isUnexpectedProducer = true) :
    processInputs.body ctx op index tensor_property = .done (.failure op) := by
  unfold processInputs.body
  cases hv : op.operands index <;> rw [hv] at h <;>
    simp [Value.isUnexpectedProducer] at h ⊢

theorem inputs_body_passed {n : Nat} (ctx : Context) (op : LstmOp n) (index : Fin n)
    (tensor_property : TensorProperty n)
    (h : (op.operands index).isArgumentOrDequantize = true) :
    processInputs.body ctx op index tensor_property = .next op := by
  unfold processInputs.body
  cases hv : op.operands index <;> rw [hv] at h <;>
    simp [Value.isArgumentOrDequantize] at h ⊢

theorem not_rewritten_of_unexpected {v : Value} (h : v.isUnexpectedProducer = true) :
    v.isConstantOrStatistics = false := by
  cases v <;> simp [Value.isUnexpectedProducer, Value.isConstantOrStatistics] at h ⊢

theorem not_rewritten_of_passed {v : Value} (h : v.isArgumentOrDequantize = true) :
    v.isConstantOrStatistics = false := by
  cases v <;> simp [Value.isArgumentOrDequantize, Value.isConstantOrStatistics] at h ⊢

theorem inputs_through_inv {n : Nat} (ctx : Context) :
    ∀ (pre : List (Fin n × TensorProperty n)) (op op' : LstmOp n),
      processInputs.through ctx op pre = some op' →
      (∀ j, (op.operands j).isConstantOrStatistics = false →
        op'.operands j = op.operands j) ∧
      op'.intermediates = op.intermediates := by
  intro pre
  induction pre with
  | nil =>
    intro op op' h
    simp only [processInputs.through, Option.some.injEq] at h
    subst h
    exact ⟨fun _ _ => rfl, rfl⟩
  | cons e rest ih =>
    intro op op' h
    obtain ⟨index, tp⟩ := e
    simp only [processInputs.through] at h
    cases hb : processInputs.body ctx op index tp with
    | next op1 =>
      rw [hb] at h
      obtain ⟨a1, a2⟩ := inputs_body_next_inv hb
      obtain ⟨b1, b2⟩ := ih op1 op' h
      refine ⟨fun j hj => ?_, b2.trans a2⟩
      have hj1 : (op1.operands j).isConstantOrStatistics = false := by rw [a1 j hj]; exact hj
      rw [b1 j hj1, a1 j hj]
    | done r =>
      rw [hb] at h
      exact absurd h (by simp)

/-- When the loop of `processInputs` runs through the entries `pre`, it goes on with the
entries behind them. -/
theorem inputs_loop_of_through {n : Nat} (ctx : Context) :
    ∀ (pre rest : List (Fin n × TensorProperty n)) (op op' : LstmOp n),
      processInputs.through ctx op pre = some op' →
      processInputs.loop ctx op (pre ++ rest) = processInputs.loop ctx op' rest := by
  intro pre
  induction pre with
  | nil =>
    intro rest op op' h
    simp only [processInputs.through, Option.some.injEq] at h
    subst h
    rfl
  | cons e pre ih =>
    intro rest op op' h
    obtain ⟨index, tp⟩ := e
    simp only [processInputs.through] at h
    cases hb : processInputs.body ctx op index tp with
    | next op1 =>
      rw [hb] at h
      simp only [List.cons_append, processInputs.loop, hb]
      exact ih rest op1 op' h
    | done r =>
      rw [hb] at h
      exact absurd h (by simp)

/-- Whatever `processInputs` returns, success or failure, the operands that are not produced
by a constant or a statistics op, and the intermediate attributes, are those it was called
with. -/
theorem inputs_loop_inv {n : Nat} (ctx : Context) :
    ∀ (table : List (Fin n × TensorProperty n)) (op op' : LstmOp n),
      (processInputs.loop ctx op table = .success op' ∨
        processInputs.loop ctx op table = .failure op') →
      (∀ j, (op.operands j).isConstantOrStatistics = false →
        op'.operands j = op.operands j) ∧
      op'.intermediates = op.intermediates := by
  intro table
  induction table with
  | nil =>
    intro op op' h
    simp only [processInputs.loop, Outcome.success.injEq, reduceCtorEq, or_false] at h
    subst h
    exact ⟨fun _ _ => rfl, rfl⟩
  | cons e rest ih =>
    intro op op' h
    obtain ⟨index, tp⟩ := e
    simp only [processInputs.loop] at h
    cases hb : processInputs.body ctx op index tp with
    | next op1 =>
      rw [hb] at h
      obtain ⟨a1, a2⟩ := inputs_body_next_inv hb
      obtain ⟨b1, b2⟩ := ih op1 op' h
      refine ⟨fun j hj => ?_, b2.trans a2⟩
      have hj1 : (op1.operands j).isConstantOrStatistics = false := by rw [a1 j hj]; exact hj
      rw [b1 j hj1, a1 j hj]
    | done r =>
      rw [hb] at h
      dsimp only at h
      obtain ⟨hns, hfail⟩ := inputs_body_done hb
      rcases h with h | h
      · rw [h] at hns
        exact absurd hns (by simp [Outcome.succeeded])
      · have := hfail op' h
        subst this
        exact ⟨fun _ _ => rfl, rfl⟩

/-- While an entry still to come names an operand with an unexpected producer, the loop of
`processInputs` does not return success. -/
theorem inputs_loop_unexpected {n : Nat} (ctx : Context) :
    ∀ (table : List (Fin n × TensorProperty n)) (op : LstmOp n),
      (∃ e ∈ table, (op.operands e.1).isUnexpectedProducer = true) →
      (processInputs.loop ctx op table).succeeded = false := by
  intro table
  induction table with
  | nil =>
    intro op h
    obtain ⟨e, he, -⟩ := h
    exact absurd he (List.not_mem_nil _)
  | cons e0 rest ih =>
    intro op h
    obtain ⟨index, tp⟩ := e0
    simp only [processInputs.loop]
    cases hb : processInputs.body ctx op index tp with
    | done r => exact (inputs_body_done hb).1
    | next op1 =>
      obtain ⟨e, he, hun⟩ := h
      rcases List.mem_cons.mp he with rfl | he'
      · rw [inputs_body_unexpected ctx op index tp hun] at hb
        exact absurd hb (by simp)
      · apply ih op1
        refine ⟨e, he', ?_⟩
        rw [(inputs_body_next_inv hb).1 e.1 (not_rewritten_of_unexpected hun)]
        exact hun

/-! ## Claims on `processInputs` and `matchAndRewrite` -/

/-- C18: for an entry of the table of inputs whose operand is produced by an op that is neither
a constant, a statistics op nor a dequantize op, `processInputs` returns failure when its loop
reaches the entry, and does not return success in any case; for an entry whose operand has no
producer or is produced by a dequantize op, the loop body goes on with the op unchanged, so
the loop passes the entry over, and the operand is the same in whatever `processInputs`
returns. -/
theorem processInputs_producer {n : Nat} (ctx : Context) (op : LstmOp n)
    (lstm_variant : OpVariant) (lstm_property : OperatorProperty n) :
    (∀ (pre rest : List (Fin n × TensorProperty n)) (index : Fin n)
        (tensor_property : TensorProperty n) (op' : LstmOp n),
      lstm_property.inputs = pre ++ (index, tensor_property) :: rest →
      processInputs.through ctx op pre = some op' →
      (op.operands index).isUnexpectedProducer = true →
      processInputs ctx op lstm_variant lstm_property = .failure op') ∧
    ((∃ e ∈ lstm_property.inputs, (op.operands e.1).isUnexpectedProducer = true) →
      (processInputs ctx op lstm_variant lstm_property).succeeded = false) ∧
    (∀ (index : Fin n) (tensor_property : TensorProperty n),
      (op.operands index).isArgumentOrDequantize = true →
      processInputs.body ctx op index tensor_property = .next op) ∧
    (∀ (pre rest : List (Fin n × TensorProperty n)) (index : Fin n)
        (tensor_property : TensorProperty n) (op' : LstmOp n),
      lstm_property.inputs = pre ++ (index, tensor_property) :: rest →
      processInputs.through ctx op pre = some op' →
      (op.operands index).isArgumentOrDequantize = true →
      processInputs ctx op lstm_variant lstm_property = processInputs.loop ctx op' rest) ∧
    (∀ (op' : LstmOp n) (index : Fin n),
      (processInputs ctx op lstm_variant lstm_property = .success op' ∨
        processInputs ctx op lstm_variant lstm_property = .failure op') →
      (op.operands index).isArgumentOrDequantize = true →
      op'.operands index = op.operands index) := by
  refine ⟨?_, ?_, ?_, ?_, ?_⟩
  · intro pre rest index tensor_property op' htable hreach hun
    have hsame := (inputs_through_inv ctx pre op op' hreach).1 index
      (not_rewritten_of_unexpected hun)
    unfold processInputs
    rw [htable, inputs_loop_of_through ctx pre _ op op' hreach]
    simp only [processInputs.loop]
    rw [inputs_body_unexpected ctx op' index tensor_property (by rw [hsame]; exact hun)]
  · intro h
    exact inputs_loop_unexpected ctx _ op h
  · intro index tensor_property h
    exact inputs_body_passed ctx op index tensor_property h
  · intro pre rest index tensor_property op' htable hreach hpass
    have hsame := (inputs_through_inv ctx pre op op' hreach).1 index
      (not_rewritten_of_passed hpass)
    unfold processInputs
    rw [htable, inputs_loop_of_through ctx pre _ op op' hreach]
    simp only [processInputs.loop]
    rw [inputs_body_passed ctx op' index tensor_property (by rw [hsame]; exact hpass)]
  · intro op' index h hpass
    exact (inputs_loop_inv ctx _ op op' h).1 index (not_rewritten_of_passed hpass)

/-- Witness of C18: input 0 of the example is already dequantized and is passed over; input 1
is produced by another op and makes `processInputs` fail. -/
theorem processInputs_producer_witness :
    processInputs Example.ctx Example.unexpectedOp Example.plainVariant Example.twoInputs
      = .failure Example.unexpectedOp :=
  (processInputs_producer Example.ctx Example.unexpectedOp Example.plainVariant
    Example.twoInputs).1 [(0, {})] [] 1 {} Example.unexpectedOp rfl rfl rfl

/-- C19: for a matched LSTM op, `matchAndRewrite` is `processInputs` run on the result of a
successful `processIntermediates`; it succeeds if and only if `processIntermediates` succeeds
and `processInputs` on its result succeeds; and when `processIntermediates` fails,
`matchAndRewrite` returns that failure with the operands and the rewriter log of the op
unchanged (`processInputs` is not run). -/
theorem matchAndRewrite_succeeds_iff {n : Nat} (ctx : Context)
    (GetOperatorProperty : OpVariant → OperatorProperty n) (source : SourceOp n)
    (op : LstmOp n) (op_code : BuiltinOperator)
    (hmatched : source.op_code = some op_code) :
    (∀ op1, processIntermediates ctx op (matchAndRewrite.variant source op op_code)
        (GetOperatorProperty (matchAndRewrite.variant source op op_code)) = .success op1 →
      matchAndRewrite ctx GetOperatorProperty source op
        = processInputs ctx op1 (matchAndRewrite.variant source op op_code)
            (GetOperatorProperty (matchAndRewrite.variant source op op_code))) ∧
    ((matchAndRewrite ctx GetOperatorProperty source op).succeeded = true ↔
      ∃ op1, processIntermediates ctx op (matchAndRewrite.variant source op op_code)
          (GetOperatorProperty (matchAndRewrite.variant source op op_code)) = .success op1 ∧
        (processInputs ctx op1 (matchAndRewrite.variant source op op_code)
          (GetOperatorProperty (matchAndRewrite.variant source op op_code))).succeeded
          = true) ∧
    (∀ op1, processIntermediates ctx op (matchAndRewrite.variant source op op_code)
        (GetOperatorProperty (matchAndRewrite.variant source op op_code)) = .failure op1 →
      matchAndRewrite ctx GetOperatorProperty source op = .failure op1 ∧
      op1.operands = op.operands ∧ op1.created = op.created ∧ op1.erased = op.erased) := by
  have hunfold : matchAndRewrite ctx GetOperatorProperty source op
      = match processIntermediates ctx op (matchAndRewrite.variant source op op_code)
          (GetOperatorProperty (matchAndRewrite.variant source op op_code)) with
        | .success op' => processInputs ctx op' (matchAndRewrite.variant source op op_code)
            (GetOperatorProperty (matchAndRewrite.variant source op op_code))
        | r => r := by
    unfold matchAndRewrite
    rw [hmatched]
    rfl
  refine ⟨?_, ?_, ?_⟩
  · intro op1 h
    rw [hunfold, h]
  · rw [hunfold]
    cases hpi : processIntermediates ctx op (matchAndRewrite.variant source op op_code)
        (GetOperatorProperty (matchAndRewrite.variant source op op_code)) with
    | success op1 =>
      dsimp only
      constructor
      · intro h
        exact ⟨op1, rfl, h⟩
      · rintro ⟨op2, h2, h⟩
        simp only [Outcome.success.injEq] at h2
        subst h2
        exact h
    | failure op1 =>
      dsimp only
      constructor
      · intro h
        exact absurd h (by simp [Outcome.succeeded])
      · rintro ⟨op2, h2, -⟩
        exact absurd h2 (by simp)
    | undefined =>
      dsimp only
      constructor
      · intro h
        exact absurd h (by simp [Outcome.succeeded])
      · rintro ⟨op2, h2, -⟩
        exact absurd h2 (by simp)
  · intro op1 h
    refine ⟨by rw [hunfold, h], ?_⟩
    exact loop_inv ctx _ _ op op1 (Or.inr h)

/-- Witness of C19: on the example op every feature is in use, intermediate 0 is absent, so
`processIntermediates` fails and `matchAndRewrite` returns the failure with the op as it
was. -/
theorem matchAndRewrite_succeeds_iff_witness :
    matchAndRewrite Example.ctx (fun _ => Example.intermediatesOnly) Example.source Example.op
      = .failure Example.op :=
  ((matchAndRewrite_succeeds_iff Example.ctx (fun _ => Example.intermediatesOnly)
    Example.source Example.op .LSTM rfl).2.2 Example.op rfl).1

/-! ## Order independence of scale derivation -/

theorem getDerivedScale_of_scales {n : Nat} (op : LstmOp n) (input_index : Fin n)
    (tensor_property : TensorProperty n) (su : Fin n → UniformQuantizedType)
    (sm : Fin 5 → UniformQuantizedType)
    (hin : ∀ i ∈ tensor_property.derived_scale.input_tensors,
      ∃ arg type, op.operands i = .dequantizeCast arg type ∧
        QuantizedType.getQuantizedElementType arg.getType = some (.uniform (su i)))
    (hmid : ∀ j ∈ tensor_property.derived_scale.intermediate_tensors,
      ∃ t, op.intermediates j = some t ∧
        QuantizedType.getQuantizedElementType t = some (.uniform (sm j))) :
    getDerivedScale op input_index tensor_property
      = some (1 * (tensor_property.derived_scale.input_tensors.map (fun i => (su i).scale)).prod
          * (tensor_property.derived_scale.intermediate_tensors.map
              (fun j => (sm j).scale)).prod
          * tensor_property.derived_scale.factors.prod) := by
  unfold getDerivedScale
  rw [inputLoop_eq_some op su _ 1 hin]
  simp only
  rw [intermediateLoop_eq_some op sm _ _ hmid]
  simp only [foldl_mul_eq_prod]

theorem getDerivedScale_of_not_quantized {n : Nat} (op : LstmOp n) (input_index : Fin n)
    (tensor_property : TensorProperty n)
    (h : (∃ i ∈ tensor_property.derived_scale.input_tensors,
        ¬ InputDependencyQuantized op i) ∨
      (∃ j ∈ tensor_property.derived_scale.intermediate_tensors,
        ¬ IntermediateDependencyQuantized op j)) :
    getDerivedScale op input_index tensor_property = none := by
  unfold getDerivedScale
  cases h1 : getDerivedScale.inputLoop op tensor_property.derived_scale.input_tensors 1 with
  | none => rfl
  | some s1 =>
    dsimp only
    cases h2 : getDerivedScale.intermediateLoop op
        tensor_property.derived_scale.intermediate_tensors s1 with
    | none => rfl
    | some s2 =>
      exfalso
      rcases h with h | h
      · have := (inputLoop_eq_none_iff op _ 1).mpr h
        rw [h1] at this
        exact absurd this (by simp)
      · have := (intermediateLoop_eq_none_iff op _ s1).mpr h
        rw [h2] at this
        exact absurd this (by simp)

/-- For each dependency that is quantized there is the uniform type it is quantized with. -/
theorem exists_dependency_types {n : Nat} (op : LstmOp n) :
    ∃ (su : Fin n → UniformQuantizedType) (sm : Fin 5 → UniformQuantizedType),
      (∀ i, InputDependencyQuantized op i →
        ∃ arg type, op.operands i = .dequantizeCast arg type ∧
          QuantizedType.getQuantizedElementType arg.getType = some (.uniform (su i))) ∧
      (∀ j, IntermediateDependencyQuantized op j →
        ∃ t, op.intermediates j = some t ∧
          QuantizedType.getQuantizedElementType t = some (.uniform (sm j))) := by
  have h1 : ∀ i : Fin n, ∃ u : UniformQuantizedType, InputDependencyQuantized op i →
      ∃ arg type, op.operands i = .dequantizeCast arg type ∧
        QuantizedType.getQuantizedElementType arg.getType = some (.uniform u) := by
    intro i
    by_cases h : InputDependencyQuantized op i
    · obtain ⟨arg, type, u, ha, hb⟩ := h
      exact ⟨u, fun _ => ⟨arg, type, ha, hb⟩⟩
    · exact ⟨⟨true, 0, 0, 0, 0, 0, 0⟩, fun h' => absurd h' h⟩
  have h2 : ∀ j : Fin 5, ∃ u : UniformQuantizedType, IntermediateDependencyQuantized op j →
      ∃ t, op.intermediates j = some t ∧
        QuantizedType.getQuantizedElementType t = some (.uniform u) := by
    intro j
    by_cases h : IntermediateDependencyQuantized op j
    · obtain ⟨t, u, ha, hb⟩ := h
      exact ⟨u, fun _ => ⟨t, ha, hb⟩⟩
    · exact ⟨⟨true, 0, 0, 0, 0, 0, 0⟩, fun h' => absurd h' h⟩
  choose su hsu using h1
  choose sm hsm using h2
  exact ⟨su, sm, hsu, hsm⟩

/-- C21, counterexample: input 0 of the example op is a dependency of the bias, it is produced
by a dequantize op whose source type is uniform with zero point 3, and `getDerivedScale`
succeeds all the same. -/
theorem getDerivedScale_asymmetric_dependency :
    (0 : Fin 4) ∈ Example.biasProperty.derived_scale.input_tensors ∧
    (∃ arg type u, Example.op.operands 0 = .dequantizeCast arg type ∧
      QuantizedType.getQuantizedElementType arg.getType = some (.uniform u) ∧
      u.zeroPoint = 3) ∧
    getDerivedScale Example.op 2 Example.biasProperty = some (1 / 32) := by
  refine ⟨by simp [Example.biasProperty], ⟨_, _, Example.inputType, rfl, rfl, rfl⟩, ?_⟩
  exact Example.derivedScale_eq

/-- C21, amended: `getDerivedScale` succeeds only if every dependency input operand is
produced by a dequantize op whose source element type is a uniform quantized type.  The zero
point of that type is not examined: when every dependency input has a uniform type with a
non-zero zero point (and every dependency intermediate is uniform), `getDerivedScale` succeeds
with the product of the scales; and two ops with the same intermediates whose dependency inputs
have uniform types of the same scales, whatever their zero points, get the same result. -/
theorem getDerivedScale_zero_point_ignored {n : Nat} (op : LstmOp n) (input_index : Fin n)
    (tensor_property : TensorProperty n) :
    (∀ scale, getDerivedScale op input_index tensor_property = some scale →
      ∀ i ∈ tensor_property.derived_scale.input_tensors, InputDependencyQuantized op i) ∧
    (∀ (su : Fin n → UniformQuantizedType) (sm : Fin 5 → UniformQuantizedType),
      (∀ i ∈ tensor_property.derived_scale.input_tensors,
        ∃ arg type, op.operands i = .dequantizeCast arg type ∧
          QuantizedType.getQuantizedElementType arg.getType = some (.uniform (su i)) ∧
          (su i).zeroPoint ≠ 0) →
      (∀ j ∈ tensor_property.derived_scale.intermediate_tensors,
        ∃ t, op.intermediates j = some t ∧
          QuantizedType.getQuantizedElementType t = some (.uniform (sm j))) →
      getDerivedScale op input_index tensor_property
        = some (1 * (tensor_property.derived_scale.input_tensors.map
              (fun i => (su i).scale)).prod
            * (tensor_property.derived_scale.intermediate_tensors.map
              (fun j => (sm j).scale)).prod
            * tensor_property.derived_scale.factors.prod)) ∧
    (∀ (other : LstmOp n) (su su' : Fin n → UniformQuantizedType),
      other.intermediates = op.intermediates →
      (∀ i ∈ tensor_property.derived_scale.input_tensors,
        ∃ arg type, op.operands i = .dequantizeCast arg type ∧
          QuantizedType.getQuantizedElementType arg.getType = some (.uniform (su i))) →
      (∀ i ∈ tensor_property.derived_scale.input_tensors,
        ∃ arg type, other.operands i = .dequantizeCast arg type ∧
          QuantizedType.getQuantizedElementType arg.getType = some (.uniform (su' i))) →
      (∀ i ∈ tensor_property.derived_scale.input_tensors, (su' i).scale = (su i).scale) →
      getDerivedScale other input_index tensor_property
        = getDerivedScale op input_index tensor_property) := by
  refine ⟨?_, ?_, ?_⟩
  · intro scale hs i hi
    by_contra hq
    rw [getDerivedScale_of_not_quantized op input_index tensor_property
      (Or.inl ⟨i, hi, hq⟩)] at hs
    exact absurd hs (by simp)
  · intro su sm hin hmid
    exact getDerivedScale_of_scales op input_index tensor_property su sm
      (fun i hi => by
        obtain ⟨arg, type, h1, h2, _⟩ := hin i hi
        exact ⟨arg, type, h1, h2⟩) hmid
  · intro other su su' hint hin hin' hscale
    by_cases hbad : ∃ j ∈ tensor_property.derived_scale.intermediate_tensors,
        ¬ IntermediateDependencyQuantized op j
    · have hbad' : ∃ j ∈ tensor_property.derived_scale.intermediate_tensors,
          ¬ IntermediateDependencyQuantized other j := by
        obtain ⟨j, hj, hq⟩ := hbad
        refine ⟨j, hj, fun hq' => hq ?_⟩
        obtain ⟨t, u, h1, h2⟩ := hq'
        exact ⟨t, u, by rw [← hint]; exact h1, h2⟩
      rw [getDerivedScale_of_not_quantized op input_index tensor_property (Or.inr hbad),
        getDerivedScale_of_not_quantized other input_index tensor_property (Or.inr hbad')]
    · push_neg at hbad
      obtain ⟨_, sm, _, hsm⟩ := exists_dependency_types op
      have hmid : ∀ j ∈ tensor_property.derived_scale.intermediate_tensors,
          ∃ t, op.intermediates j = some t ∧
            QuantizedType.getQuantizedElementType t = some (.uniform (sm j)) :=
        fun j hj => hsm j (hbad j hj)
      have hmid' : ∀ j ∈ tensor_property.derived_scale.intermediate_tensors,
          ∃ t, other.intermediates j = some t ∧
            QuantizedType.getQuantizedElementType t = some (.uniform (sm j)) := by
        intro j hj
        rw [hint]
        exact hmid j hj
      rw [getDerivedScale_of_scales op input_index tensor_property su sm hin hmid,
        getDerivedScale_of_scales other input_index tensor_property su' sm hin' hmid',
        List.map_congr_left hscale]

/-- Witness of C21: the activation of the example op, quantized with zero point 3, as the only
dependency: the derived scale is its scale `1/4`. -/
theorem getDerivedScale_zero_point_ignored_witness :
    getDerivedScale Example.op 2 Example.activationScaled = some (1 / 4) := by
  have h := (getDerivedScale_zero_point_ignored Example.op 2 Example.activationScaled).2.1
    (fun _ => Example.inputType) (fun _ => Example.hiddenType)
    (fun i hi => by
      have hi0 : i = 0 := by simpa [Example.activationScaled] using hi
      subst hi0
      exact ⟨_, _, rfl, rfl, by decide⟩)
    (fun j hj => by simp [Example.activationScaled] at hj)
  rw [h]
  simp [Example.activationScaled, Example.inputType]

/-! ## Claims on the early return at slot 4 -/

/-- C24, counterexample: without layer normalization and without projection, on the example
op without intermediates, the table lists slot 4 first and slot 0 after it, so slot 4 is not
the last entry; the result is nevertheless the result under the table without the entry of
slot 4 (the entry of slot 0 is skipped). -/
theorem processIntermediates_skipping_same_not_last :
    Example.hiddenFirst.intermediates
      = [] ++ ((4 : Fin 5), Example.wideProperty) :: Example.slotZeroOnly.intermediates ∧
    Example.slotZeroOnly.intermediates ≠ [] ∧
    Example.bareOp.intermediates 4 = none ∧
    Example.plainVariant.use_projection = false ∧
    processIntermediates Example.ctx Example.bareOp Example.plainVariant Example.hiddenFirst
      = .success Example.bareOp ∧
    processIntermediates Example.ctx Example.bareOp Example.plainVariant Example.slotZeroOnly
      = .success Example.bareOp :=
  ⟨rfl, by simp [Example.slotZeroOnly], rfl, rfl, rfl, rfl⟩

/-- C24, amended: when the loop of `processIntermediates` reaches the entry of slot 4 with
the attribute absent and projection disabled, it returns success at once with the IR as it
reached the entry: the entries listed after slot 4 play no part (any other entries in their
place give the same result), so none of them is rejected or quantized.  Under the table without
the entry of slot 4 the result is that of the loop over the later entries, so the two results
are equal exactly when that loop succeeds without changing the op: when slot 4 is the last
entry, and also when every later entry is skipped or finds a concrete type of its width. -/
theorem processIntermediates_returns_at_hidden {n : Nat} (ctx : Context)
    (lstm_variant : OpVariant) (op op' : LstmOp n) (lstm_property skipping : OperatorProperty n)
    (pre rest : List (Fin 5 × TensorProperty n)) (tensor_property : TensorProperty n)
    (htable : lstm_property.intermediates = pre ++ ((4 : Fin 5), tensor_property) :: rest)
    (hskipping : skipping.intermediates = pre ++ rest)
    (hreach : processIntermediates.through ctx lstm_variant op pre = some op')
    (habsent : op'.intermediates 4 = none)
    (hproj : lstm_variant.use_projection = false) :
    processIntermediates ctx op lstm_variant lstm_property = .success op' ∧
    (∀ (other : OperatorProperty n) (rest' : List (Fin 5 × TensorProperty n)),
      other.intermediates = pre ++ ((4 : Fin 5), tensor_property) :: rest' →
      processIntermediates ctx op lstm_variant other = .success op') ∧
    processIntermediates ctx op lstm_variant skipping
      = processIntermediates.loop ctx lstm_variant op' rest ∧
    (processIntermediates ctx op lstm_variant skipping
        = processIntermediates ctx op lstm_variant lstm_property ↔
      processIntermediates.loop ctx lstm_variant op' rest = .success op') ∧
    (rest = [] →
      processIntermediates ctx op lstm_variant skipping
        = processIntermediates ctx op lstm_variant lstm_property) ∧
    ((∀ e ∈ rest, (lstm_variant.use_layer_norm = true ∨ e.1 = 4) →
        ∃ attr q, op'.intermediates e.1 = some attr ∧
          QuantizedType.getQuantizedElementType attr = some q ∧
          (∀ w a b, q ≠ .calibrated w a b) ∧
          e.2.number_of_bits = q.getStorageTypeIntegralWidth) →
      processIntermediates ctx op lstm_variant skipping
        = processIntermediates ctx op lstm_variant lstm_property) := by
  have hnull : getIntermediateType op' 4 = none := by
    simp [getIntermediateType, habsent]
  have hat : ∀ (other : OperatorProperty n) (rest' : List (Fin 5 × TensorProperty n)),
      other.intermediates = pre ++ ((4 : Fin 5), tensor_property) :: rest' →
      processIntermediates ctx op lstm_variant other = .success op' := by
    intro other rest' hother
    unfold processIntermediates
    rw [hother, loop_of_through ctx lstm_variant pre _ op op' hreach]
    simp only [processIntermediates.loop]
    rw [body_null_type ctx lstm_variant op' 4 tensor_property (Or.inr rfl) hnull]
    simp [hproj]
  have h1 := hat lstm_property rest htable
  have h3 : processIntermediates ctx op lstm_variant skipping
      = processIntermediates.loop ctx lstm_variant op' rest := by
    unfold processIntermediates
    rw [hskipping, loop_of_through ctx lstm_variant pre _ op op' hreach]
  refine ⟨h1, hat, h3, ?_, ?_, ?_⟩
  · rw [h3, h1]
  · intro hrest
    rw [h3, h1, hrest]
    rfl
  · intro hconcrete
    rw [h3, h1]
    exact loop_all_concrete ctx lstm_variant op' rest hconcrete

/-- Witness of C24: with layer normalization, the example op whose intermediate 0 holds a
16-bit type, under the table that lists slot 4 before an 8-bit entry for slot 0: the result is
success with the op unchanged, while the table without the entry of slot 4 gives failure. -/
theorem processIntermediates_returns_at_hidden_witness :
    processIntermediates Example.ctx Example.wideSlotZeroOp Example.layerNormVariant
        Example.hiddenFirst = .success Example.wideSlotZeroOp ∧
    processIntermediates Example.ctx Example.wideSlotZeroOp Example.layerNormVariant
        Example.slotZeroOnly = .failure Example.wideSlotZeroOp := by
  have h := processIntermediates_returns_at_hidden Example.ctx Example.layerNormVariant
    Example.wideSlotZeroOp Example.wideSlotZeroOp Example.hiddenFirst Example.slotZeroOnly
    [] [(0, {})] Example.wideProperty rfl rfl rfl rfl rfl
  refine ⟨h.1, ?_⟩
  rw [h.2.2.1]
  rfl

/-! ## Lemmas on the map of device ids -/

theorem option_cases {T : Type} (o : Option T) : o = none ∨ ∃ v, o = some v := by
  cases o with
  | none => exact Or.inl rfl
  | some v => exact Or.inr ⟨v, rfl⟩

/-- The three cases of `Insert`: the device type is new, the TF device id is new, or the pair is
mapped already. -/
theorem Insert_eq (id_map : TfToPlatformDeviceIdMap) (type : DeviceType)
    (tf_device_id : TfDeviceId) (platform_device_id : PlatformDeviceId) :
    id_map.Insert type tf_device_id platform_device_id
      = match id_map.id_map_ type.type_string with
        | none =>
          (.OK, TfToPlatformDeviceIdMap.mk (Function.update id_map.id_map_ type.type_string
            (some (Function.update unordered_map.empty tf_device_id.value
              (some platform_device_id.value)))))
        | some ids =>
          match ids tf_device_id.value with
          | none =>
            (.OK, TfToPlatformDeviceIdMap.mk (Function.update id_map.id_map_ type.type_string
              (some (Function.update ids tf_device_id.value
                (some platform_device_id.value)))))
          | some id =>
            (if platform_device_id.value ≠ id then .AlreadyExists else .OK, id_map) := by
  obtain ⟨m⟩ := id_map
  rcases option_cases (m type.type_string) with hm | ⟨ids, hm⟩
  · simp [TfToPlatformDeviceIdMap.Insert, unordered_map.insert, unordered_map.empty, hm]
  · rcases option_cases (ids tf_device_id.value) with hids | ⟨id, hids⟩
    · simp [TfToPlatformDeviceIdMap.Insert, unordered_map.insert, hm, hids]
    · simp only [TfToPlatformDeviceIdMap.Insert, unordered_map.insert, hm, hids]
      have hself : Function.update m type.type_string (some ids) = m := by
        rw [← hm]
        exact Function.update_eq_self _ _
      simp only [hself]
      by_cases hp : platform_device_id.value = id <;> simp [hp]

theorem stored_Insert (id_map : TfToPlatformDeviceIdMap) (type type' : DeviceType)
    (tf_device_id tf_device_id' : TfDeviceId) (platform_device_id : PlatformDeviceId) :
    (id_map.Insert type tf_device_id platform_device_id).2.stored type' tf_device_id'
      = if type' = type ∧ tf_device_id' = tf_device_id then
          (match id_map.stored type tf_device_id with
            | some id => some id
            | none => some platform_device_id.value)
        else id_map.stored type' tf_device_id' := by
  rw [Insert_eq]
  obtain ⟨ts⟩ := type
  obtain ⟨ts'⟩ := type'
  obtain ⟨i⟩ := tf_device_id
  obtain ⟨i'⟩ := tf_device_id'
  obtain ⟨m⟩ := id_map
  simp only [TfToPlatformDeviceIdMap.stored, DeviceType.mk.injEq, TfDeviceId.mk.injEq]
  rcases option_cases (m ts) with hm | ⟨ids, hm⟩
  · simp only [hm]
    by_cases ht : ts' = ts
    · subst ht
      by_cases hi : i' = i
      · subst hi
        simp [Function.update]
      · simp [Function.update, hi, unordered_map.empty, hm]
    · simp [Function.update, ht]
  · simp only [hm]
    rcases option_cases (ids i) with hids | ⟨id, hids⟩
    · simp only [hids]
      by_cases ht : ts' = ts
      · subst ht
        by_cases hi : i' = i
        · subst hi
          simp [Function.update]
        · simp [Function.update, hi, hm]
      · simp [Function.update, ht]
    · simp only [hids]
      by_cases ht : ts' = ts
      · subst ht
        by_cases hi : i' = i
        · subst hi
          simp [hm, hids]
        · simp [hi]
      · simp [ht]

theorem stored_singleton (type : DeviceType) (tf_device_id : TfDeviceId) :
    TfToPlatformDeviceIdMap.singleton.stored type tf_device_id = none := rfl

theorem Find_eq (id_map : TfToPlatformDeviceIdMap) (type : DeviceType)
    (tf_device_id : TfDeviceId) (platform_device_id : PlatformDeviceId) :
    id_map.Find type tf_device_id platform_device_id
      = match id_map.stored type tf_device_id with
        | some id => (true, { value := id })
        | none => (false, platform_device_id) := by
  unfold TfToPlatformDeviceIdMap.Find TfToPlatformDeviceIdMap.stored
  rcases option_cases (id_map.id_map_ type.type_string) with hm | ⟨ids, hm⟩
  · simp only [hm]
  · simp only [hm]
    rcases option_cases (ids tf_device_id.value) with hids | ⟨id, hids⟩ <;> simp only [hids]

theorem TfToPlatformDeviceId_eq (id_map : TfToPlatformDeviceIdMap) (type : DeviceType)
    (tf_device_id : TfDeviceId) (platform_device_id : PlatformDeviceId) :
    DeviceIdManager.TfToPlatformDeviceId id_map type tf_device_id platform_device_id
      = match id_map.stored type tf_device_id with
        | some id => (.OK, { value := id })
        | none => (.NotFound, platform_device_id) := by
  unfold DeviceIdManager.TfToPlatformDeviceId
  rw [Find_eq]
  rcases option_cases (id_map.stored type tf_device_id) with h | ⟨id, h⟩ <;> simp only [h]

theorem Insert_status (id_map : TfToPlatformDeviceIdMap) (type : DeviceType)
    (tf_device_id : TfDeviceId) (platform_device_id : PlatformDeviceId) :
    (id_map.Insert type tf_device_id platform_device_id).1
      = match id_map.stored type tf_device_id with
        | some id => if platform_device_id.value ≠ id then .AlreadyExists else .OK
        | none => .OK := by
  rw [Insert_eq]
  unfold TfToPlatformDeviceIdMap.stored
  rcases option_cases (id_map.id_map_ type.type_string) with hm | ⟨ids, hm⟩
  · simp only [hm]
  · simp only [hm]
    rcases option_cases (ids tf_device_id.value) with hids | ⟨id, hids⟩ <;> simp only [hids]

/-- A pair that is mapped stays mapped to the same platform device id under every call of
`Insert`. -/
theorem stored_inserts_of_some (type : DeviceType) (tf_device_id : TfDeviceId) (id : Int) :
    ∀ (calls : List (DeviceType × TfDeviceId × PlatformDeviceId))
      (id_map : TfToPlatformDeviceIdMap),
      id_map.stored type tf_device_id = some id →
      (DeviceIdManager.inserts id_map calls).stored type tf_device_id = some id := by
  intro calls
  induction calls with
  | nil => intro id_map h; exact h
  | cons call calls ih =>
    intro id_map h
    obtain ⟨type', tf_device_id', platform_device_id'⟩ := call
    simp only [DeviceIdManager.inserts, DeviceIdManager.InsertTfPlatformDeviceIdPair]
    apply ih
    rw [stored_Insert]
    by_cases hsame : type = type' ∧ tf_device_id = tf_device_id'
    · obtain ⟨h1, h2⟩ := hsame
      subst h1
      subst h2
      simp [h]
    · rw [if_neg hsame]
      exact h

/-- Calls of `Insert` for other pairs leave what is stored for a pair as it is. -/
theorem stored_inserts_of_not_called (type : DeviceType) (tf_device_id : TfDeviceId) :
    ∀ (calls : List (DeviceType × TfDeviceId × PlatformDeviceId))
      (id_map : TfToPlatformDeviceIdMap),
      (∀ call ∈ calls, ¬ (call.1 = type ∧ call.2.1 = tf_device_id)) →
      (DeviceIdManager.inserts id_map calls).stored type tf_device_id
        = id_map.stored type tf_device_id := by
  intro calls
  induction calls with
  | nil => intro id_map _; rfl
  | cons call calls ih =>
    intro id_map h
    obtain ⟨type', tf_device_id', platform_device_id'⟩ := call
    simp only [DeviceIdManager.inserts, DeviceIdManager.InsertTfPlatformDeviceIdPair]
    rw [ih _ (fun c hc => h c (List.mem_cons_of_mem _ hc)), stored_Insert]
    have hne := h (type', tf_device_id', platform_device_id') (List.mem_cons_self _ _)
    have hne' : ¬ (type = type' ∧ tf_device_id = tf_device_id') :=
      fun hsame => hne ⟨hsame.1.symm, hsame.2.symm⟩
    rw [if_neg hne']

/-! ## Claims on the map of device ids -/

/-- C22: the lookup returns the first registered mapping.  After
`InsertTfPlatformDeviceIdPair` has returned OK for a pair, `TfToPlatformDeviceId` returns OK
with that platform device id after any further sequence of inserts; for a pair without a call
of insert since `TestOnlyReset` (or since the map was created) it returns NotFound and leaves
the out-parameter as it was; and inserts for other device types change neither the lookup nor
the status of an insert for this device type. -/
theorem DeviceIdManager_lookup_first_registered (id_map : TfToPlatformDeviceIdMap)
    (type : DeviceType) (tf_device_id : TfDeviceId)
    (platform_device_id out : PlatformDeviceId) :
    ((DeviceIdManager.InsertTfPlatformDeviceIdPair id_map type tf_device_id
        platform_device_id).1 = .OK →
      ∀ calls : List (DeviceType × TfDeviceId × PlatformDeviceId),
        DeviceIdManager.TfToPlatformDeviceId
          (DeviceIdManager.inserts
            (DeviceIdManager.InsertTfPlatformDeviceIdPair id_map type tf_device_id
              platform_device_id).2 calls) type tf_device_id out
          = (.OK, platform_device_id)) ∧
    (∀ calls : List (DeviceType × TfDeviceId × PlatformDeviceId),
      (∀ call ∈ calls, ¬ (call.1 = type ∧ call.2.1 = tf_device_id)) →
      DeviceIdManager.TfToPlatformDeviceId
          (DeviceIdManager.inserts (DeviceIdManager.TestOnlyReset id_map) calls)
          type tf_device_id out = (.NotFound, out) ∧
      DeviceIdManager.TfToPlatformDeviceId
          (DeviceIdManager.inserts TfToPlatformDeviceIdMap.singleton calls)
          type tf_device_id out = (.NotFound, out)) ∧
    (∀ calls : List (DeviceType × TfDeviceId × PlatformDeviceId),
      (∀ call ∈ calls, call.1 ≠ type) →
      DeviceIdManager.TfToPlatformDeviceId (DeviceIdManager.inserts id_map calls)
          type tf_device_id out
        = DeviceIdManager.TfToPlatformDeviceId id_map type tf_device_id out ∧
      (DeviceIdManager.InsertTfPlatformDeviceIdPair (DeviceIdManager.inserts id_map calls)
          type tf_device_id platform_device_id).1
        = (DeviceIdManager.InsertTfPlatformDeviceIdPair id_map type tf_device_id
          platform_device_id).1) := by
  refine ⟨?_, ?_, ?_⟩
  · intro hok calls
    have hstored : (id_map.Insert type tf_device_id platform_device_id).2.stored type
        tf_device_id = some platform_device_id.value := by
      have hstatus := Insert_status id_map type tf_device_id platform_device_id
      rw [stored_Insert, if_pos ⟨rfl, rfl⟩]
      rcases option_cases (id_map.stored type tf_device_id) with h | ⟨id, h⟩
      · simp only [h]
      · simp only [h] at hstatus ⊢
        have hok' : (id_map.Insert type tf_device_id platform_device_id).1 = .OK := hok
        rw [hstatus] at hok'
        by_cases hp : platform_device_id.value = id
        · rw [hp]
        · rw [if_pos hp] at hok'
          exact absurd hok' (by decide)
    rw [TfToPlatformDeviceId_eq]
    have h := stored_inserts_of_some type tf_device_id platform_device_id.value calls
      (id_map.Insert type tf_device_id platform_device_id).2 hstored
    simp only [DeviceIdManager.InsertTfPlatformDeviceIdPair, h]
  · intro calls hcalls
    have h := stored_inserts_of_not_called type tf_device_id calls
      TfToPlatformDeviceIdMap.singleton hcalls
    rw [stored_singleton] at h
    constructor
    · rw [TfToPlatformDeviceId_eq]
      simp only [DeviceIdManager.TestOnlyReset, TfToPlatformDeviceIdMap.TestOnlyReset]
      have h' : (DeviceIdManager.inserts { id_map_ := unordered_map.empty } calls).stored type
          tf_device_id = none := h
      simp only [h']
    · rw [TfToPlatformDeviceId_eq]
      simp only [h]
  · intro calls hcalls
    have h := stored_inserts_of_not_called type tf_device_id calls id_map
      (fun call hc hsame => hcalls call hc hsame.1)
    constructor
    · rw [TfToPlatformDeviceId_eq, TfToPlatformDeviceId_eq, h]
    · simp only [DeviceIdManager.InsertTfPlatformDeviceIdPair]
      rw [Insert_status, Insert_status, h]

/-- Witness of C22: the GPU with TF device id 0 is registered as platform device 2; after
inserts that map it to platform device 5 and that register a TPU, the lookup still returns
platform device 2. -/
theorem DeviceIdManager_lookup_first_registered_witness :
    DeviceIdManager.TfToPlatformDeviceId
        (DeviceIdManager.inserts Example.registered
          [(Example.gpu, { value := 0 }, { value := 5 }),
            (Example.tpu, { value := 0 }, { value := 7 })])
        Example.gpu { value := 0 } { value := 9 }
      = (.OK, { value := 2 }) :=
  (DeviceIdManager_lookup_first_registered TfToPlatformDeviceIdMap.singleton Example.gpu
    { value := 0 } { value := 2 } { value := 9 }).1 rfl _

/-- C23: `InsertTfPlatformDeviceIdPair` returns AlreadyExists exactly when the pair is mapped
to a platform device id other than the given one, and then the map is left as it is; in every
other case it returns OK: for a pair that is not mapped, which is mapped to the given id
afterwards, and for a pair mapped to the given id already, where the map is left as it is. -/
theorem InsertTfPlatformDeviceIdPair_already_exists_iff (id_map : TfToPlatformDeviceIdMap)
    (type : DeviceType) (tf_device_id : TfDeviceId)
    (platform_device_id out : PlatformDeviceId) :
    ((DeviceIdManager.InsertTfPlatformDeviceIdPair id_map type tf_device_id
        platform_device_id).1 = .AlreadyExists ↔
      ∃ mapped, DeviceIdManager.TfToPlatformDeviceId id_map type tf_device_id out
          = (.OK, mapped) ∧ mapped ≠ platform_device_id) ∧
    ((DeviceIdManager.InsertTfPlatformDeviceIdPair id_map type tf_device_id
        platform_device_id).1 = .AlreadyExists →
      (DeviceIdManager.InsertTfPlatformDeviceIdPair id_map type tf_device_id
        platform_device_id).2 = id_map) ∧
    ((DeviceIdManager.InsertTfPlatformDeviceIdPair id_map type tf_device_id
        platform_device_id).1 ≠ .AlreadyExists →
      (DeviceIdManager.InsertTfPlatformDeviceIdPair id_map type tf_device_id
        platform_device_id).1 = .OK) ∧
    ((DeviceIdManager.TfToPlatformDeviceId id_map type tf_device_id out).1 = .NotFound →
      (DeviceIdManager.InsertTfPlatformDeviceIdPair id_map type tf_device_id
        platform_device_id).1 = .OK ∧
      DeviceIdManager.TfToPlatformDeviceId
          (DeviceIdManager.InsertTfPlatformDeviceIdPair id_map type tf_device_id
            platform_device_id).2 type tf_device_id out = (.OK, platform_device_id)) ∧
    (DeviceIdManager.TfToPlatformDeviceId id_map type tf_device_id out
        = (.OK, platform_device_id) →
      DeviceIdManager.InsertTfPlatformDeviceIdPair id_map type tf_device_id
        platform_device_id = (.OK, id_map)) := by
  have hstatus := Insert_status id_map type tf_device_id platform_device_id
  have hlookup := TfToPlatformDeviceId_eq id_map type tf_device_id out
  have heq := Insert_eq id_map type tf_device_id platform_device_id
  have hafter := stored_Insert id_map type type tf_device_id tf_device_id platform_device_id
  rw [if_pos ⟨rfl, rfl⟩] at hafter
  simp only [DeviceIdManager.InsertTfPlatformDeviceIdPair]
  obtain ⟨p⟩ := platform_device_id
  rcases option_cases (id_map.stored type tf_device_id) with h | ⟨id, h⟩
  · simp only [h] at hstatus hlookup hafter
    rw [hstatus, hlookup]
    refine ⟨⟨fun hc => absurd hc (by decide), fun ⟨_, hc, _⟩ => ?_⟩,
      fun hc => absurd hc (by decide), fun _ => rfl, fun _ => ⟨rfl, ?_⟩,
      fun hc => ?_⟩
    · simp at hc
    · rw [TfToPlatformDeviceId_eq, hafter]
    · simp at hc
  · simp only [h] at hstatus hlookup hafter
    have hunchanged : (id_map.Insert type tf_device_id { value := p }).2 = id_map := by
      rw [heq]
      unfold TfToPlatformDeviceIdMap.stored at h
      rcases option_cases (id_map.id_map_ type.type_string) with hm | ⟨ids, hm⟩
      · simp only [hm] at h
        exact absurd h (by simp)
      · simp only [hm] at h ⊢
        simp only [h]
    rw [hlookup]
    by_cases hp : p = id
    · subst hp
      have hstatus' : (id_map.Insert type tf_device_id { value := p }).1 = .OK := by
        rw [hstatus]
        simp
      rw [hstatus']
      refine ⟨⟨fun hc => absurd hc (by decide), fun ⟨mapped, hc, hne⟩ => ?_⟩,
        fun hc => absurd hc (by decide), fun _ => rfl, fun hc => ?_, fun _ => ?_⟩
      · simp only [Prod.mk.injEq, true_and] at hc
        exact absurd hc.symm hne
      · simp at hc
      · exact Prod.ext hstatus' hunchanged
    · have hstatus' : (id_map.Insert type tf_device_id { value := p }).1 = .AlreadyExists := by
        rw [hstatus]
        simp [hp]
      rw [hstatus']
      refine ⟨⟨fun _ => ⟨{ value := id }, rfl, ?_⟩, fun _ => rfl⟩,
        fun _ => hunchanged, fun hc => absurd rfl hc, fun hc => ?_, fun hc => ?_⟩
      · intro hc
        simp only [PlatformDeviceId.mk.injEq] at hc
        exact hp hc.symm
      · simp at hc
      · simp only [Prod.mk.injEq, PlatformDeviceId.mk.injEq, true_and] at hc
        exact absurd hc.symm hp

/-- Witness of C23: the GPU with TF device id 0 is mapped to platform device 2; an insert that
maps it to platform device 3 returns AlreadyExists. -/
theorem InsertTfPlatformDeviceIdPair_already_exists_iff_witness :
    (DeviceIdManager.InsertTfPlatformDeviceIdPair Example.registered Example.gpu
      { value := 0 } { value := 3 }).1 = .AlreadyExists :=
  (InsertTfPlatformDeviceIdPair_already_exists_iff Example.registered Example.gpu
    { value := 0 } { value := 3 } { value := 9 }).1.mpr
    ⟨{ value := 2 }, by decide, by decide⟩

/-! ## Lemmas on the lowering of strided slices -/

theorem filter_range_lt (count : Nat) :
    ∀ size : Nat, count ≤ size →
      (List.range size).filter (fun k => decide (k < count)) = List.range count := by
  intro size
  induction size with
  | zero =>
    intro h
    have h0 : count = 0 := by omega
    subst h0
    rfl
  | succ size ih =>
    intro h
    rw [List.range_succ, List.filter_append]
    by_cases hc : count ≤ size
    · rw [ih hc]
      have hlt : ¬ size < count := by omega
      simp [hlt]
    · have hc' : count = size + 1 := by omega
      subst hc'
      have hall : (List.range size).filter (fun k => decide (k < size + 1))
          = List.range size := by
        rw [List.filter_eq_self]
        intro a ha
        have := List.mem_range.mp ha
        simp only [decide_eq_true_eq]
        omega
      rw [hall, List.range_succ]
      simp

/-- The term number `k` of the sequence of indices is greater than `end` exactly when `k` is
below the number of elements of the lowered slice. -/
theorem index_gt_end_iff (begin_i end_i strides_i : Int) (hstride : strides_i < 0) (k : Nat) :
    end_i < begin_i + k * strides_i ↔
      (k : Int) < (Max.max (begin_i - end_i) 0 + -strides_i - 1) / -strides_i := by
  have hpos : 0 < -strides_i := by omega
  have ht : 0 ≤ (k : Int) * -strides_i := mul_nonneg (Int.ofNat_nonneg k) hpos.le
  have hmul : (k : Int) * strides_i = -((k : Int) * -strides_i) := by ring
  have hstep : ((k : Int) + 1) * -strides_i = (k : Int) * -strides_i + -strides_i := by ring
  have key : (k : Int) < (Max.max (begin_i - end_i) 0 + -strides_i - 1) / -strides_i ↔
      ((k : Int) + 1) * -strides_i ≤ Max.max (begin_i - end_i) 0 + -strides_i - 1 := by
    rw [Int.lt_iff_add_one_le, Int.le_ediv_iff_mul_le hpos]
  rw [key, hstep, hmul]
  generalize (k : Int) * -strides_i = t at ht
  constructor
  · intro h
    have : t < Max.max (begin_i - end_i) 0 := lt_max_of_lt_left (by omega)
    omega
  · intro h
    have h' : t < Max.max (begin_i - end_i) 0 := by omega
    rcases lt_max_iff.mp h' with h1 | h1
    · omega
    · omega

theorem index_lt_size (size : Nat) (begin_i end_i strides_i : Int) (hstride : strides_i < 0)
    (hbegin : begin_i ≤ (size : Int) - 1) (hend : -1 ≤ end_i) (k : Nat)
    (hk : end_i < begin_i + k * strides_i) : k < size := by
  have hpos : 0 < -strides_i := by omega
  have hle : (k : Int) ≤ (k : Int) * -strides_i := by
    have := mul_le_mul_of_nonneg_left (show (1 : Int) ≤ -strides_i by omega)
      (Int.ofNat_nonneg k)
    simpa using this
  have hmul : (k : Int) * strides_i = -((k : Int) * -strides_i) := by ring
  rw [hmul] at hk
  generalize (k : Int) * -strides_i = t at hle hk
  omega

/-- A result inside the range of `int64` is left as it is. -/
theorem int64_eq_self (x : Int) (h0 : -2 ^ 63 ≤ x) (h1 : x < 2 ^ 63) : int64 x = x := by
  unfold int64
  omega

/-- The negation of an `int64` is exact, but for the least value, whose negation is the
value itself. -/
theorem int64_neg (x : Int) (h0 : -2 ^ 63 ≤ x) (h1 : x < 2 ^ 63) :
    int64 (-x) = if x = -2 ^ 63 then x else -x := by
  unfold int64
  split_ifs with h
  · omega
  · omega

/-- The loop of `Compile` on one dimension with a negative stride: the subtractions leave the
exact differences, the negation of the stride is the one of `int64`. -/
theorem loop_negative_stride (dim_size begin_i end_i strides_i : Int)
    (hstride : strides_i < 0) (hsize : dim_size < 2 ^ 63) (hbegin0 : 0 ≤ begin_i)
    (hbegin : begin_i ≤ dim_size - 1) (hend : -1 ≤ end_i) (hend64 : end_i < 2 ^ 63) :
    StridedSliceOp.Compile.loop [dim_size] [begin_i] [end_i] [strides_i]
      = { dimensions_to_reverse := [0]
          slice_begin := [dim_size - begin_i - 1]
          slice_end := [Max.max (dim_size - end_i - 1) (dim_size - begin_i - 1)]
          slice_strides := [int64 (-strides_i)] } := by
  have hnot : ¬ strides_i > 0 := by omega
  have e1 : int64 (int64 (dim_size - begin_i) - 1) = dim_size - begin_i - 1 := by
    unfold int64
    omega
  have e2 : int64 (int64 (dim_size - end_i) - 1) = dim_size - end_i - 1 := by
    unfold int64
    omega
  simp [StridedSliceOp.Compile.loop, StridedSliceOp.Compile.body, List.range_succ, hnot, e1, e2]

/-- The indices that a slice with negative stride denotes are the first terms of the sequence
`begin, begin + stride, …`, as many as the lowered slice has elements. -/
theorem negativeStrideIndices_eq (size : Nat) (begin_i end_i strides_i : Int)
    (hstride : strides_i < 0) (hbegin : begin_i ≤ (size : Int) - 1) (hend : -1 ≤ end_i) :
    negativeStrideIndices size begin_i end_i strides_i
      = (List.range ((Max.max (begin_i - end_i) 0 + -strides_i - 1) / -strides_i).toNat).map
          (fun k : Nat => begin_i + k * strides_i) := by
  have hcount : ((Max.max (begin_i - end_i) 0 + -strides_i - 1) / -strides_i).toNat ≤ size := by
    by_contra hlt
    have hlt' : (size : Int)
        < (Max.max (begin_i - end_i) 0 + -strides_i - 1) / -strides_i := by omega
    have := index_lt_size size begin_i end_i strides_i hstride hbegin hend size
      ((index_gt_end_iff begin_i end_i strides_i hstride size).mpr hlt')
    omega
  unfold negativeStrideIndices
  rw [List.filter_map]
  congr 1
  rw [← filter_range_lt _ size hcount]
  apply List.filter_congr
  intro k _
  have h := index_gt_end_iff begin_i end_i strides_i hstride k
  simp only [Function.comp, decide_eq_decide]
  rw [h]
  omega

/-- Reading the reversed dimension at the mirrored index. -/
theorem elementAt_reverse {α : Type} (x : List α) (index : Int) (h0 : 0 ≤ index)
    (h1 : index ≤ (x.length : Int) - 1) :
    elementAt x.reverse ((x.length : Int) - index - 1) = elementAt x index := by
  unfold elementAt
  rw [if_pos (by omega), if_pos h0, List.getElem?_reverse (by omega)]
  congr 1
  omega

/-- Gathering the elements at indices that are all inside the dimension drops none. -/
theorem filterMap_elementAt {α : Type} (x : List α) :
    ∀ (indices : List Int), (∀ index ∈ indices, 0 ≤ index ∧ index < x.length) →
      ∀ k : Nat, (indices.filterMap (elementAt x))[k]? = (indices[k]?).bind (elementAt x) := by
  intro indices
  induction indices with
  | nil => intro _ k; simp
  | cons index rest ih =>
    intro h k
    have hin := h index (List.mem_cons_self _ _)
    have hsome : ∃ v, elementAt x index = some v := by
      unfold elementAt
      rw [if_pos hin.1]
      have hlt : index.toNat < x.length := by omega
      exact ⟨x[index.toNat], List.getElem?_eq_getElem hlt⟩
    obtain ⟨v, hv⟩ := hsome
    rw [List.filterMap_cons_some hv]
    cases k with
    | zero => simp [hv]
    | succ k =>
      simp only [List.getElem?_cons_succ]
      exact ih (fun i hi => h i (List.mem_cons_of_mem _ hi)) k

/-- The slice of the reversed dimension with the step `-stride` selects the elements that the
slice with negative stride denotes. -/
theorem slice_reversed_eq {α : Type} (x : List α) (begin_i end_i strides_i : Int)
    (hstride : strides_i < 0) (hbegin0 : 0 ≤ begin_i)
    (hbegin : begin_i ≤ (x.length : Int) - 1) (hend : -1 ≤ end_i) :
    slicedDimension (reversedDimension x [0]) [(x.length : Int) - 1 - begin_i]
        [Max.max ((x.length : Int) - 1 - end_i) ((x.length : Int) - 1 - begin_i)] [-strides_i]
      = some (negativeStrideSlice x begin_i end_i strides_i) := by
  have hvalid : 0 ≤ (x.length : Int) - 1 - begin_i ∧
      (x.length : Int) - 1 - begin_i
        ≤ Max.max ((x.length : Int) - 1 - end_i) ((x.length : Int) - 1 - begin_i) ∧
      Max.max ((x.length : Int) - 1 - end_i) ((x.length : Int) - 1 - begin_i)
        ≤ (x.reverse.length : Int) ∧ 0 < -strides_i := by
    refine ⟨by omega, le_max_right _ _, ?_, by omega⟩
    rw [List.length_reverse]
    exact max_le (by omega) (by omega)
  have hrev : reversedDimension x [0] = x.reverse := by simp [reversedDimension]
  rw [hrev]
  simp only [slicedDimension]
  rw [if_pos hvalid]
  congr 1
  have hlength : Max.max ((x.length : Int) - 1 - end_i) ((x.length : Int) - 1 - begin_i)
      - ((x.length : Int) - 1 - begin_i) = Max.max (begin_i - end_i) 0 := by omega
  rw [hlength]
  unfold negativeStrideSlice
  rw [negativeStrideIndices_eq x.length begin_i end_i strides_i hstride hbegin hend,
    List.filterMap_map]
  apply List.filterMap_congr
  intro k hk
  have hk' := List.mem_range.mp hk
  have hgt : end_i < begin_i + k * strides_i :=
    (index_gt_end_iff begin_i end_i strides_i hstride k).mpr (by omega)
  have hle : (k : Int) * strides_i ≤ 0 :=
    mul_nonpos_of_nonneg_of_nonpos (Int.ofNat_nonneg k) hstride.le
  have h := elementAt_reverse x (begin_i + k * strides_i) (by omega) (by omega)
  simp only [Function.comp]
  rw [← h]
  congr 1
  ring

theorem Example.slice_eq :
    StridedSliceOp.Compile.slice XlaOps.onDimension Example.dimension [4] [-1] [-2]
      = some [14, 12, 10] ∧
    negativeStrideSlice Example.dimension 4 (-1) (-2) = [14, 12, 10] := by
  constructor
  · decide
  · decide

/-- The element number `k` of the slice with negative stride is `x[begin + k * stride]` when
that index is greater than `end`, and there is no element number `k` otherwise; every such
index is inside the dimension. -/
theorem negativeStrideSlice_elements {α : Type} (x : List α) (begin_i end_i strides_i : Int)
    (hstride : strides_i < 0)
    (hbegin : begin_i ≤ (x.length : Int) - 1) (hend : -1 ≤ end_i) :
    (∀ k : Nat, (negativeStrideSlice x begin_i end_i strides_i)[k]?
      = if end_i < begin_i + k * strides_i then elementAt x (begin_i + k * strides_i)
        else none) ∧
    (∀ k : Nat, end_i < begin_i + k * strides_i →
      0 ≤ begin_i + k * strides_i ∧ begin_i + k * strides_i < x.length ∧
      (elementAt x (begin_i + k * strides_i)).isSome = true) ∧
    (begin_i ≤ end_i → negativeStrideSlice x begin_i end_i strides_i = []) := by
  have hindices := negativeStrideIndices_eq x.length begin_i end_i strides_i hstride hbegin
    hend
  have hinside : ∀ k : Nat, end_i < begin_i + k * strides_i →
      0 ≤ begin_i + k * strides_i ∧ begin_i + k * strides_i < x.length := by
    intro k hk
    have hle : (k : Int) * strides_i ≤ 0 :=
      mul_nonpos_of_nonneg_of_nonpos (Int.ofNat_nonneg k) hstride.le
    omega
  have hpoint : ∀ k : Nat, (negativeStrideSlice x begin_i end_i strides_i)[k]?
      = if end_i < begin_i + k * strides_i then elementAt x (begin_i + k * strides_i)
        else none := by
    intro k
    unfold negativeStrideSlice
    rw [filterMap_elementAt x _ ?_ k, hindices]
    · by_cases hk : end_i < begin_i + k * strides_i
      · have hlt := (index_gt_end_iff begin_i end_i strides_i hstride k).mp hk
        have hlt' : k < ((Max.max (begin_i - end_i) 0 + -strides_i - 1) / -strides_i).toNat := by
          omega
        rw [if_pos hk]
        generalize ((Max.max (begin_i - end_i) 0 + -strides_i - 1) / -strides_i).toNat = count
          at hlt'
        rw [List.getElem?_map, List.getElem?_range hlt']
        rfl
      · have hlt := (index_gt_end_iff begin_i end_i strides_i hstride k).not.mp hk
        have hlt' : ¬ k
            < ((Max.max (begin_i - end_i) 0 + -strides_i - 1) / -strides_i).toNat := by
          omega
        rw [if_neg hk]
        generalize ((Max.max (begin_i - end_i) 0 + -strides_i - 1) / -strides_i).toNat = count
          at hlt'
        rw [List.getElem?_map, List.getElem?_eq_none (by simpa using hlt')]
        rfl
    · intro index hindex
      rw [hindices, List.mem_map] at hindex
      obtain ⟨k, hk, rfl⟩ := hindex
      have hk' := List.mem_range.mp hk
      exact hinside k ((index_gt_end_iff begin_i end_i strides_i hstride k).mpr (by omega))
  refine ⟨hpoint, ?_, ?_⟩
  · intro k hk
    obtain ⟨h0, h1⟩ := hinside k hk
    refine ⟨h0, h1, ?_⟩
    unfold elementAt
    rw [if_pos h0, List.getElem?_eq_getElem (by omega)]
    rfl
  · intro hle
    unfold negativeStrideSlice
    rw [hindices]
    have hzero : (Max.max (begin_i - end_i) 0 + -strides_i - 1) / -strides_i = 0 := by
      have hmax : Max.max (begin_i - end_i) 0 = 0 := max_eq_right (by omega)
      rw [hmax]
      exact Int.ediv_eq_zero_of_lt (by omega) (by omega)
    rw [hzero]
    rfl

/-- The slice of the claim's reading of `xla::Slice` is not there for a step that is not
positive. -/
theorem slicedDimension_of_not_pos {α : Type} (operand : List α) (start limit stride : Int)
    (h : stride ≤ 0) : slicedDimension operand [start] [limit] [stride] = none := by
  simp only [slicedDimension]
  rw [if_neg (by omega)]

/-! ## Claims on the lowering of strided slices -/

/-- C25: for a dimension `x` of size `N` and canonical `begin`, `end`, `stride` of type
`int64` with `stride < 0`, `0 ≤ begin ≤ N - 1` and `-1 ≤ end`, `StridedSliceOp::Compile` calls
`xla::Slice` on the reversed dimension from `N - 1 - begin` to `max (N - 1 - end) (N - 1 - begin)`
with the step that the negation of `int64` leaves.  Slicing the reversed dimension between these
bounds with the step `-stride` yields exactly the elements `x[begin], x[begin + stride], …` at
the indices greater than `end`, in that order (none when `end ≥ begin`).  For every stride
but `-2^63` the step of the code is `-stride` and the lowered slice holds these elements; at
`stride = -2^63` the negation overflows, the step of the code is `-2^63`, and no slice with a
positive step is built, although the claim's slice is there. -/
theorem StridedSliceOp_negative_stride_int64 {α : Type} (xla : XlaOps α) (x : List α)
    (begin_i end_i strides_i : Int)
    (hstride : strides_i < 0) (hmin : -2 ^ 63 ≤ strides_i) (hsize : (x.length : Int) < 2 ^ 63)
    (hbegin0 : 0 ≤ begin_i) (hbegin : begin_i ≤ (x.length : Int) - 1)
    (hend : -1 ≤ end_i) (hend64 : end_i < 2 ^ 63) :
    StridedSliceOp.Compile.slice xla x [begin_i] [end_i] [strides_i]
      = xla.Slice (xla.Rev x [0]) [(x.length : Int) - 1 - begin_i]
          [Max.max ((x.length : Int) - 1 - end_i) ((x.length : Int) - 1 - begin_i)]
          [int64 (-strides_i)] ∧
    slicedDimension (reversedDimension x [0]) [(x.length : Int) - 1 - begin_i]
        [Max.max ((x.length : Int) - 1 - end_i) ((x.length : Int) - 1 - begin_i)] [-strides_i]
      = some (negativeStrideSlice x begin_i end_i strides_i) ∧
    (∀ k : Nat, (negativeStrideSlice x begin_i end_i strides_i)[k]?
      = if end_i < begin_i + k * strides_i then elementAt x (begin_i + k * strides_i)
        else none) ∧
    (∀ k : Nat, end_i < begin_i + k * strides_i →
      0 ≤ begin_i + k * strides_i ∧ begin_i + k * strides_i < x.length ∧
      (elementAt x (begin_i + k * strides_i)).isSome = true) ∧
    (begin_i ≤ end_i → negativeStrideSlice x begin_i end_i strides_i = []) ∧
    (strides_i ≠ -2 ^ 63 →
      int64 (-strides_i) = -strides_i ∧
      StridedSliceOp.Compile.slice XlaOps.onDimension x [begin_i] [end_i] [strides_i]
        = some (negativeStrideSlice x begin_i end_i strides_i)) ∧
    (strides_i = -2 ^ 63 →
      int64 (-strides_i) = -2 ^ 63 ∧
      StridedSliceOp.Compile.slice XlaOps.onDimension x [begin_i] [end_i] [strides_i] = none ∧
      negativeStrideSlice x begin_i end_i strides_i
        = if end_i < begin_i then (elementAt x begin_i).toList else []) := by
  have hloop := loop_negative_stride (x.length : Int) begin_i end_i strides_i hstride hsize
    hbegin0 hbegin hend hend64
  have hlowered : ∀ ops : XlaOps α,
      StridedSliceOp.Compile.slice ops x [begin_i] [end_i] [strides_i]
      = ops.Slice (ops.Rev x [0]) [(x.length : Int) - 1 - begin_i]
          [Max.max ((x.length : Int) - 1 - end_i) ((x.length : Int) - 1 - begin_i)]
          [int64 (-strides_i)] := by
    intro ops
    unfold StridedSliceOp.Compile.slice
    rw [hloop]
    have e1 : (x.length : Int) - begin_i - 1 = (x.length : Int) - 1 - begin_i := by ring
    have e2 : (x.length : Int) - end_i - 1 = (x.length : Int) - 1 - end_i := by ring
    simp [e1, e2]
  have hslice := slice_reversed_eq x begin_i end_i strides_i hstride hbegin0 hbegin hend
  have hneg := int64_neg strides_i hmin (by omega)
  obtain ⟨hpoint, hinside, hempty⟩ :=
    negativeStrideSlice_elements x begin_i end_i strides_i hstride hbegin hend
  refine ⟨hlowered xla, hslice, hpoint, hinside, hempty, ?_, ?_⟩
  · intro hne
    rw [if_neg hne] at hneg
    refine ⟨hneg, ?_⟩
    rw [hlowered XlaOps.onDimension, hneg]
    exact hslice
  · intro heq
    rw [if_pos heq] at hneg
    refine ⟨hneg.trans heq, ?_, ?_⟩
    · rw [hlowered XlaOps.onDimension]
      exact slicedDimension_of_not_pos _ _ _ _ (by rw [hneg]; omega)
    · apply List.ext_getElem?
      intro k
      rw [hpoint k]
      cases k with
      | zero =>
        by_cases hlt : end_i < begin_i
        · have hin : 0 ≤ begin_i ∧ begin_i.toNat < x.length := by omega
          simp only [Nat.cast_zero, zero_mul, add_zero, if_pos hlt]
          unfold elementAt
          rw [if_pos hin.1, List.getElem?_eq_getElem hin.2]
          rfl
        · simp [hlt]
      | succ k =>
        have hstep : ((k + 1 : Nat) : Int) * strides_i ≤ strides_i := by
          have h := mul_le_mul_of_nonpos_right
            (show (1 : Int) ≤ ((k + 1 : Nat) : Int) by omega) hstride.le
          simpa using h
        have hnot : ¬ end_i < begin_i + ((k + 1 : Nat) : Int) * strides_i := by omega
        rw [if_neg hnot]
        by_cases hlt : end_i < begin_i
        · have hin : 0 ≤ begin_i ∧ begin_i.toNat < x.length := by omega
          rw [if_pos hlt]
          unfold elementAt
          rw [if_pos hin.1, List.getElem?_eq_getElem hin.2]
          rfl
        · rw [if_neg hlt]
          rfl

/-- Witness of C25: the dimension `[10, …, 15]` with `begin = 4`, `end = -1` and
`stride = -2^63`: the claim's slice holds the element at the index 4, and the lowering, whose
step is `-2^63`, builds no slice. -/
theorem StridedSliceOp_negative_stride_int64_witness :
    StridedSliceOp.Compile.slice XlaOps.onDimension Example.dimension [4] [-1] [-2 ^ 63]
      = none ∧
    slicedDimension (reversedDimension Example.dimension [0]) [1] [6] [-(-2 ^ 63)]
      = some [14] ∧
    negativeStrideSlice Example.dimension 4 (-1) (-2 ^ 63) = [14] :=
  have h := StridedSliceOp_negative_stride_int64 XlaOps.onDimension Example.dimension 4 (-1)
    (-2 ^ 63) (by decide) (by decide) (by decide) (by decide) (by decide) (by decide)
    (by decide)
  ⟨(h.2.2.2.2.2.2 rfl).2.1, by decide, (h.2.2.2.2.2.2 rfl).2.2.trans (by decide)⟩

/-! ## Lemmas on double-precision arithmetic -/

theorem roundHalfEven_intCast (n : Int) : roundHalfEven (n : ℚ) = n := by
  simp [roundHalfEven]

theorem roundHalfEven_eq_of_abs_lt (x : ℚ) (n : Int) (h : |x - n| < 1 / 2) :
    roundHalfEven x = n := by
  rw [abs_lt] at h
  unfold roundHalfEven
  by_cases hx : (n : ℚ) ≤ x
  · have hfloor : ⌊x⌋ = n := by
      rw [Int.floor_eq_iff]
      constructor
      · exact hx
      · linarith
    rw [hfloor, if_pos (by linarith)]
  · push_neg at hx
    have hfloor : ⌊x⌋ = n - 1 := by
      rw [Int.floor_eq_iff]
      push_cast
      constructor
      · linarith
      · linarith
    rw [hfloor]
    push_cast
    rw [if_neg (by linarith), if_pos (by linarith)]
    ring

theorem Double.round_of_normal (x : ℚ) (n e : Int) (hlo : (2 : ℚ) ^ (52 + e) ≤ x)
    (hhi : x < (2 : ℚ) ^ (52 + e + 1)) (hmin : -1074 ≤ e) (hmax : e ≤ 970)
    (hn : n ≤ 2 ^ 53)
    (hclose : |x / 2 ^ e - n| < 1 / 2) :
    Double.round x = .finite (n * 2 ^ e) := by
  have hpos : 0 < x := lt_of_lt_of_le (by positivity) hlo
  have hlog : Int.log 2 |x| = 52 + e := by
    rw [abs_of_pos hpos]
    apply le_antisymm
    · have := (Int.lt_zpow_iff_log_lt (R := ℚ) (b := 2) (by norm_num) hpos
        (x := 52 + e + 1)).mp (by exact_mod_cast hhi)
      omega
    · exact (Int.zpow_le_iff_le_log (R := ℚ) (b := 2) (by norm_num) hpos).mp
        (by exact_mod_cast hlo)
  unfold Double.round
  rw [if_neg hpos.ne']
  simp only [hlog]
  have hexp : Max.max (52 + e) (-1022) - 52 = e := by omega
  rw [hexp, roundHalfEven_eq_of_abs_lt _ n hclose]
  have hbound : |(n : ℚ) * 2 ^ e| < (2 : ℚ) ^ (1024 : Int) := by
    have h2 : (0 : ℚ) < 2 ^ e := by positivity
    have hn0 : (0 : ℚ) ≤ n := by
      by_contra hneg
      push_neg at hneg
      have hn1 : (n : ℚ) ≤ -1 := by
        have : n ≤ -1 := by
          have : n < 0 := by exact_mod_cast hneg
          omega
        exact_mod_cast this
      have hx0 : 0 < x / 2 ^ e := div_pos hpos h2
      rw [abs_lt] at hclose
      linarith
    rw [abs_of_nonneg (mul_nonneg hn0 h2.le)]
    have hn' : (n : ℚ) ≤ 2 ^ (53 : Int) := by
      have h : (n : ℚ) ≤ ((2 ^ 53 : Int) : ℚ) := by exact_mod_cast hn
      norm_num at h ⊢
      exact h
    calc (n : ℚ) * 2 ^ e ≤ 2 ^ (53 : Int) * 2 ^ e := by
          exact mul_le_mul_of_nonneg_right hn' h2.le
      _ = 2 ^ (53 + e) := by rw [← zpow_add₀ (by norm_num : (2 : ℚ) ≠ 0)]
      _ < 2 ^ (1024 : Int) := by
          apply zpow_lt_zpow_right₀ (by norm_num)
          omega
  rw [if_neg (not_le.mpr hbound)]

theorem Double.round_zpow (k : Int) (hmin : -1074 ≤ k) (hmax : k ≤ 1023) :
    Double.round ((2 : ℚ) ^ k) = .finite ((2 : ℚ) ^ k) := by
  have hpos : (0 : ℚ) < 2 ^ k := by positivity
  unfold Double.round
  rw [if_neg hpos.ne', abs_of_pos hpos]
  have hlog : Int.log 2 ((2 : ℚ) ^ k) = k := by
    have := Int.log_zpow (R := ℚ) (b := 2) (by norm_num) k
    simpa using this
  simp only [hlog]
  have hquot : (2 : ℚ) ^ k / 2 ^ (Max.max k (-1022) - 52)
      = (((2 : Int) ^ (k - (Max.max k (-1022) - 52)).toNat : Int) : ℚ) := by
    rw [← zpow_sub₀ (by norm_num : (2 : ℚ) ≠ 0)]
    have hnonneg : 0 ≤ k - (Max.max k (-1022) - 52) := by omega
    conv_lhs => rw [← Int.toNat_of_nonneg hnonneg]
    push_cast
    rw [zpow_natCast]
  rw [hquot, roundHalfEven_intCast, ← hquot, div_mul_cancel₀ _ (by positivity)]
  rw [abs_of_pos hpos, if_neg]
  rw [not_le]
  exact zpow_lt_zpow_right₀ (by norm_num) (by omega)

/-- A product of two doubles whose exact value lies in the binade of `2 ^ (52 + e)` and within
half a unit of `n * 2 ^ e`. -/
theorem Double.mul_of_normal (a b : ℚ) (n e : Int) (hlo : (2 : ℚ) ^ (52 + e) ≤ a * b)
    (hhi : a * b < (2 : ℚ) ^ (52 + e + 1)) (hmin : -1074 ≤ e) (hmax : e ≤ 970)
    (hn : n ≤ 2 ^ 53) (hclose : |a * b / 2 ^ e - n| < 1 / 2) :
    Double.mul (.finite a) (.finite b) = .finite (n * 2 ^ e) :=
  Double.round_of_normal (a * b) n e hlo hhi hmin hmax hn hclose

theorem Double.foldl_mul_exact :
    ∀ (values : List ℚ) (scale : ℚ), Double.productsExact scale values →
      values.foldl (fun scale value => Double.mul scale (.finite value)) (.finite scale)
        = .finite (scale * values.prod) := by
  intro values
  induction values with
  | nil => intro scale _; simp
  | cons value rest ih =>
    intro scale h
    obtain ⟨h1, h2⟩ := h
    simp only [List.foldl_cons, List.prod_cons]
    have hmul : Double.mul (.finite scale) (.finite value) = .finite (scale * value) := h1
    rw [hmul, ih (scale * value) h2, mul_assoc]

/-! ## Lemmas on scale derivation in doubles -/

theorem Fp.inputLoop_double_eq_some {n : Nat} (op : LstmOp n) (su : Fin n → UniformQuantizedType) :
    ∀ (l : List (Fin n)) (scale : Double),
      (∀ i ∈ l, ∃ arg type, op.operands i = .dequantizeCast arg type ∧
        QuantizedType.getQuantizedElementType arg.getType = some (.uniform (su i))) →
      Fp.getDerivedScale.inputLoop op l scale
        = some ((l.map (fun i => (su i).scale)).foldl
            (fun scale value => Double.mul scale (.finite value)) scale) := by
  intro l
  induction l with
  | nil => intro scale _; rfl
  | cons i rest ih =>
    intro scale h
    obtain ⟨arg, type, h1, h2⟩ := h i (List.mem_cons_self _ _)
    simp only [Fp.getDerivedScale.inputLoop, h1, h2, List.map_cons, List.foldl_cons]
    exact ih _ (fun j hj => h j (List.mem_cons_of_mem _ hj))

theorem Fp.intermediateLoop_double_eq_some {n : Nat} (op : LstmOp n)
    (sm : Fin 5 → UniformQuantizedType) :
    ∀ (l : List (Fin 5)) (scale : Double),
      (∀ j ∈ l, ∃ t, op.intermediates j = some t ∧
        QuantizedType.getQuantizedElementType t = some (.uniform (sm j))) →
      Fp.getDerivedScale.intermediateLoop op l scale
        = some ((l.map (fun j => (sm j).scale)).foldl
            (fun scale value => Double.mul scale (.finite value)) scale) := by
  intro l
  induction l with
  | nil => intro scale _; rfl
  | cons j rest ih =>
    intro scale h
    obtain ⟨t, h1, h2⟩ := h j (List.mem_cons_self _ _)
    have hq : getIntermediateType op j = some (.uniform (sm j)) := by
      simp [getIntermediateType, h1, h2]
    simp only [Fp.getDerivedScale.intermediateLoop, hq, List.map_cons, List.foldl_cons]
    exact ih _ (fun k hk => h k (List.mem_cons_of_mem _ hk))

/-- With every dependency quantized, `getDerivedScale` in doubles returns the rounded products
taken along the three lists. -/
theorem Fp.getDerivedScale_double_of_scales {n : Nat} (op : LstmOp n) (input_index : Fin n)
    (tensor_property : TensorProperty n) (su : Fin n → UniformQuantizedType)
    (sm : Fin 5 → UniformQuantizedType)
    (hin : ∀ i ∈ tensor_property.derived_scale.input_tensors,
      ∃ arg type, op.operands i = .dequantizeCast arg type ∧
        QuantizedType.getQuantizedElementType arg.getType = some (.uniform (su i)))
    (hmid : ∀ j ∈ tensor_property.derived_scale.intermediate_tensors,
      ∃ t, op.intermediates j = some t ∧
        QuantizedType.getQuantizedElementType t = some (.uniform (sm j))) :
    Fp.getDerivedScale op input_index tensor_property
      = some ((tensor_property.derived_scale.input_tensors.map (fun i => (su i).scale)
            ++ tensor_property.derived_scale.intermediate_tensors.map (fun j => (sm j).scale)
            ++ tensor_property.derived_scale.factors).foldl
          (fun scale value => Double.mul scale (.finite value)) (.finite 1)) := by
  unfold Fp.getDerivedScale
  rw [Fp.inputLoop_double_eq_some op su _ _ hin]
  simp only
  rw [Fp.intermediateLoop_double_eq_some op sm _ _ hmid]
  simp only [List.foldl_append]

theorem Example.decimalOp_quantized (i : Fin 4) :
    ∃ arg type, Example.decimalOp.operands i = .dequantizeCast arg type ∧
      QuantizedType.getQuantizedElementType arg.getType
        = some (.uniform (Example.scaledType
            (if i = 0 then Example.oneTenth else if i = 1 then Example.oneFifth
              else if i = 2 then Example.nineTenths else Example.oneThird))) := by
  fin_cases i <;> exact ⟨_, _, rfl, rfl⟩

theorem Example.round_oneTenth :
    Double.mul (.finite 1) (.finite Example.oneTenth) = .finite Example.oneTenth := by
  have h := Double.mul_of_normal 1 Example.oneTenth 7205759403792794 (-56)
    (by norm_num [Example.oneTenth]) (by norm_num [Example.oneTenth]) (by norm_num)
    (by norm_num) (by norm_num)
    (by rw [abs_lt]; constructor <;> norm_num [Example.oneTenth])
  rw [h]
  norm_num [Example.oneTenth]

theorem Example.mul_oneTenth_oneFifth :
    Double.mul (.finite Example.oneTenth) (.finite Example.oneFifth)
      = .finite (5764607523034236 / 2 ^ 58) := by
  have h := Double.mul_of_normal Example.oneTenth Example.oneFifth 5764607523034236 (-58)
    (by norm_num [Example.oneTenth, Example.oneFifth])
    (by norm_num [Example.oneTenth, Example.oneFifth]) (by norm_num) (by norm_num)
    (by norm_num)
    (by rw [abs_lt]; constructor <;> norm_num [Example.oneTenth, Example.oneFifth])
  rw [h]
  norm_num

theorem Example.mul_threeTenths :
    Double.mul (.finite (5764607523034236 / 2 ^ 58)) (.finite Example.threeTenths)
      = .finite (6917529302518990 / 2 ^ 60) := by
  have h := Double.mul_of_normal (5764607523034236 / 2 ^ 58) Example.threeTenths
    6917529302518990 (-60)
    (by norm_num [Example.threeTenths]) (by norm_num [Example.threeTenths]) (by norm_num)
    (by norm_num) (by norm_num)
    (by rw [abs_lt]; constructor <;> norm_num [Example.threeTenths])
  rw [h]
  norm_num

/-- C1, counterexample: inputs 0 and 1 of the example op are quantized with the scales `0.1`
and `0.2` (as doubles) and the property lists the factor `0.3f`.  `getDerivedScale` returns
the double `0x1.89374cccccccep-8`, which is not the product of the three values: the products
`0.1 * 0.2` and `(0.1 * 0.2) * 0.3f` are both rounded. -/
theorem getDerivedScale_decimal_product_inexact :
    (∀ i ∈ Example.decimalProperty.derived_scale.input_tensors,
      InputDependencyQuantized Example.decimalOp i) ∧
    Example.decimalProperty.derived_scale.intermediate_tensors = [] ∧
    Fp.getDerivedScale Example.decimalOp 2 Example.decimalProperty
      = some (.finite (6917529302518990 / 2 ^ 60)) ∧
    (6917529302518990 / 2 ^ 60 : ℚ)
      ≠ 1 * Example.oneTenth * Example.oneFifth * Example.threeTenths := by
  refine ⟨?_, rfl, ?_, ?_⟩
  · intro i _
    obtain ⟨arg, type, h1, h2⟩ := Example.decimalOp_quantized i
    exact ⟨arg, type, _, h1, h2⟩
  · rw [Fp.getDerivedScale_double_of_scales Example.decimalOp 2 Example.decimalProperty
      (fun i => Example.scaledType
        (if i = 0 then Example.oneTenth else if i = 1 then Example.oneFifth
          else if i = 2 then Example.nineTenths else Example.oneThird))
      (fun _ => Example.hiddenType)
      (fun i _ => Example.decimalOp_quantized i)
      (fun j hj => by simp [Example.decimalProperty] at hj)]
    simp only [Example.decimalProperty, List.map_cons, List.map_nil, List.nil_append,
      List.cons_append, List.foldl_cons, List.foldl_nil, Example.scaledType]
    rw [if_pos trivial, if_neg (by decide), if_pos trivial, Example.round_oneTenth,
      Example.mul_oneTenth_oneFifth, Example.mul_threeTenths]
  · norm_num [Example.oneTenth, Example.oneFifth, Example.threeTenths]

theorem Double.round_of_eq_zpow (x : ℚ) (k : Int) (h : x = (2 : ℚ) ^ k) (hmin : -1074 ≤ k)
    (hmax : k ≤ 1023) : Double.round x = .finite x := by
  rw [h]
  exact Double.round_zpow k hmin hmax

theorem Example.op_quantized :
    (∀ i ∈ Example.biasProperty.derived_scale.input_tensors,
      ∃ arg type, Example.op.operands i = .dequantizeCast arg type ∧
        QuantizedType.getQuantizedElementType arg.getType
          = some (.uniform (if i = 0 then Example.inputType else Example.weightType))) ∧
    (∀ j ∈ Example.biasProperty.derived_scale.intermediate_tensors,
      ∃ t, Example.op.intermediates j = some t ∧
        QuantizedType.getQuantizedElementType t = some (.uniform Example.hiddenType)) := by
  constructor
  · intro i hi
    simp only [Example.biasProperty, List.mem_cons, List.mem_singleton, List.not_mem_nil,
      or_false] at hi
    rcases hi with rfl | rfl
    · exact ⟨_, _, rfl, rfl⟩
    · exact ⟨_, _, rfl, rfl⟩
  · intro j hj
    simp only [Example.biasProperty, List.mem_singleton] at hj
    subst hj
    exact ⟨_, rfl, rfl⟩

theorem Example.bias_products_exact :
    Double.productsExact 1 [1 / 4, 1 / 2, 1 / 8, 2] := by
  refine ⟨?_, ?_, ?_, ?_, trivial⟩
  · exact Double.round_of_eq_zpow _ (-2) (by norm_num) (by norm_num) (by norm_num)
  · exact Double.round_of_eq_zpow _ (-3) (by norm_num) (by norm_num) (by norm_num)
  · exact Double.round_of_eq_zpow _ (-6) (by norm_num) (by norm_num) (by norm_num)
  · exact Double.round_of_eq_zpow _ (-5) (by norm_num) (by norm_num) (by norm_num)

/-- C1, amended: when every dependency input operand is produced by a dequantize op whose
source element type is the uniform type `su i`, and every dependency intermediate attribute
holds the uniform type `sm j`, `getDerivedScale` succeeds and the scale is `1.0` multiplied in
double arithmetic, one value after the other, by the scales of the listed inputs, the scales of
the listed intermediates and the listed factors, every product rounded to the nearest double;
when no product rounds, the scale is the exact product of these values. -/
theorem getDerivedScale_eq_rounded_product {n : Nat} (op : LstmOp n) (input_index : Fin n)
    (tensor_property : TensorProperty n) (su : Fin n → UniformQuantizedType)
    (sm : Fin 5 → UniformQuantizedType)
    (hin : ∀ i ∈ tensor_property.derived_scale.input_tensors,
      ∃ arg type, op.operands i = .dequantizeCast arg type ∧
        QuantizedType.getQuantizedElementType arg.getType = some (.uniform (su i)))
    (hmid : ∀ j ∈ tensor_property.derived_scale.intermediate_tensors,
      ∃ t, op.intermediates j = some t ∧
        QuantizedType.getQuantizedElementType t = some (.uniform (sm j))) :
    Fp.getDerivedScale op input_index tensor_property
      = some ((tensor_property.derived_scale.input_tensors.map (fun i => (su i).scale)
            ++ tensor_property.derived_scale.intermediate_tensors.map (fun j => (sm j).scale)
            ++ tensor_property.derived_scale.factors).foldl
          (fun scale value => Double.mul scale (.finite value)) (.finite 1)) ∧
    (Double.productsExact 1
        (tensor_property.derived_scale.input_tensors.map (fun i => (su i).scale)
          ++ tensor_property.derived_scale.intermediate_tensors.map (fun j => (sm j).scale)
          ++ tensor_property.derived_scale.factors) →
      Fp.getDerivedScale op input_index tensor_property
        = some (.finite
          (1 * (tensor_property.derived_scale.input_tensors.map (fun i => (su i).scale)).prod
            * (tensor_property.derived_scale.intermediate_tensors.map
                (fun j => (sm j).scale)).prod
            * tensor_property.derived_scale.factors.prod))) := by
  have h := Fp.getDerivedScale_double_of_scales op input_index tensor_property su sm hin hmid
  refine ⟨h, fun hexact => ?_⟩
  rw [h, Double.foldl_mul_exact _ 1 hexact]
  simp only [List.prod_append, mul_assoc]

/-- Witness of C1 (amended): the example bias, whose dependencies have the scales `1/4`, `1/2`
and `1/8` and whose factor is `2`: no product rounds and the scale is `1/32`. -/
theorem getDerivedScale_eq_rounded_product_witness :
    Fp.getDerivedScale Example.op 2 Example.biasProperty = some (.finite (1 / 32)) := by
  have h := (getDerivedScale_eq_rounded_product Example.op 2 Example.biasProperty
    (fun i => if i = 0 then Example.inputType else Example.weightType)
    (fun _ => Example.hiddenType) Example.op_quantized.1 Example.op_quantized.2).2
    Example.bias_products_exact
  rw [h]
  norm_num [Example.biasProperty, Example.inputType, Example.weightType, Example.hiddenType]

/-! ## Claims on the order of the dependencies -/

theorem Double.max_abs_finite (a b : ℚ) :
    Double.max (Double.abs (.finite a)) (Double.abs (.finite b))
      = .finite (Max.max |a| |b|) := by
  unfold Double.max Double.abs Double.lt
  by_cases h : |a| < |b|
  · simp [h, max_eq_right h.le]
  · simp [h, max_eq_left (not_lt.mp h)]

/-- When `log2` returns a finite value whose ceiling `k` is between `-1074` and `1023`, the
bound is the double `2 ^ k`. -/
theorem Fp.power_of_two_bound_of_log (libm : LibM) (value : Double) (y : ℚ)
    (hlog : libm.log2 value = .finite y) (hlow : -1074 ≤ ⌈y⌉) (hhigh : ⌈y⌉ ≤ 1023) :
    Fp.power_of_two_bound libm value = .finite ((2 : ℚ) ^ ⌈y⌉) := by
  unfold Fp.power_of_two_bound
  rw [hlog]
  simp only [Double.ceil, Double.pow_two, Int.ceil_intCast]
  have h1 : ¬ (1024 : ℚ) < (⌈y⌉ : ℚ) := by
    rw [not_lt]
    have : (⌈y⌉ : ℚ) ≤ ((1023 : Int) : ℚ) := by exact_mod_cast hhigh
    norm_num at this
    linarith
  have h2 : ¬ (⌈y⌉ : ℚ) < -1075 := by
    rw [not_lt]
    have : ((-1074 : Int) : ℚ) ≤ (⌈y⌉ : ℚ) := by exact_mod_cast hlow
    norm_num at this
    linarith
  rw [if_neg h1, if_neg h2]
  exact Double.round_zpow _ hlow hhigh

/-- The quotient of a power of two by `32768` is exact down to `2 ^ (-1074)`. -/
theorem Double.div_zpow (k : Int) (hlow : -1059 ≤ k) (hhigh : k ≤ 1023) :
    Double.div (.finite ((2 : ℚ) ^ k)) (.finite 32768) = .finite ((2 : ℚ) ^ k / 32768) := by
  simp only [Double.div]
  rw [if_neg (by norm_num)]
  have h : (2 : ℚ) ^ k / 32768 = (2 : ℚ) ^ (k - 15) := by
    rw [zpow_sub₀ (by norm_num : (2 : ℚ) ≠ 0)]
    norm_num
  rw [h]
  exact Double.round_zpow _ (by omega) (by omega)

/-- Outside the 16-bit power-of-two branch the two embeddings of `replaceStatsOp` agree, on a
range whose width is a finite double. -/
theorem Fp.replaceStatsOp_eq_exact {n : Nat} (libm : LibM) (op : LstmOp n) (id : Nat)
    (arg : Value) (rmin rmax : ℚ) (type : MlirType) (otherUses : Nat)
    (input_index : Fin n) (tensor_property : TensorProperty n)
    (h : (tensor_property.extend_to_power_of_two = false ∧
        ∃ width, Double.round (rmax - rmin) = .finite width) ∨
      (tensor_property.extend_to_power_of_two = true ∧
        tensor_property.number_of_bits ≠ 16)) :
    Fp.replaceStatsOp libm op
        (.statistics id arg (.denseFPElements [rmin, rmax]) type otherUses)
        input_index tensor_property
      = TFL.replaceStatsOp op
        (.statistics id arg (.denseFPElements [rmin, rmax]) type otherUses)
        input_index tensor_property := by
  unfold Fp.replaceStatsOp TFL.replaceStatsOp
  rcases h with ⟨h, width, hwidth⟩ | ⟨h, hbits⟩
  · simp only [h, Bool.false_eq_true, if_false, Fp.fakeQuantAttrsToType, hwidth]
  · simp only [h, hbits, ne_eq, not_false_eq_true, if_true]

/-- In the 16-bit power-of-two branch, past the state-tensor check, `replaceStatsOp` is the
rewrite applied to the checked type whose scale is the quotient of doubles `bound / 32768`. -/
theorem Fp.replaceStatsOp_double_pow2_eq {n : Nat} (libm : LibM) (op : LstmOp n) (id : Nat)
    (arg : Value) (rmin rmax : ℚ) (type : MlirType) (otherUses : Nat) (input_index : Fin n)
    (tensor_property : TensorProperty n)
    (hbits : tensor_property.number_of_bits = 16)
    (hpow2 : tensor_property.extend_to_power_of_two = true)
    (hstate : tensor_property.state_tensor = true →
      hasOneUse op (.statistics id arg (.denseFPElements [rmin, rmax]) type otherUses) = true) :
    Fp.replaceStatsOp libm op
        (.statistics id arg (.denseFPElements [rmin, rmax]) type otherUses)
        input_index tensor_property
      = TFL.replaceStatsOp.finish op
          (.statistics id arg (.denseFPElements [rmin, rmax]) type otherUses) arg type
          (Fp.getChecked true 16 (getElementTypeOrSelf type)
            (Double.div (Fp.power_of_two_bound libm (.finite (Max.max |rmin| |rmax|)))
              (.finite 32768)) 0 (-32768) 32767) := by
  have hguard : (tensor_property.state_tensor &&
      !hasOneUse op (.statistics id arg (.denseFPElements [rmin, rmax]) type otherUses))
      = false := by
    cases hs : tensor_property.state_tensor with
    | false => rfl
    | true => simp [hstate hs]
  unfold Fp.replaceStatsOp
  simp only [hguard, hbits, hpow2, minIntN, maxIntN, Double.max_abs_finite]
  norm_num

/-- In the 16-bit power-of-two branch, when `log2` returns a finite value whose ceiling `k` is
between `-1059` and `1023`, `replaceStatsOp` succeeds with the signed type of scale
`2 ^ k / 32768`. -/
theorem Fp.replaceStatsOp_double_pow2_success {n : Nat} (libm : LibM) (op : LstmOp n) (id : Nat)
    (arg : Value) (rmin rmax : ℚ) (type : MlirType) (otherUses : Nat) (input_index : Fin n)
    (tensor_property : TensorProperty n) (w : Nat) (y : ℚ)
    (hfloat : getElementTypeOrSelf type = .float w)
    (hbits : tensor_property.number_of_bits = 16)
    (hpow2 : tensor_property.extend_to_power_of_two = true)
    (hstate : tensor_property.state_tensor = true →
      hasOneUse op (.statistics id arg (.denseFPElements [rmin, rmax]) type otherUses) = true)
    (hlog : libm.log2 (.finite (Max.max |rmin| |rmax|)) = .finite y)
    (hlow : -1059 ≤ ⌈y⌉) (hhigh : ⌈y⌉ ≤ 1023) :
    ∃ (T : UniformQuantizedType) (rt : MlirType),
      T.isSigned = true ∧
      T.scale = (2 : ℚ) ^ ⌈y⌉ / 32768 ∧
      T.zeroPoint = 0 ∧ T.storageTypeMin = -32768 ∧ T.storageTypeMax = 32767 ∧
      QuantizedType.getQuantizedElementType rt = some (.uniform T) ∧
      Fp.replaceStatsOp libm op
          (.statistics id arg (.denseFPElements [rmin, rmax]) type otherUses)
          input_index tensor_property
        = .success (replaceStatsOp.rewrite op
            (.statistics id arg (.denseFPElements [rmin, rmax]) type otherUses) arg type rt) := by
  have hscale : (0 : ℚ) < (2 : ℚ) ^ ⌈y⌉ / 32768 := by positivity
  have hT := getChecked_eq_some true 16 w ((2 : ℚ) ^ ⌈y⌉ / 32768) 0 (-32768) 32767
    (by decide) (by decide) (by decide) (by decide) (by decide) hscale
  obtain ⟨rt, hrt, helem⟩ := castFromExpressedType_of_float
    { isSigned := true, storageWidth := 16, expressedWidth := w,
      scale := (2 : ℚ) ^ ⌈y⌉ / 32768, zeroPoint := 0, storageTypeMin := -32768,
      storageTypeMax := 32767 } type hfloat
  refine ⟨_, rt, rfl, rfl, rfl, rfl, rfl, helem, ?_⟩
  rw [Fp.replaceStatsOp_double_pow2_eq libm op id arg rmin rmax type otherUses input_index
    tensor_property hbits hpow2 hstate,
    Fp.power_of_two_bound_of_log libm _ y hlog (by omega) hhigh,
    Double.div_zpow _ hlow hhigh, hfloat]
  simp only [Fp.getChecked, hT, replaceStatsOp.finish, hrt]

/-! ## Claims on the power-of-two scale -/

theorem Example.libm_log2_zero :
    Example.libm.log2 (.finite (Max.max |(0 : ℚ)| |(0 : ℚ)|)) = .infinity true := by
  simp [Example.libm]

theorem Example.libm_log2_three :
    Example.libm.log2 (.finite (Max.max |(-1 : ℚ)| |(3 : ℚ)|)) = .finite (3 / 2) := by
  have hmax : Max.max |(-1 : ℚ)| |(3 : ℚ)| = 3 := by norm_num
  have hlog : Int.log 2 (3 : ℚ) = 1 := by
    apply le_antisymm
    · have := (Int.lt_zpow_iff_log_lt (R := ℚ) (b := 2) (by norm_num)
        (by norm_num : (0 : ℚ) < 3) (x := 2)).mp (by norm_num)
      omega
    · exact (Int.zpow_le_iff_le_log (R := ℚ) (b := 2) (by norm_num)
        (by norm_num : (0 : ℚ) < 3)).mp (by norm_num)
  rw [hmax]
  simp only [Example.libm, hlog, Example.aboveSixteen]
  norm_num

theorem Example.ceil_three_halves : ⌈(3 / 2 : ℚ)⌉ = 2 := by
  rw [Int.ceil_eq_iff]
  norm_num

theorem Example.libm_log2_aboveSixteen :
    Example.libm.log2 (.finite Example.aboveSixteen) = .finite 4 := by
  have h1 : ¬ Example.aboveSixteen < 0 := by norm_num [Example.aboveSixteen]
  have h2 : ¬ Example.aboveSixteen = 0 := by norm_num [Example.aboveSixteen]
  simp only [Example.libm, h1, h2, if_false, if_true]

/-- C5, counterexample: under the 16-bit power-of-two state property no type is built
(a) when the statistics op has a second use: the state-tensor check fails first; and
(b) when the statistics are `(0, 0)`: `log2` returns `-∞`, the bound and the scale are `0`,
the checked constructor rejects the scale, and the null type is dereferenced. -/
theorem power_of_two_type_not_built :
    (numUses Example.sharedStatsOp Example.sharedStats = 2 ∧
      Fp.replaceStatsOp Example.libm Example.sharedStatsOp Example.sharedStats 3
        Example.stateProperty = .failure Example.sharedStatsOp) ∧
    (hasOneUse Example.zeroStatsOp Example.zeroStats = true ∧
      Fp.power_of_two_bound Example.libm (.finite (Max.max |(0 : ℚ)| |(0 : ℚ)|)) = .finite 0 ∧
      Fp.replaceStatsOp Example.libm Example.zeroStatsOp Example.zeroStats 3
        Example.stateProperty = .undefined) := by
  have hbound : Fp.power_of_two_bound Example.libm (.finite (Max.max |(0 : ℚ)| |(0 : ℚ)|))
      = .finite 0 := by
    unfold Fp.power_of_two_bound
    rw [Example.libm_log2_zero]
    rfl
  refine ⟨⟨by decide, ?_⟩, by decide, hbound, ?_⟩
  · have hone : hasOneUse Example.sharedStatsOp
        (.statistics 3 (.blockArgument 1 Example.f32Tensor) (.denseFPElements [-1, 3])
          Example.f32Tensor 1) = false := by decide
    unfold Example.sharedStats Fp.replaceStatsOp
    simp [hone, Example.stateProperty]
  · have h := Fp.replaceStatsOp_double_pow2_eq Example.libm Example.zeroStatsOp 3
      (.blockArgument 1 Example.f32Tensor) 0 0 Example.f32Tensor 0 3 Example.stateProperty
      rfl rfl (fun _ => by decide)
    unfold Example.zeroStats
    rw [h, hbound]
    simp [Double.div, Double.round, Fp.getChecked, UniformQuantizedType.getChecked,
      Example.f32Tensor, getElementTypeOrSelf, replaceStatsOp.finish, minIntN, maxIntN]

/-- C5, amended: under a 16-bit power-of-two property, on a float-typed statistics op that
passes the state-tensor check, when `log2` of `m = max(|min|, |max|)` is a finite double whose
ceiling `k` is between `-1059` and `1023`, the double bound `pow(2, ceil(log2(m)))` is `2 ^ k`,
and `replaceStatsOp` succeeds: the `Q` op it creates carries a signed type of scale
`bound / 32768` (an exact quotient of doubles), zero point `0` and storage range
`[-32768, 32767]`.  When `k` is the ceiling of the real logarithm of `m`, this scale is
`2 ^ ⌈log₂ m⌉ / 32768`. -/
theorem power_of_two_type_built_rounded {n : Nat} (libm : LibM) (op : LstmOp n) (id : Nat)
    (arg : Value) (rmin rmax : ℚ) (type : MlirType) (otherUses : Nat) (input_index : Fin n)
    (tensor_property : TensorProperty n) (w : Nat) (y : ℚ)
    (hfloat : getElementTypeOrSelf type = .float w)
    (hbits : tensor_property.number_of_bits = 16)
    (hpow2 : tensor_property.extend_to_power_of_two = true)
    (hstate : tensor_property.state_tensor = true →
      hasOneUse op (.statistics id arg (.denseFPElements [rmin, rmax]) type otherUses) = true)
    (hlog : libm.log2 (.finite (Max.max |rmin| |rmax|)) = .finite y)
    (hlow : -1059 ≤ ⌈y⌉) (hhigh : ⌈y⌉ ≤ 1023) :
    Fp.power_of_two_bound libm (Double.max (Double.abs (.finite rmin))
        (Double.abs (.finite rmax))) = .finite ((2 : ℚ) ^ ⌈y⌉) ∧
    Double.div (.finite ((2 : ℚ) ^ ⌈y⌉)) (.finite 32768) = .finite ((2 : ℚ) ^ ⌈y⌉ / 32768) ∧
    (∃ (T : UniformQuantizedType) (rt : MlirType),
      T.isSigned = true ∧
      T.scale = (2 : ℚ) ^ ⌈y⌉ / 32768 ∧
      T.zeroPoint = 0 ∧ T.storageTypeMin = -32768 ∧ T.storageTypeMax = 32767 ∧
      QuantizedType.getQuantizedElementType rt = some (.uniform T) ∧
      Fp.replaceStatsOp libm op
          (.statistics id arg (.denseFPElements [rmin, rmax]) type otherUses)
          input_index tensor_property
        = .success (replaceStatsOp.rewrite op
            (.statistics id arg (.denseFPElements [rmin, rmax]) type otherUses) arg type rt)) ∧
    (0 < Max.max |rmin| |rmax| → ⌈y⌉ = Int.clog 2 (Max.max |rmin| |rmax|) →
      (2 : ℚ) ^ ⌈y⌉ / 32768 = TFL.power_of_two_bound (Max.max |rmin| |rmax|) / 32768) := by
  refine ⟨?_, Double.div_zpow _ hlow hhigh,
    Fp.replaceStatsOp_double_pow2_success libm op id arg rmin rmax type otherUses input_index
      tensor_property w y hfloat hbits hpow2 hstate hlog hlow hhigh, ?_⟩
  · rw [Double.max_abs_finite]
    exact Fp.power_of_two_bound_of_log libm _ y hlog (by omega) hhigh
  · intro hm hk
    rw [power_of_two_bound_of_pos hm, hk]

/-- Witness of C5 (amended): the example state with statistics `(-1, 3)`: `log2` returns a
value of ceiling `2`, the bound is `4` and the scale is `4 / 32768`. -/
theorem power_of_two_type_built_rounded_witness :
    ∃ (T : UniformQuantizedType) (rt : MlirType),
      T.isSigned = true ∧
      T.scale = (2 : ℚ) ^ ⌈(3 / 2 : ℚ)⌉ / 32768 ∧
      T.zeroPoint = 0 ∧ T.storageTypeMin = -32768 ∧ T.storageTypeMax = 32767 ∧
      QuantizedType.getQuantizedElementType rt = some (.uniform T) ∧
      Fp.replaceStatsOp Example.libm Example.op
          (.statistics 3 (.blockArgument 1 Example.f32Tensor) (.denseFPElements [-1, 3])
            Example.f32Tensor 0) 3 Example.stateProperty
        = .success (replaceStatsOp.rewrite Example.op
            (.statistics 3 (.blockArgument 1 Example.f32Tensor) (.denseFPElements [-1, 3])
              Example.f32Tensor 0) (.blockArgument 1 Example.f32Tensor) Example.f32Tensor rt) :=
  (power_of_two_type_built_rounded Example.libm Example.op 3
    (.blockArgument 1 Example.f32Tensor) (-1) 3 Example.f32Tensor 0 3 Example.stateProperty 32
    (3 / 2) rfl rfl rfl (fun _ => by decide) Example.libm_log2_three
    (by rw [Example.ceil_three_halves]; norm_num)
    (by rw [Example.ceil_three_halves]; norm_num)).2.2.1

theorem Example.round_aboveSixteen :
    Double.round Example.aboveSixteen = .finite Example.aboveSixteen := by
  have h := Double.round_of_normal Example.aboveSixteen (2 ^ 52 + 1) (-48)
    (by norm_num [Example.aboveSixteen]) (by norm_num [Example.aboveSixteen]) (by norm_num)
    (by norm_num) (by norm_num)
    (by rw [abs_lt]; constructor <;> norm_num [Example.aboveSixteen])
  rw [h]
  norm_num [Example.aboveSixteen]

/-- The real logarithm to base 2 of the first double above 16 lies between `4` and
`4 + 2^-51`, the midpoint of `4` and the next double: the nearest double is `4`. -/
theorem Example.logb_aboveSixteen :
    (4 : ℝ) < Real.logb 2 ((Example.aboveSixteen : ℚ) : ℝ) ∧
    Real.logb 2 ((Example.aboveSixteen : ℚ) : ℝ) < 4 + 1 / 2 ^ 51 := by
  have hcast : ((Example.aboveSixteen : ℚ) : ℝ) = 16 + 1 / 2 ^ 48 := by
    unfold Example.aboveSixteen
    push_cast
    ring
  rw [hcast]
  have hpos : (0 : ℝ) < 16 + 1 / 2 ^ 48 := by positivity
  constructor
  · rw [Real.lt_logb_iff_rpow_lt (by norm_num) hpos]
    have h : (2 : ℝ) ^ (4 : ℝ) = 16 := by
      rw [show (4 : ℝ) = ((4 : ℕ) : ℝ) by norm_num, Real.rpow_natCast]
      norm_num
    rw [h]
    linarith [show (0 : ℝ) < 1 / 2 ^ 48 by positivity]
  · rw [Real.logb_lt_iff_lt_rpow (by norm_num) hpos]
    have h4 : (2 : ℝ) ^ (4 : ℝ) = 16 := by
      rw [show (4 : ℝ) = ((4 : ℕ) : ℝ) by norm_num, Real.rpow_natCast]
      norm_num
    rw [Real.rpow_add (by norm_num), h4, Real.rpow_def_of_pos (by norm_num)]
    have hexp := Real.add_one_le_exp (Real.log 2 * (1 / 2 ^ 51))
    have hlog := Real.log_two_gt_d9
    have hmul : (0.6931471803 : ℝ) * (1 / 2 ^ 51) < Real.log 2 * (1 / 2 ^ 51) :=
      mul_lt_mul_of_pos_right hlog (by positivity)
    have hnum : (16 : ℝ) + 1 / 2 ^ 48 < 16 * (0.6931471803 * (1 / 2 ^ 51) + 1) := by
      norm_num
    nlinarith

/-- C6: at the statistics `(0, 16 + 2^-48)`, whose maximum `m` is the first double above 16,
with a `log2` that returns `4` at `m`, the bound `pow(2, ceil(log2(m)))` is `16`, which is less
than `m`; the least power of two that is not less than `m` is `32`.  The real logarithm of `m`
lies between `4` and `4 + 2^-51`, the midpoint of `4` and the next double, so `4` is what a
`log2` that rounds to the nearest double returns.  `replaceStatsOp` succeeds on a 16-bit
power-of-two property, and the bound implied by the scale of the type it builds is this
`16`. -/
theorem power_of_two_bound_below_value (libm : LibM)
    (hlog : libm.log2 (.finite Example.aboveSixteen) = .finite 4) :
    Double.round Example.aboveSixteen = .finite Example.aboveSixteen ∧
    Max.max |(0 : ℚ)| |Example.aboveSixteen| = Example.aboveSixteen ∧
    Fp.power_of_two_bound libm (.finite Example.aboveSixteen) = .finite 16 ∧
    (16 : ℚ) < Example.aboveSixteen ∧
    (4 : ℝ) < Real.logb 2 ((Example.aboveSixteen : ℚ) : ℝ) ∧
    Real.logb 2 ((Example.aboveSixteen : ℚ) : ℝ) < 4 + 1 / 2 ^ 51 ∧
    TFL.power_of_two_bound Example.aboveSixteen = 32 ∧
    ∃ (T : UniformQuantizedType) (rt : MlirType),
      T.scale * 32768 = 16 ∧
      T.scale * 32768 < Max.max |(0 : ℚ)| |Example.aboveSixteen| ∧
      QuantizedType.getQuantizedElementType rt = some (.uniform T) ∧
      Fp.replaceStatsOp libm Example.aboveSixteenOp Example.aboveSixteenStats 3
          Example.powerOfTwoProperty
        = .success (replaceStatsOp.rewrite Example.aboveSixteenOp Example.aboveSixteenStats
            (.blockArgument 1 Example.f32Tensor) Example.f32Tensor rt) := by
  have hmax : Max.max |(0 : ℚ)| |Example.aboveSixteen| = Example.aboveSixteen := by
    norm_num [Example.aboveSixteen]
  have hceil : ⌈(4 : ℚ)⌉ = 4 := by
    have := Int.ceil_intCast (α := ℚ) 4
    simp
  have hbound : Fp.power_of_two_bound libm (.finite Example.aboveSixteen) = .finite 16 := by
    rw [Fp.power_of_two_bound_of_log libm _ 4 hlog (by rw [hceil]; norm_num)
      (by rw [hceil]; norm_num), hceil]
    norm_num
  have hexact : TFL.power_of_two_bound Example.aboveSixteen = 32 := by
    rw [power_of_two_bound_of_pos (by norm_num [Example.aboveSixteen])]
    have h : Int.clog 2 Example.aboveSixteen = 5 := by
      apply le_antisymm
      · exact (Int.le_zpow_iff_clog_le (R := ℚ) (b := 2) (by norm_num)
          (by norm_num [Example.aboveSixteen])).mp (by norm_num [Example.aboveSixteen])
      · have := (Int.zpow_lt_iff_lt_clog (R := ℚ) (b := 2) (by norm_num)
          (by norm_num [Example.aboveSixteen] : (0 : ℚ) < Example.aboveSixteen)
          (x := 4)).mp (by norm_num [Example.aboveSixteen])
        omega
    rw [h]
    norm_num
  refine ⟨Example.round_aboveSixteen, hmax, hbound, by norm_num [Example.aboveSixteen],
    Example.logb_aboveSixteen.1, Example.logb_aboveSixteen.2, hexact, ?_⟩
  have hlog' : libm.log2 (.finite (Max.max |(0 : ℚ)| |Example.aboveSixteen|)) = .finite 4 := by
    rw [hmax]
    exact hlog
  obtain ⟨T, rt, -, hscale, -, -, -, helem, hsucc⟩ :=
    Fp.replaceStatsOp_double_pow2_success libm Example.aboveSixteenOp 3
      (.blockArgument 1 Example.f32Tensor) 0 Example.aboveSixteen Example.f32Tensor 0 3
      Example.powerOfTwoProperty 32 4 rfl rfl rfl (fun h => absurd h (by decide)) hlog'
      (by rw [hceil]; norm_num) (by rw [hceil]; norm_num)
  refine ⟨T, rt, ?_, ?_, helem, hsucc⟩
  · rw [hscale, hceil]
    norm_num
  · rw [hscale, hceil, hmax]
    norm_num [Example.aboveSixteen]

/-- Witness of C6: the example C library returns `4` at the first double above 16. -/
theorem power_of_two_bound_below_value_witness :
    Fp.power_of_two_bound Example.libm (.finite Example.aboveSixteen) = .finite 16 ∧
    (16 : ℚ) < Example.aboveSixteen :=
  ⟨(power_of_two_bound_below_value Example.libm Example.libm_log2_aboveSixteen).2.2.1,
    (power_of_two_bound_below_value Example.libm Example.libm_log2_aboveSixteen).2.2.2.1⟩

/-! ## Claims on a state tensor with one use -/

/-- C10, counterexample: a state tensor whose statistics op has exactly one use and the
payload `(-1, 3)`, under a property with the power-of-two flag and 8 bits: `replaceStatsOp`
fails. -/
theorem replaceStatsOp_state_flag_8bit_fails :
    Example.narrowStateProperty.state_tensor = true ∧
    hasOneUse Example.op Example.stats = true ∧
    Fp.replaceStatsOp Example.libm Example.op Example.stats 3 Example.narrowStateProperty
      = .failure Example.op := by
  refine ⟨rfl, by decide, ?_⟩
  have hone : hasOneUse Example.op
      (.statistics 3 (.blockArgument 1 Example.f32Tensor) (.denseFPElements [-1, 3])
        Example.f32Tensor 0) = true := by decide
  unfold Example.stats Fp.replaceStatsOp
  simp [hone, Example.narrowStateProperty]

/-- C10, amended: for a state-tensor property, a float statistics op with exactly one use and
a two-value payload `min ≤ max` is replaced successfully by a quantize/dequantize pair when the
power-of-two flag is unset, the bit width is 8 or 16 and the width `max - min` of the range is
a finite double, and when the flag is set, the bit width is 16 and `log2` of
`max(|min|, |max|)` is a finite double whose ceiling is between `-1059` and `1023` (the bound
and the scale `bound / 32768` are then positive doubles); with the flag set and any other bit
width `replaceStatsOp` fails and changes nothing. -/
theorem replaceStatsOp_state_one_use {n : Nat} (libm : LibM) (op : LstmOp n) (id : Nat)
    (arg : Value) (rmin rmax : ℚ) (type : MlirType) (otherUses : Nat) (input_index : Fin n)
    (tensor_property : TensorProperty n) (w : Nat)
    (hstate : tensor_property.state_tensor = true)
    (hone : hasOneUse op (.statistics id arg (.denseFPElements [rmin, rmax]) type otherUses)
      = true)
    (hfloat : getElementTypeOrSelf type = .float w)
    (hle : rmin ≤ rmax) :
    (tensor_property.extend_to_power_of_two = false →
      (tensor_property.number_of_bits = 8 ∨ tensor_property.number_of_bits = 16) →
      (∃ width, Double.round (rmax - rmin) = .finite width) →
      ∃ rt : MlirType,
        Fp.replaceStatsOp libm op
            (.statistics id arg (.denseFPElements [rmin, rmax]) type otherUses)
            input_index tensor_property
          = .success (replaceStatsOp.rewrite op
              (.statistics id arg (.denseFPElements [rmin, rmax]) type otherUses) arg type rt)) ∧
    (tensor_property.extend_to_power_of_two = true → tensor_property.number_of_bits = 16 →
      ∀ y : ℚ, libm.log2 (.finite (Max.max |rmin| |rmax|)) = .finite y →
      -1059 ≤ ⌈y⌉ → ⌈y⌉ ≤ 1023 →
      ∃ rt : MlirType,
        Fp.replaceStatsOp libm op
            (.statistics id arg (.denseFPElements [rmin, rmax]) type otherUses)
            input_index tensor_property
          = .success (replaceStatsOp.rewrite op
              (.statistics id arg (.denseFPElements [rmin, rmax]) type otherUses) arg type rt)) ∧
    (tensor_property.extend_to_power_of_two = true → tensor_property.number_of_bits ≠ 16 →
      Fp.replaceStatsOp libm op
          (.statistics id arg (.denseFPElements [rmin, rmax]) type otherUses)
          input_index tensor_property = .failure op) := by
  refine ⟨?_, ?_, ?_⟩
  · intro hpow2 hbits hwidth
    obtain ⟨sw, qmin, qmax, hparams⟩ := getDefaultStorageParams_isSome false true hbits
    obtain ⟨rt, -, hsucc⟩ := replaceStatsOp_range_success op id arg rmin rmax type otherUses
      input_index tensor_property w sw qmin qmax hfloat hpow2 (fun _ => hone) hparams hle
    rw [Fp.replaceStatsOp_eq_exact libm op id arg rmin rmax type otherUses input_index
      tensor_property (Or.inl ⟨hpow2, hwidth⟩)]
    exact ⟨rt, hsucc⟩
  · intro hpow2 hbits y hlog hlow hhigh
    obtain ⟨T, rt, -, -, -, -, -, -, hsucc⟩ := Fp.replaceStatsOp_double_pow2_success libm op id arg
      rmin rmax type otherUses input_index tensor_property w y hfloat hbits hpow2
      (fun _ => hone) hlog hlow hhigh
    exact ⟨rt, hsucc⟩
  · intro hpow2 hbits
    rw [Fp.replaceStatsOp_eq_exact libm op id arg rmin rmax type otherUses input_index
      tensor_property (Or.inr ⟨hpow2, hbits⟩)]
    unfold TFL.replaceStatsOp
    simp [hstate, hone, hpow2, hbits]

/-- Witness of C10 (amended): the example state under the 16-bit power-of-two property. -/
theorem replaceStatsOp_state_one_use_witness :
    ∃ rt : MlirType,
      Fp.replaceStatsOp Example.libm Example.op
          (.statistics 3 (.blockArgument 1 Example.f32Tensor) (.denseFPElements [-1, 3])
            Example.f32Tensor 0) 3 Example.stateProperty
        = .success (replaceStatsOp.rewrite Example.op
            (.statistics 3 (.blockArgument 1 Example.f32Tensor) (.denseFPElements [-1, 3])
              Example.f32Tensor 0) (.blockArgument 1 Example.f32Tensor) Example.f32Tensor rt) :=
  (replaceStatsOp_state_one_use Example.libm Example.op 3 (.blockArgument 1 Example.f32Tensor)
    (-1) 3 Example.f32Tensor 0 3 Example.stateProperty 32 rfl (by decide) rfl
    (by norm_num)).2.1 rfl rfl (3 / 2) Example.libm_log2_three
    (by rw [Example.ceil_three_halves]; norm_num)
    (by rw [Example.ceil_three_halves]; norm_num)

end TFL
